import Mathlib

/-!
# The threaded cache core of `thread.c`: dispatch, locks, log writers, recovery

A shallow embedding of the functions of `src/thread.c` that hand connections to
workers, take the item locks and switch their mode, push item images to the
per-slab-class log writers, write and rotate the log files, drive the snapshot
timer, and replay the files at start-up.

Conventions of the embedding.

* Process-wide variables live in one record, `World`; a C function becomes a
  function from `World` to `World` (inside `Except Fault` when the C code can
  dereference a null pointer, inside `Run` when it also has a loop that need not
  end).
* Pointers to queue records are natural numbers (addresses), the null pointer is
  `Option.none`, and the records themselves sit in the maps `cq_mem` and
  `lq_mem`.  `malloc` hands out the next unused addresses starting at `brk`.
* The mutexes of the queues, the freelists and the counters are not modelled:
  every function here is run to completion by one thread, so their
  `pthread_mutex_lock` / `unlock` pairs leave no trace in the state.  The item
  locks have a record of their own, `Locks`, on which `item_lock` and
  `item_unlock` act; the replay code takes and releases an item lock around
  each link and unlink, which leaves `Locks` as it was.
* The switch of the lock mode involves several threads and is run in a step
  model: the switcher writes its bytes, then the workers and the listener take
  steps in any order, each step one call run to completion, and the switcher
  returns in the first state in which its wait is over.
* `write` of one byte to a notify pipe always succeeds and appends the byte to
  the pipe; `read` takes the oldest byte.
* Files are a map from paths to contents.  A stream opened with `"ab+"` is
  known by the path it was opened on, and what is written to it is flushed at
  once, as the source does.
* Whether a call of `malloc`, `calloc` or `item_alloc` succeeds is read off a
  script held in the state, so that every pattern of allocation failures is a
  state the theorems range over.
* Faults are values: a null dereference, a division by zero, a call of `free`
  on a queue record (a pointer into a chunk of records), an index at or past
  the length of `log_threads`, and a frame that does not fit the stack.  The
  state holds the stack size of its threads, `stack_limit`; threads are created
  with default attributes, so this is the stack limit the process was started
  under.
* `memcached.h`, the item subsystem and the slab allocator are not among the
  sources.  The item accessors are a parameter `ItemLayout`; the table of linked
  items and the slab class function are modelled from the spec and marked so.
-/

namespace Memcached

/-! ## Bytes, memory, faults -/

/-- A byte of memory or of a file. -/
abbrev Byte := Nat

/-- Memory seen from a base address: offset to byte. -/
abbrev Mem := Nat → Byte

/-- The way a run of the C code can break. -/
inductive Fault where
  /-- A load or store through a null pointer. -/
  | null_deref
  /-- The operator `%` with a zero divisor. -/
  | div_by_zero
  /-- The call `free(p)` on a queue record: `p` points inside a chunk that
  `malloc` returned, or at the chunk itself while its records are in use, and
  the caller stores through `p` right after. -/
  | invalid_free
  /-- An array indexed at or past its length. -/
  | out_of_bounds
  /-- A stack frame that does not fit the stack of the thread. -/
  | stack_overflow
  deriving DecidableEq, Repr

/-- The result of running code that contains a `while` loop: it returns, it
breaks, or the step budget given to the model was used up first. -/
inductive Run (α : Type) where
  | ok (a : α)
  | fault (f : Fault)
  | outOfFuel
  deriving DecidableEq, Repr

/-- Sequencing of runs. -/
def Run.bind {α β : Type} (r : Run α) (k : α → Run β) : Run β :=
  match r with
  | Run.ok a => k a
  | Run.fault f => Run.fault f
  | Run.outOfFuel => Run.outOfFuel

/-- The result of a run seen through `f`. -/
def Run.map {α β : Type} (f : α → β) (r : Run α) : Run β :=
  r.bind (fun a => Run.ok (f a))

/-- The bytes of a list seen as memory; past its end the memory reads zero. -/
def view (l : List Byte) : Mem := fun i => l.getD i 0

/-- The bytes `m[0 .. n)`. -/
def bytes (m : Mem) (n : Nat) : List Byte := (List.range n).map m

/-- Memory `m` with the list `bs` stored at offset `off`. -/
def store (m : Mem) (off : Nat) (bs : List Byte) : Mem :=
  fun i => if off ≤ i ∧ i < off + bs.length then bs.getD (i - off) 0 else m i

/-- The effect of `memcpy(buf, buf + src, n)` on the buffer `buf`. -/
def memcpy_front (buf : Mem) (src n : Nat) : Mem :=
  fun i => if i < n then buf (src + i) else buf i

/-! ## Items -/

/-- Modelled from the spec: the item accessors of `memcached.h`, which is not
among the sources.  The core treats an item as "an opaque prefix-lengthed blob
with a known total-size function `ntotal(item)`"; each accessor reads the item
that starts at offset 0 of the memory it is given. -/
structure ItemLayout where
  /-- The macro `ITEM_ntotal(item)`. -/
  ITEM_ntotal : Mem → Nat
  /-- The test `(item->it_flags & ITEM_LINKED) != 0`. -/
  linked : Mem → Bool
  /-- The field `item->nkey`. -/
  nkey : Mem → Nat
  /-- The field `item->nbytes`. -/
  nbytes : Mem → Nat
  /-- The offset of `ITEM_key(item)` from the start of the item. -/
  key_off : Mem → Nat
  /-- The offset of `ITEM_data(item)` from the start of the item. -/
  data_off : Mem → Nat

/-- The `nkey` bytes at `ITEM_key(item)`. -/
def ITEM_key (L : ItemLayout) (m : Mem) : List Byte :=
  (List.range (L.nkey m)).map (fun i => m (L.key_off m + i))

/-- The first `n` bytes at `ITEM_data(item)`. -/
def ITEM_data (L : ItemLayout) (m : Mem) (n : Nat) : List Byte :=
  (List.range n).map (fun i => m (L.data_off m + i))

/-- The item image: the `ITEM_ntotal(item)` bytes that start at the item. -/
def image (L : ItemLayout) (m : Mem) : List Byte := bytes m (L.ITEM_ntotal m)

/-- Little-endian value of the four bytes at offset `o`. -/
def le32 (m : Mem) (o : Nat) : Nat :=
  m o % 256 + 256 * (m (o + 1) % 256) + 65536 * (m (o + 2) % 256)
    + 16777216 * (m (o + 3) % 256)

/-- Modelled from the spec: one concrete wire layout, used to run the code on
explicit files (the real structure is declared in `memcached.h`, which is not
among the sources).  An eight-byte header `it_flags, nkey, nsuffix,
slabs_clsid, nbytes[4]` is followed by the CAS token when the bit `ITEM_CAS`
(2) is set, the key, one separator byte, the suffix and the value; the bit
`ITEM_LINKED` is 1. -/
def packed : ItemLayout where
  ITEM_ntotal := fun m =>
    8 + m 1 % 256 + 1 + m 2 % 256 + le32 m 4 + (if m 0 / 2 % 2 = 1 then 8 else 0)
  linked := fun m => m 0 % 2 = 1
  nkey := fun m => m 1 % 256
  nbytes := fun m => le32 m 4
  key_off := fun m => 8 + (if m 0 / 2 % 2 = 1 then 8 else 0)
  data_off := fun m =>
    8 + (if m 0 / 2 % 2 = 1 then 8 else 0) + m 1 % 256 + 1 + m 2 % 256

/-- The image, in the layout `packed`, of an item without CAS token and without
suffix, for a key and a value shorter than 256 bytes. -/
def packed_image (it_flags : Nat) (key value : List Byte) : List Byte :=
  [it_flags, key.length, 0, 0, value.length, 0, 0, 0] ++ key ++ [0] ++ value

/-! ## Queue records -/

/-- The lock mode of a thread (`enum item_lock_types`). -/
inductive item_lock_types where
  | ITEM_LOCK_GRANULAR
  | ITEM_LOCK_GLOBAL
  deriving DecidableEq, Repr

/-- The record `struct conn_queue_item`. -/
structure CQ_ITEM where
  sfd : Int
  init_state : Nat
  event_flags : Int
  read_buffer_size : Int
  transport : Nat
  next : Option Nat
  deriving DecidableEq, Repr

/-- The record `struct conn_queue`, without its mutex. -/
structure CQ where
  head : Option Nat
  tail : Option Nat
  deriving DecidableEq, Repr

/-- The log record `LQ_ITEM`: the owned item copy (its bytes, or null) and the
link to the next record. -/
structure LQ_ITEM where
  item : Option (List Byte)
  next : Option Nat
  deriving DecidableEq, Repr

/-- The record `struct log_queue`, without its mutex. -/
structure LQ where
  head : Option Nat
  tail : Option Nat
  deriving DecidableEq, Repr

/-- The fields of `LIBEVENT_THREAD` that `thread.c` reads or writes: the
handoff queue, the bytes waiting in the notify pipe, the lock mode. -/
structure LIBEVENT_THREAD where
  new_conn_queue : CQ
  notify : List Char
  item_lock_type : item_lock_types

/-- The fields of `LIBEVENT_LOG_THREAD` that `thread.c` reads or writes.  The
stream `log_fd` is null or open on the path it was opened with. -/
structure LIBEVENT_LOG_THREAD where
  new_log_queue : LQ
  notify : List Char
  log_fd : Option String
  log_filepath : String
  slab_no : Nat

/-- What the replay code was seen doing, in order. -/
inductive Event where
  /-- Entry into `redo_file` with this path, `begin_recover` having this value. -/
  | redo_file (fpath : String) (begin_recover : Int)
  /-- One pass of the record loop of `redo_file`, over the record with this image. -/
  | replay (img : List Byte)
  deriving DecidableEq, Repr

/-- The process-wide state. -/
structure World where
  /-- The setting `settings.num_threads`. -/
  num_threads : Int
  /-- The setting `settings.persisted_data_path`. -/
  persisted_data_path : String
  /-- The setting `settings.change_num_need_snapshop`. -/
  change_num_need_snapshop : Nat
  /-- The counter `stats.slabs_num`. -/
  slabs_num : Nat
  /-- The counter `stats.malloc_fails`. -/
  malloc_fails : Nat
  /-- The counter `stats.changes_after_last_snapshot`. -/
  changes_after_last_snapshot : Nat
  /-- The outcome of the coming calls of `malloc`, `calloc` and `item_alloc`,
  oldest first; a call made when the list is empty succeeds. -/
  heap_script : List Bool
  /-- The first address `malloc` has not handed out. -/
  brk : Nat
  /-- The sockets passed to `close`, newest first. -/
  closed : List Int
  /-- The handoff records by address. -/
  cq_mem : Nat → CQ_ITEM
  /-- The variable `cqi_freelist`. -/
  cqi_freelist : Option Nat
  /-- The array `threads`. -/
  threads : Nat → LIBEVENT_THREAD
  /-- The variable `last_thread`. -/
  last_thread : Int
  /-- The variable `init_count`. -/
  init_count : Int
  /-- The log records by address. -/
  lq_mem : Nat → LQ_ITEM
  /-- The variable `lqi_freelist`. -/
  lqi_freelist : Option Nat
  /-- The array `log_threads`. -/
  log_threads : Nat → LIBEVENT_LOG_THREAD
  /-- The variable `begin_recover`. -/
  begin_recover : Int
  /-- The variable `recover_finished`. -/
  recover_finished : Int
  /-- The files by path; an absent path maps to `none`. -/
  fs : String → Option (List Byte)
  /-- The linked items, the most recently linked first. -/
  table : List (List Byte)
  /-- The bytes an uninitialised array on the stack of the recovery thread holds. -/
  stack : Mem
  /-- The size of the stack of the recovery thread, which `recover_thread_init`
  creates with default attributes: the stack limit the process was started
  under. -/
  stack_limit : Nat
  /-- The replay events so far, oldest first. -/
  trace : List Event

/-- One call of `malloc`, `calloc` or `item_alloc`: whether it succeeds. -/
def World.alloc (w : World) : Bool × World :=
  match w.heap_script with
  | [] => (true, w)
  | b :: rest => (b, { w with heap_script := rest })

/-! ## The item table -/

/-- Modelled from the spec: `do_item_alloc` of the item subsystem, which is not
among the sources.  It returns a fresh item or nothing; the wrapper
`item_alloc` of `thread.c` passes the result on. -/
def item_alloc (w : World) : Bool × World := w.alloc

/-- Modelled from the spec: `do_item_link` of the item subsystem, which is not
among the sources.  The item joins the table. -/
def do_item_link (w : World) (it : List Byte) : World :=
  { w with table := it :: w.table }

/-- Modelled from the spec: `do_item_get` of the item subsystem, which is not
among the sources, behind the wrapper `item_get`: the linked item with this
key, the most recently linked one first, or nothing. -/
def item_get (L : ItemLayout) (w : World) (key : List Byte) : Option (List Byte) :=
  w.table.find? (fun it => decide (ITEM_key L (view it) = key))

/-- Modelled from the spec: `do_item_unlink` of the item subsystem, which is
not among the sources.  The item leaves the table. -/
def do_item_unlink (w : World) (it : List Byte) : World :=
  { w with table := w.table.erase it }

/-! ## Replay of one file -/

/-- The size of `read_buffer` in `redo_file`: 8 MiB. -/
def buffer_size : Nat := 1024 * 1024 * 8

/-- A stream opened for reading: the bytes of the file, the read position and
the end-of-file indicator. -/
structure FILE where
  content : List Byte
  pos : Nat
  eof : Bool
  deriving DecidableEq, Repr

/-- The call `fread(ptr, sizeof(char), n, fp)`: the bytes read and the stream
after the call.  The end-of-file indicator is raised when fewer than `n` bytes
were left. -/
def fread (fp : FILE) (n : Nat) : List Byte × FILE :=
  let got := (fp.content.drop fp.pos).take n
  (got, { fp with pos := fp.pos + got.length, eof := fp.eof || decide (got.length < n) })

/-- The body of the record loop of `redo_file`, lines 1257 to 1276, for the
record at `cr_item`. -/
def redo_record (L : ItemLayout) (cr_item : Mem) (w : World) : Except Fault World :=
  let w := { w with trace := w.trace ++ [Event.replay (image L cr_item)] }
  if L.linked cr_item then
    -- cw_item = item_alloc(...); memcpy(cw_item, cr_item, ITEM_ntotal(cr_item));
    match item_alloc w with
    | (false, _) => Except.error Fault.null_deref
    | (true, w1) => Except.ok (do_item_link w1 (image L cr_item))
  else
    -- cw_item = item_get(...); ITEM_ntotal(cw_item) reads through cw_item
    match item_get L w (ITEM_key L cr_item) with
    | none => Except.error Fault.null_deref
    | some cw_item =>
      if L.ITEM_ntotal (view cw_item) = L.ITEM_ntotal cr_item
          ∧ L.nbytes (view cw_item) = L.nbytes cr_item then
        if ITEM_data L (view cw_item) (L.nbytes cr_item)
            ≠ ITEM_data L cr_item (L.nbytes cr_item) then
          Except.ok (do_item_unlink w cw_item)
        else Except.ok w
      else Except.ok w

/-- The record loop of `redo_file`, lines 1256 to 1280.  `cr_item` is set
before the loop and the loop does not assign it; `current_ptr` and
`processed_size` advance by `ITEM_ntotal(cr_item)`.  `avail` is the value of
`buffer_size - need_to_read_size + file_readed_length`.  The result is the
final pair `(current_ptr, processed_size)` and the world. -/
def redo_records (L : ItemLayout) (cr_item : Mem) (avail : Nat) :
    Nat → Nat → Nat → World → Run ((Nat × Nat) × World)
  | 0, _, _, _ => Run.outOfFuel
  | fuel + 1, current_ptr, processed_size, w =>
    if processed_size + L.ITEM_ntotal cr_item ≤ avail then
      match redo_record L cr_item w with
      | Except.error f => Run.fault f
      | Except.ok w1 =>
        redo_records L cr_item avail fuel (current_ptr + L.ITEM_ntotal cr_item)
          (processed_size + L.ITEM_ntotal cr_item) w1
    else Run.ok ((current_ptr, processed_size), w)

/-- The local variables of `redo_file` that live across passes of its outer
loop. -/
structure RedoLocals where
  fp : FILE
  read_buffer : Mem
  need_to_read_size : Nat
  /-- The offset of `read_begin_ptr` in `read_buffer`. -/
  read_begin_ptr : Nat

/-- The outer loop of `redo_file`, lines 1250 to 1286, for a buffer of `bsz`
bytes.  Each pass of either loop costs one unit of `fuel`. -/
def redo_loop (L : ItemLayout) (bsz fuel0 : Nat) :
    Nat → RedoLocals → World → Run (RedoLocals × World)
  | 0, _, _ => Run.outOfFuel
  | fuel + 1, st, w =>
    if st.fp.eof then Run.ok (st, w)
    else
      let (got, fp1) := fread st.fp st.need_to_read_size
      let buf1 := store st.read_buffer st.read_begin_ptr got
      let file_readed_length := got.length
      -- current_ptr = read_buffer; cr_item = (item *)current_ptr; processed_size = 0;
      match redo_records L buf1 (bsz - st.need_to_read_size + file_readed_length) fuel0 0 0 w with
      | Run.fault f => Run.fault f
      | Run.outOfFuel => Run.outOfFuel
      | Run.ok ((current_ptr, processed_size), w1) =>
        redo_loop L bsz fuel0 fuel
          { fp := fp1
            read_buffer := memcpy_front buf1 current_ptr (bsz - processed_size)
            need_to_read_size := processed_size
            read_begin_ptr := bsz - processed_size } w1

/-- The stack limit a process has by default, 8 MiB, which is also the size
of the stack of a thread created with default attributes. -/
def default_stack_limit : Nat := 1024 * 1024 * 8

/-- The statements of `redo_file`, lines 1241 to 1287, with a buffer of `bsz`
bytes: the return value and the world after the call.  `access(fpath, R_OK)`
succeeds when the file exists.  The array `read_buffer` is not initialised: it
starts with what the stack holds and its last content stays on the stack. -/
def redo_file_body (L : ItemLayout) (bsz fuel : Nat) (fpath : String) (w : World) :
    Run (Int × World) :=
  let w := { w with trace := w.trace ++ [Event.redo_file fpath w.begin_recover] }
  match w.fs fpath with
  | none => Run.ok (1, w)
  | some content =>
    (redo_loop L bsz fuel fuel
        { fp := { content := content, pos := 0, eof := false }
          read_buffer := w.stack
          need_to_read_size := bsz
          read_begin_ptr := 0 } w).bind
      (fun r => Run.ok (0, { r.2 with stack := r.1.read_buffer }))

/-- The function `redo_file` with a buffer of `bsz` bytes.  The array
`read_buffer` lives in the frame of the function, line 1230: when the stack of
the thread is not larger than the array, the frame does not fit, and the first
call the function makes, `access`, faults before any statement has an
effect. -/
def redo_file_sized (L : ItemLayout) (bsz fuel : Nat) (fpath : String) (w : World) :
    Run (Int × World) :=
  if w.stack_limit ≤ bsz then Run.fault Fault.stack_overflow
  else redo_file_body L bsz fuel fpath w

/-- The function `redo_file`, lines 1228 to 1288. -/
def redo_file (L : ItemLayout) (fuel : Nat) (fpath : String) (w : World) :
    Run (Int × World) :=
  redo_file_sized L buffer_size fuel fpath w

/-! ## The recovery pass -/

/-- The path `sprintf("%s/snapshot", settings.persisted_data_path)`. -/
def snapshot_path (w : World) : String := w.persisted_data_path ++ "/snapshot"

/-- The path `sprintf("%s/log_%d", settings.persisted_data_path, i)`. -/
def log_path (w : World) (i : Nat) : String :=
  w.persisted_data_path ++ "/log_" ++ toString i

/-- The path `sprintf("%s.snapshot_before", log_filepath)`. -/
def snapshot_before_path (log_filepath : String) : String :=
  log_filepath ++ ".snapshot_before"

/-- The loop of `recover`, lines 1212 to 1218, entered with this value of
`slab_num`. -/
def recover_logs (L : ItemLayout) (fuel0 : Nat) : Nat → Nat → World → Run World
  | 0, _, _ => Run.outOfFuel
  | fuel + 1, slab_num, w =>
    if (w.fs (log_path w slab_num)).isSome then
      (redo_file L fuel0 (snapshot_before_path (log_path w slab_num)) w).bind fun r1 =>
      (redo_file L fuel0 (log_path r1.2 slab_num) r1.2).bind fun r2 =>
      recover_logs L fuel0 fuel (slab_num + 1) r2.2
    else Run.ok w

/-- The function `recover`, lines 1195 to 1226. -/
def recover (L : ItemLayout) (fuel : Nat) (w : World) : Run World :=
  let w1 := { w with begin_recover := 1 }
  (redo_file L fuel (snapshot_path w1) w1).bind fun r0 =>
  (recover_logs L fuel fuel 0 r0.2).bind fun w2 =>
  Run.ok { w2 with begin_recover := 0, recover_finished := 1 }

/-! ## Handoff queue and its freelist -/

/-- The constant `ITEMS_PER_ALLOC`. -/
def ITEMS_PER_ALLOC : Nat := 64

/-- The assignment `item->next = n` on a handoff record. -/
def cq_set_next (mem : Nat → CQ_ITEM) (item : Nat) (n : Option Nat) : Nat → CQ_ITEM :=
  Function.update mem item { mem item with next := n }

/-- The function `cq_pop`: the record taken (or null), and the queue after. -/
def cq_pop (mem : Nat → CQ_ITEM) (cq : CQ) : Option Nat × CQ :=
  match cq.head with
  | none => (none, cq)
  | some item =>
    let head := (mem item).next
    (some item, { head := head, tail := if head = none then none else cq.tail })

/-- The function `cq_push`: the records and the queue after. -/
def cq_push (mem : Nat → CQ_ITEM) (cq : CQ) (item : Nat) : (Nat → CQ_ITEM) × CQ :=
  let mem1 := cq_set_next mem item none
  match cq.tail with
  | none => (mem1, { head := some item, tail := some item })
  | some t => (cq_set_next mem1 t (some item), { head := cq.head, tail := some item })

/-- The loop `for (i = i0; i < i0 + n; i++) item[i - 1].next = &item[i];` of
`cqi_new`, for the chunk at address `item`. -/
def cq_link_chunk (item : Nat) : Nat → Nat → (Nat → CQ_ITEM) → (Nat → CQ_ITEM)
  | 0, _, mem => mem
  | n + 1, i, mem => cq_link_chunk item n (i + 1) (cq_set_next mem (item + i - 1) (some (item + i)))

/-- The function `cqi_new`: the record obtained (or null), and the world after. -/
def cqi_new (w : World) : Option Nat × World :=
  match w.cqi_freelist with
  | some item => (some item, { w with cqi_freelist := (w.cq_mem item).next })
  | none =>
    -- item = malloc(sizeof(CQ_ITEM) * ITEMS_PER_ALLOC);
    match w.alloc with
    | (false, w1) => (none, { w1 with malloc_fails := w1.malloc_fails + 1 })
    | (true, w1) =>
      let item := w1.brk
      let mem1 := cq_link_chunk item (ITEMS_PER_ALLOC - 2) 2 w1.cq_mem
      let mem2 := cq_set_next mem1 (item + (ITEMS_PER_ALLOC - 1)) w1.cqi_freelist
      (some item, { w1 with
        brk := item + ITEMS_PER_ALLOC
        cq_mem := mem2
        cqi_freelist := some (item + 1) })

/-- The function `cqi_free`. -/
def cqi_free (w : World) (item : Nat) : World :=
  { w with
    cq_mem := cq_set_next w.cq_mem item w.cqi_freelist
    cqi_freelist := some item }

/-- The function `dispatch_conn_new`, lines 451 to 481. -/
def dispatch_conn_new (w : World) (sfd : Int) (init_state : Nat) (event_flags : Int)
    (read_buffer_size : Int) (transport : Nat) : Except Fault World :=
  match cqi_new w with
  | (none, w1) => Except.ok { w1 with closed := sfd :: w1.closed }
  | (some item, w1) =>
    if w1.num_threads = 0 then Except.error Fault.div_by_zero
    else
      let tid : Int := (w1.last_thread + 1).tmod w1.num_threads
      let thread := w1.threads tid.toNat
      let mem1 := Function.update w1.cq_mem item
        { w1.cq_mem item with
          sfd := sfd
          init_state := init_state
          event_flags := event_flags
          read_buffer_size := read_buffer_size
          transport := transport }
      let (mem2, cq) := cq_push mem1 thread.new_conn_queue item
      Except.ok { w1 with
        last_thread := tid
        cq_mem := mem2
        threads := Function.update w1.threads tid.toNat
          { thread with new_conn_queue := cq, notify := thread.notify ++ ['c'] } }

/-! ## Log queue and its freelist -/

/-- The constant `LOG_ITEMS_PER_ALLOC`. -/
def LOG_ITEMS_PER_ALLOC : Nat := 32

/-- The assignment `item->next = n` on a log record. -/
def lq_set_next (mem : Nat → LQ_ITEM) (item : Nat) (n : Option Nat) : Nat → LQ_ITEM :=
  Function.update mem item { mem item with next := n }

/-- The function `lq_pop`: the record taken (or null), and the queue after. -/
def lq_pop (mem : Nat → LQ_ITEM) (lq : LQ) : Option Nat × LQ :=
  match lq.head with
  | none => (none, lq)
  | some item =>
    let head := (mem item).next
    (some item, { head := head, tail := if head = none then none else lq.tail })

/-- The function `lq_push`: the records and the queue after. -/
def lq_push (mem : Nat → LQ_ITEM) (lq : LQ) (item : Nat) : (Nat → LQ_ITEM) × LQ :=
  let mem1 := lq_set_next mem item none
  match lq.tail with
  | none => (mem1, { head := some item, tail := some item })
  | some t => (lq_set_next mem1 t (some item), { head := lq.head, tail := some item })

/-- The loop `for (i = i0; i < i0 + n; i++) item[i - 1].next = &item[i];` of
`lqi_new`, for the chunk at address `item`. -/
def lq_link_chunk (item : Nat) : Nat → Nat → (Nat → LQ_ITEM) → (Nat → LQ_ITEM)
  | 0, _, mem => mem
  | n + 1, i, mem => lq_link_chunk item n (i + 1) (lq_set_next mem (item + i - 1) (some (item + i)))

/-- The function `lqi_new`: the record obtained (or null), and the world after. -/
def lqi_new (w : World) : Option Nat × World :=
  match w.lqi_freelist with
  | some item => (some item, { w with lqi_freelist := (w.lq_mem item).next })
  | none =>
    -- item = malloc(sizeof(LQ_ITEM) * LOG_ITEMS_PER_ALLOC);
    match w.alloc with
    | (false, w1) => (none, { w1 with malloc_fails := w1.malloc_fails + 1 })
    | (true, w1) =>
      let item := w1.brk
      let mem1 := lq_link_chunk item (LOG_ITEMS_PER_ALLOC - 2) 2 w1.lq_mem
      let mem2 := lq_set_next mem1 (item + (LOG_ITEMS_PER_ALLOC - 1)) w1.lqi_freelist
      (some item, { w1 with
        brk := item + LOG_ITEMS_PER_ALLOC
        lq_mem := mem2
        lqi_freelist := some (item + 1) })

/-- The function `lqi_free`, lines 933 to 941.  When the record holds an item
copy the source passes the record itself to `free`, not the copy.  The record
is one of the `LOG_ITEMS_PER_ALLOC` records of a chunk: for all but the first
record of a chunk `free` gets a pointer into the middle of a block; for the
first record it releases the whole chunk, whose other records are in use, and
the next statement stores through the released pointer.  Both are the fault
`invalid_free` here. -/
def lqi_free (w : World) (item : Nat) : Except Fault World :=
  if (w.lq_mem item).item ≠ none then
    -- free(item);
    Except.error Fault.invalid_free
  else
    Except.ok { w with
      lq_mem := lq_set_next w.lq_mem item w.lqi_freelist
      lqi_freelist := some item }

/-! ## Log writers -/

/-- The function `notify_log`, lines 1147 to 1170, for the item at `vitem`.
`slabs_clsid` is the function of that name of the slab allocator, which is not
among the sources.  The total size is kept as a natural number (the source
stores it in an `int`) and the counter `changes_after_last_snapshot` does not
wrap.  The array `log_threads` has `stats.slabs_num` entries and the source
indexes it with the class unchecked: a class at or past that number is a
fault. -/
def notify_log (L : ItemLayout) (slabs_clsid : Nat → Nat) (w : World) (vitem : Mem) :
    Except Fault World :=
  let item_ntotal := L.ITEM_ntotal vitem
  if w.begin_recover ≠ 0 then Except.ok w
  else
    -- copy_item = calloc(item_ntotal, sizeof(int)); memcpy(copy_item, vitem, item_ntotal);
    match w.alloc with
    | (false, _) => Except.error Fault.null_deref
    | (true, w1) =>
      let copy_item := bytes vitem item_ntotal ++ List.replicate (3 * item_ntotal) 0
      let id := slabs_clsid item_ntotal
      -- LQ_ITEM *log_item = lqi_new(); log_item->item = copy_item;
      match lqi_new w1 with
      | (none, _) => Except.error Fault.null_deref
      | (some log_item, w2) =>
        let mem1 := Function.update w2.lq_mem log_item
          { w2.lq_mem log_item with item := some copy_item }
        -- log_threads[id]: the array has stats.slabs_num entries, line 950
        if w2.slabs_num ≤ id then Except.error Fault.out_of_bounds
        else
          let me := w2.log_threads id
          let (mem2, lq) := lq_push mem1 me.new_log_queue log_item
          Except.ok { w2 with
            lq_mem := mem2
            log_threads := Function.update w2.log_threads id
              { me with new_log_queue := lq, notify := me.notify ++ ['l'] }
            changes_after_last_snapshot := w2.changes_after_last_snapshot + 1 }

/-- The call `fwrite(ptr, n, 1, fp)` followed by `fflush(fp)` on a stream
opened with mode `"ab+"` on `path`: the bytes go to the end of the file. -/
def fwrite (w : World) (path : String) (bs : List Byte) : World :=
  { w with fs := Function.update w.fs path (some ((w.fs path).getD [] ++ bs)) }

/-- The call `rename(old, new)`: it fails, changing nothing, when `old` does
not exist. -/
def rename (w : World) (old new : String) : World :=
  match w.fs old with
  | none => w
  | some content =>
    { w with fs := Function.update (Function.update w.fs new (some content)) old none }

/-- The call `fopen(path, "ab+")`, taken to succeed: the file is created when
it does not exist. -/
def fopen_append (w : World) (path : String) : World :=
  { w with fs := Function.update w.fs path (some ((w.fs path).getD [])) }

/-- The call `unlink(path)`. -/
def unlink (w : World) (path : String) : World :=
  { w with fs := Function.update w.fs path none }

/-- The `switch` of `log_event_process`, lines 1043 to 1080, run by log writer
`i` on the byte `b` it has read. -/
def log_event_switch (L : ItemLayout) (w : World) (i : Nat) (b : Char) : Except Fault World :=
  let me := w.log_threads i
  if b = 'l' then
    let (lq_item, lq) := lq_pop w.lq_mem me.new_log_queue
    let w1 := { w with
      log_threads := Function.update w.log_threads i { me with new_log_queue := lq } }
    match me.log_fd with
    | none => Except.ok w1
    | some fd =>
      match lq_item with
      | none => Except.ok w1
      | some p =>
        -- item_p = lq_item->item; ITEM_ntotal(item_p) reads through item_p
        match (w1.lq_mem p).item with
        | none => Except.error Fault.null_deref
        | some item_p =>
          let w2 := fwrite w1 fd (bytes (view item_p) (L.ITEM_ntotal (view item_p)))
          lqi_free w2 p
  else if b = 's' then
    -- fclose(me->log_fd) reads through the stream pointer
    match me.log_fd with
    | none => Except.error Fault.null_deref
    | some _ =>
      let w1 := rename w me.log_filepath (snapshot_before_path me.log_filepath)
      let w2 := fopen_append w1 me.log_filepath
      Except.ok { w2 with
        log_threads := Function.update w2.log_threads i
          { me with log_fd := some me.log_filepath } }
  else if b = 'd' then
    Except.ok (unlink w (snapshot_before_path me.log_filepath))
  else Except.ok w

/-- The function `log_event_process`, lines 1031 to 1082, run by log writer
`i`: it reads one byte from its notify pipe and acts on it.  With an empty pipe
nothing is done. -/
def log_event_process (L : ItemLayout) (w : World) (i : Nat) : Except Fault World :=
  let me := w.log_threads i
  match me.notify with
  | [] => Except.ok w
  | b :: rest =>
    log_event_switch L
      { w with log_threads := Function.update w.log_threads i { me with notify := rest } } i b

/-! ## States used to run the code -/

/-- The state right after `thread_init` and `log_thread_init` in an empty data
directory `dir`: every queue and freelist is empty, no byte waits in a pipe,
`last_thread` is -1, and each of the `slabs_num` log writers holds its file
`dir/log_i`, just created by `fopen(path, "ab+")`.  The process was started
under a stack limit of 16 MiB, twice the default, so that the frame of
`redo_file` fits the stack of the recovery thread. -/
def boot (num_threads : Int) (slabs_num : Nat) (dir : String) : World where
  num_threads := num_threads
  persisted_data_path := dir
  change_num_need_snapshop := 1
  slabs_num := slabs_num
  malloc_fails := 0
  changes_after_last_snapshot := 0
  heap_script := []
  brk := 0
  closed := []
  cq_mem := fun _ =>
    { sfd := 0, init_state := 0, event_flags := 0, read_buffer_size := 0, transport := 0,
      next := none }
  cqi_freelist := none
  threads := fun _ =>
    { new_conn_queue := { head := none, tail := none }
      notify := []
      item_lock_type := item_lock_types.ITEM_LOCK_GRANULAR }
  last_thread := -1
  init_count := num_threads
  lq_mem := fun _ => { item := none, next := none }
  lqi_freelist := none
  log_threads := fun i =>
    { new_log_queue := { head := none, tail := none }
      notify := []
      log_fd := if i < slabs_num then some (dir ++ "/log_" ++ toString i) else none
      log_filepath := dir ++ "/log_" ++ toString i
      slab_no := i }
  begin_recover := 0
  recover_finished := 0
  fs := fun p =>
    if (List.range slabs_num).any (fun i => p = dir ++ "/log_" ++ toString i) then some []
    else none
  table := []
  stack := fun _ => 0
  stack_limit := 2 * buffer_size
  trace := []

/-- The world with the file `path` holding `content`. -/
def World.put (w : World) (path : String) (content : List Byte) : World :=
  { w with fs := Function.update w.fs path (some content) }

/-- The calls of `redo_file` in a trace: path and value of `begin_recover`. -/
def redo_calls (t : List Event) : List (String × Int) :=
  t.filterMap fun e =>
    match e with
    | Event.redo_file p b => some (p, b)
    | Event.replay _ => none

/-- The images the record loop of `redo_file` went over, in a trace. -/
def replayed (t : List Event) : List (List Byte) :=
  t.filterMap fun e =>
    match e with
    | Event.redo_file _ _ => none
    | Event.replay img => some img

/-- The function `redo_file` called on each path of a list in turn. -/
def replay_files (L : ItemLayout) (fuel : Nat) : List String → World → Run World
  | [], w => Run.ok w
  | p :: ps, w => (redo_file L fuel p w).bind fun r => replay_files L fuel ps r.2

/-- The paths `snapshot`, then `log_s.snapshot_before` and `log_s` for
`s = 0, ..., m - 1`, under the data directory of `w`. -/
def recover_paths (w : World) (m : Nat) : List String :=
  snapshot_path w ::
    (List.range m).flatMap fun s => [snapshot_before_path (log_path w s), log_path w s]

/-- What a replay leaves alone: the files, the data directory, the variable
`begin_recover`, and the calls of `redo_file` noted so far. -/
def ReplayFrame (w w' : World) : Prop :=
  w'.fs = w.fs ∧ w'.persisted_data_path = w.persisted_data_path
    ∧ w'.begin_recover = w.begin_recover ∧ redo_calls w'.trace = redo_calls w.trace

/-! ## Lists threaded through `next` fields -/

/-- The chain of records from `p` to null: following `next` from `p` goes
through the records of `l`, in order, and then reaches the null pointer. -/
def Seg (next : Nat → Option Nat) : Option Nat → List Nat → Prop
  | p, [] => p = none
  | p, a :: l => p = some a ∧ Seg next (next a) l

/-- The pointers of one kind of record: the `next` fields, the freelist, the
head and tail of each queue, and the end of the allocated addresses. -/
structure Pool where
  next : Nat → Option Nat
  freelist : Option Nat
  head : Nat → Option Nat
  tail : Nat → Option Nat
  brk : Nat

/-- The pointers of a pool are sound: the freelist holds the records `fl`,
queue `t` holds the records `qs t` from head to tail, no record occurs twice
and every record has been allocated. -/
structure PoolInv (P : Pool) (fl : List Nat) (qs : Nat → List Nat) : Prop where
  free : Seg P.next P.freelist fl
  queue : ∀ t, Seg P.next (P.head t) (qs t)
  tail : ∀ t, P.tail t = (qs t).getLast?
  nodup_free : fl.Nodup
  nodup_queue : ∀ t, (qs t).Nodup
  free_queue : ∀ t, ∀ p ∈ qs t, p ∉ fl
  queue_queue : ∀ t u, t ≠ u → ∀ p ∈ qs t, p ∉ qs u
  free_below : ∀ p ∈ fl, p < P.brk
  queue_below : ∀ t, ∀ p ∈ qs t, p < P.brk

/-- The pool of handoff records: `cqi_freelist` and the queues of the workers. -/
def cq_pool (w : World) : Pool where
  next := fun p => (w.cq_mem p).next
  freelist := w.cqi_freelist
  head := fun t => (w.threads t).new_conn_queue.head
  tail := fun t => (w.threads t).new_conn_queue.tail
  brk := w.brk

/-- The pool of log records: `lqi_freelist` and the queues of the log writers. -/
def lq_pool (w : World) : Pool where
  next := fun p => (w.lq_mem p).next
  freelist := w.lqi_freelist
  head := fun t => (w.log_threads t).new_log_queue.head
  tail := fun t => (w.log_threads t).new_log_queue.tail
  brk := w.brk

/-- Allocation succeeds from now on: no coming call of `malloc`, `calloc` or
`item_alloc` returns null. -/
def AllocOk (w : World) : Prop := ∀ b ∈ w.heap_script, b = true

/-! ## Runs of several calls -/

/-- The arguments of one call of `dispatch_conn_new`. -/
structure Handoff where
  sfd : Int
  init_state : Nat
  event_flags : Int
  read_buffer_size : Int
  transport : Nat

/-- The calls `dispatch_conn_new(c.sfd, ...)` for the connections of a list,
one after the other. -/
def dispatch_all : World → List Handoff → Except Fault World
  | w, [] => Except.ok w
  | w, c :: cs =>
    match dispatch_conn_new w c.sfd c.init_state c.event_flags c.read_buffer_size
        c.transport with
    | Except.ok w1 => dispatch_all w1 cs
    | Except.error f => Except.error f

/-- The share of worker `t` among `N` in a list dealt out in turn, the first
element of the list having number `j`: the elements whose number is `t`
modulo `N`. -/
def share {α : Type} (N t : Nat) : Nat → List α → List α
  | _, [] => []
  | j, r :: rs => if j % N = t then r :: share N t (j + 1) rs else share N t (j + 1) rs

/-- The fault a call ended with, if it did. -/
def fault_of (r : Except Fault World) : Option Fault :=
  match r with
  | Except.error f => some f
  | Except.ok _ => none

/-! ## The log pipeline around one writer -/

/-- The call `write(log_threads[i].notify_send_fd, buf, 1)` with `buf[0] = b`. -/
def send_byte (w : World) (i : Nat) (b : Char) : World :=
  { w with
    log_threads := Function.update w.log_threads i
      { w.log_threads i with notify := (w.log_threads i).notify ++ [b] } }

/-- The copy `notify_log` makes of the item at `vitem`: `calloc(item_ntotal,
sizeof(int))` bytes, the first `item_ntotal` of them copied from the item. -/
def copy_of (L : ItemLayout) (vitem : Mem) : List Byte :=
  bytes vitem (L.ITEM_ntotal vitem) ++ List.replicate (3 * L.ITEM_ntotal vitem) 0

/-- One step of the pipeline around log writer `i`: a worker calls
`notify_log` on an item, the snapshot thread sends the byte `s` or the byte `d`
to writer `i`, or writer `i` runs `log_event_process` once. -/
inductive LogStep where
  | submit (vitem : Mem)
  | rotate
  | finish
  | handle

/-- The steps of a list run one after the other. -/
def run_log (L : ItemLayout) (sc : Nat → Nat) (i : Nat) : World → List LogStep →
    Except Fault World
  | w, [] => Except.ok w
  | w, LogStep.submit v :: ops =>
    match notify_log L sc w v with
    | Except.ok w1 => run_log L sc i w1 ops
    | Except.error f => Except.error f
  | w, LogStep.rotate :: ops => run_log L sc i (send_byte w i 's') ops
  | w, LogStep.finish :: ops => run_log L sc i (send_byte w i 'd') ops
  | w, LogStep.handle :: ops =>
    match log_event_process L w i with
    | Except.ok w1 => run_log L sc i w1 ops
    | Except.error f => Except.error f

/-! ## Item locks -/

/-- The macro `hashsize(n)`, `(unsigned long int)1 << n`, with 64-bit long. -/
def hashsize (n : Nat) : Nat := 2 ^ n % 2 ^ 64

/-- The macro `hashmask(n)`, `hashsize(n) - 1`, with 64-bit long. -/
def hashmask (n : Nat) : Nat := (hashsize n + 2 ^ 64 - 1) % 2 ^ 64

/-- The item locks: the variables `item_lock_hashpower` and `item_lock_count`,
the array `item_locks` and the mutex `item_global_lock`.  A mutex is `true`
while a thread holds it. -/
structure Locks where
  item_lock_hashpower : Nat
  item_lock_count : Nat
  item_locks : Nat → Bool
  item_global_lock : Bool

/-- The call `mutex_lock(m)`: the mutex after the call, or nothing when the
mutex is held, in which case the call does not return until the holder
releases it. -/
def mutex_lock (m : Bool) : Option Bool := if m then none else some true

/-- The call `mutex_unlock(m)`: the mutex after the call. -/
def mutex_unlock (_m : Bool) : Bool := false

/-- The function `item_lock`, lines 127 to 134.  `lock_type` is the value the
thread-specific pointer `item_lock_type_key` leads to. -/
def item_lock (k : Locks) (lock_type : item_lock_types) (hv : Nat) : Option Locks :=
  if lock_type = item_lock_types.ITEM_LOCK_GRANULAR then
    let i := hv &&& hashmask k.item_lock_hashpower
    (mutex_lock (k.item_locks i)).map fun m =>
      { k with item_locks := Function.update k.item_locks i m }
  else
    (mutex_lock k.item_global_lock).map fun m => { k with item_global_lock := m }

/-- The function `item_unlock`, lines 155 to 162. -/
def item_unlock (k : Locks) (lock_type : item_lock_types) (hv : Nat) : Locks :=
  if lock_type = item_lock_types.ITEM_LOCK_GRANULAR then
    let i := hv &&& hashmask k.item_lock_hashpower
    { k with item_locks := Function.update k.item_locks i (mutex_unlock (k.item_locks i)) }
  else
    { k with item_global_lock := mutex_unlock k.item_global_lock }

/-- The exponent `power` that `thread_init` selects, lines 799 to 808. -/
def thread_init_power (nthreads : Int) : Nat :=
  if nthreads < 3 then 10
  else if nthreads < 4 then 11
  else if nthreads < 5 then 12
  else 13

/-- The lock table that `thread_init` sets up, lines 798 to 822.  The variable
`item_lock_count` is a `uint32_t`.  `calloc_ok` tells whether `calloc` returns
the array; the function calls `exit(1)` when it does not. -/
def thread_init_lock_table (nthreads : Int) (calloc_ok : Bool) : Option Locks :=
  let power := thread_init_power nthreads
  let item_lock_count := hashsize power % 2 ^ 32
  if calloc_ok then
    some
      { item_lock_hashpower := power
        item_lock_count := item_lock_count
        item_locks := fun _ => false
        item_global_lock := false }
  else none

/-! ## Runs of queue operations -/

/-- The calls `cq_push(cq, r)` for the records of a list, one after the other. -/
def cq_push_all : (Nat → CQ_ITEM) → CQ → List Nat → (Nat → CQ_ITEM) × CQ
  | mem, cq, [] => (mem, cq)
  | mem, cq, r :: rs => cq_push_all (cq_push mem cq r).1 (cq_push mem cq r).2 rs

/-- The results of `n` calls `cq_pop(cq)` in a row, and the queue after them. -/
def cq_pop_n (mem : Nat → CQ_ITEM) : Nat → CQ → List (Option Nat) × CQ
  | 0, cq => ([], cq)
  | n + 1, cq =>
    ((cq_pop mem cq).1 :: (cq_pop_n mem n (cq_pop mem cq).2).1,
      (cq_pop_n mem n (cq_pop mem cq).2).2)

/-- The calls `lq_push(lq, r)` for the records of a list, one after the other. -/
def lq_push_all : (Nat → LQ_ITEM) → LQ → List Nat → (Nat → LQ_ITEM) × LQ
  | mem, lq, [] => (mem, lq)
  | mem, lq, r :: rs => lq_push_all (lq_push mem lq r).1 (lq_push mem lq r).2 rs

/-- The results of `n` calls `lq_pop(lq)` in a row, and the queue after them. -/
def lq_pop_n (mem : Nat → LQ_ITEM) : Nat → LQ → List (Option Nat) × LQ
  | 0, lq => ([], lq)
  | n + 1, lq =>
    ((lq_pop mem lq).1 :: (lq_pop_n mem n (lq_pop mem lq).2).1,
      (lq_pop_n mem n (lq_pop mem lq).2).2)

/-! ## Worker notifications and the switch of the lock mode -/

/-- How a call of a handler ends: it returns, or it ends the process by
`exit(status)`. -/
inductive Ended where
  | returned (w : World)
  | exited (status : Int)

/-- The function `register_thread_initialized`, lines 170 to 175. -/
def register_thread_initialized (w : World) : World :=
  { w with init_count := w.init_count + 1 }

/-- The `switch` of `thread_libevent_process`, lines 407 to 440, run by worker
`t` on the byte `b` it has read.  `is_udp` is the macro `IS_UDP` of
`memcached.h` and `conn_new_ok` tells whether `conn_new` returns a connection;
neither is among the sources, and the connection itself is not part of the
state. -/
def thread_libevent_switch (is_udp : Nat → Bool) (conn_new_ok : Bool) (w : World) (t : Nat)
    (b : Char) : Ended :=
  let me := w.threads t
  if b = 'c' then
    let (item, cq) := cq_pop w.cq_mem me.new_conn_queue
    let w1 := { w with threads := Function.update w.threads t { me with new_conn_queue := cq } }
    match item with
    | none => Ended.returned w1
    | some p =>
      if conn_new_ok then
        -- c->thread = me;
        Ended.returned (cqi_free w1 p)
      else if is_udp (w1.cq_mem p).transport then Ended.exited 1
      else Ended.returned (cqi_free { w1 with closed := (w1.cq_mem p).sfd :: w1.closed } p)
  else if b = 'l' then
    Ended.returned (register_thread_initialized
      { w with
        threads := Function.update w.threads t
          { me with item_lock_type := item_lock_types.ITEM_LOCK_GRANULAR } })
  else if b = 'g' then
    Ended.returned (register_thread_initialized
      { w with
        threads := Function.update w.threads t
          { me with item_lock_type := item_lock_types.ITEM_LOCK_GLOBAL } })
  else Ended.returned w

/-- The function `thread_libevent_process`, lines 398 to 441, run by worker
`t`: it reads one byte from its notify pipe and acts on it.  With an empty pipe
nothing is done. -/
def thread_libevent_process (is_udp : Nat → Bool) (conn_new_ok : Bool) (w : World)
    (t : Nat) : Ended :=
  let me := w.threads t
  match me.notify with
  | [] => Ended.returned w
  | b :: rest =>
    thread_libevent_switch is_udp conn_new_ok
      { w with threads := Function.update w.threads t { me with notify := rest } } t b

/-- The call `write(threads[i].notify_send_fd, buf, 1)` with `buf[0] = b`. -/
def send_worker_byte (w : World) (i : Nat) (b : Char) : World :=
  { w with
    threads := Function.update w.threads i
      { w.threads i with notify := (w.threads i).notify ++ [b] } }

/-- The byte `switch_item_lock_type` puts in `buf[0]`, lines 181 to 192.  The
`default` branch is for values outside the enumeration. -/
def lock_type_byte : item_lock_types → Char
  | item_lock_types.ITEM_LOCK_GRANULAR => 'l'
  | item_lock_types.ITEM_LOCK_GLOBAL => 'g'

/-- What another thread does while the switcher waits. -/
inductive WorkerStep where
  /-- Worker `t` runs `thread_libevent_process` once; `conn_new_ok` tells
  whether a call of `conn_new` in it returns a connection. -/
  | process (t : Nat) (conn_new_ok : Bool)
  /-- The listener calls `dispatch_conn_new` for this connection. -/
  | dispatch (c : Handoff)

/-- One step of another thread; nothing when the step ends the process or
faults. -/
def worker_step (is_udp : Nat → Bool) (w : World) : WorkerStep → Option World
  | WorkerStep.process t conn_new_ok =>
    match thread_libevent_process is_udp conn_new_ok w t with
    | Ended.returned w1 => some w1
    | Ended.exited _ => none
  | WorkerStep.dispatch c =>
    match dispatch_conn_new w c.sfd c.init_state c.event_flags c.read_buffer_size
        c.transport with
    | Except.ok w1 => some w1
    | Except.error _ => none

/-- The function `wait_for_thread_registration`, lines 164 to 168, in the step
model: each time the switcher finds `init_count < nthreads` it waits while the
other threads take the next step of `sched`; it returns in the first state in
which the test fails, and has not returned when `sched` is used up before. -/
def wait_for_thread_registration (is_udp : Nat → Bool) (nthreads : Int) :
    World → List WorkerStep → Option World
  | w, [] => if w.init_count < nthreads then none else some w
  | w, s :: sched =>
    if w.init_count < nthreads then
      match worker_step is_udp w s with
      | none => none
      | some w1 => wait_for_thread_registration is_udp nthreads w1 sched
    else some w

/-- The function `switch_item_lock_type`, lines 177 to 204, in the step model:
the state in which it returns, if it does while the other threads run
`sched`. -/
def switch_item_lock_type (is_udp : Nat → Bool) (w : World) (type : item_lock_types)
    (sched : List WorkerStep) : Option World :=
  let buf := lock_type_byte type
  let w1 := { w with init_count := 0 }
  let w2 := (List.range w1.num_threads.toNat).foldl (fun v i => send_worker_byte v i buf) w1
  wait_for_thread_registration is_udp w2.num_threads w2 sched

/-- The bytes of a pipe that ask for a lock mode: `l` and `g`. -/
def mode_bytes (pipe : List Char) : List Char :=
  pipe.filter fun b => b = 'l' || b = 'g'

/-- The number of workers below `n` marked by `reg`. -/
def marked (reg : Nat → Bool) : Nat → Nat
  | 0 => 0
  | n + 1 => marked reg n + (if reg n then 1 else 0)

/-! ## The snapshot timer -/

/-- The loop `for (i = 0; i < stats.slabs_num; i++)
write(log_threads[i].notify_send_fd, buf, 1);` with `buf[0] = b`. -/
def send_all (w : World) (b : Char) : World :=
  (List.range w.slabs_num).foldl (fun v i => send_byte v i b) w

/-- The function `snapshot_process`, lines 1115 to 1144: the world after the
call, and whether `snapshot_ev_timer` is armed after it.  The heap walk
`snapshot_all_slab` is not among the sources and is a parameter. -/
def snapshot_process (snapshot_all_slab : World → World) (w : World) : World × Bool :=
  let w' :=
    if w.begin_recover = 0 ∧ w.changes_after_last_snapshot ≥ w.change_num_need_snapshop then
      let w1 := { w with changes_after_last_snapshot := 0 }
      let w2 := send_all w1 's'
      let w3 := snapshot_all_slab w2
      send_all w3 'd'
    else w
  -- event_add(&snapshot_ev_timer, &snapshot_tv);
  (w', true)

/-- Modelled from the spec: `snapshot_all_slab`, which is not among the
sources.  It writes the file `snapshot` under the data directory: the images
of the linked items, the oldest first. -/
def snapshot_all_slab (w : World) : World :=
  w.put (snapshot_path w) w.table.reverse.flatten

/-- A switch to mode `m` among `N` workers is under way, `reg` marking the
workers that have registered: `init_count` counts them; a worker that has not
registered has the byte of `m` as the only mode byte in its pipe; a worker that
has registered has no mode byte in its pipe and its flag is `m`; beyond the
workers no pipe holds a mode byte. -/
structure Switching (N : Nat) (m : item_lock_types) (reg : Nat → Bool) (w : World) :
    Prop where
  workers : w.num_threads = N
  count : w.init_count = marked reg N
  pending : ∀ t, reg t = false → t < N →
    mode_bytes (w.threads t).notify = [lock_type_byte m]
  idle : ∀ t, reg t = false → N ≤ t → mode_bytes (w.threads t).notify = []
  done : ∀ t, reg t = true →
    t < N ∧ mode_bytes (w.threads t).notify = [] ∧ (w.threads t).item_lock_type = m

/-! ## Runs of freelist operations -/

/-- The chunks allocated between the worlds `w` and `w'` when every chunk
`malloc` has handed out in between has `size` records: `malloc` hands out the
addresses from `brk` on, so each chunk moves `brk` by `size`. -/
def chunks_allocated (size : Nat) (w w' : World) : Nat := (w'.brk - w.brk) / size

/-- `n` calls of `cqi_new` in a row: the records obtained, the first one
first, and the world after. -/
def cqi_new_n : Nat → World → List Nat × World
  | 0, w => ([], w)
  | n + 1, w =>
    match cqi_new w with
    | (none, w1) => cqi_new_n n w1
    | (some item, w1) => (item :: (cqi_new_n n w1).1, (cqi_new_n n w1).2)

/-- The calls `cqi_free(r)` for the records of a list, one after the other. -/
def cqi_free_all : World → List Nat → World
  | w, [] => w
  | w, r :: rs => cqi_free_all (cqi_free w r) rs

/-- `n` calls of `cqi_new` and then `cqi_free` on each record obtained. -/
def cq_new_then_free (n : Nat) (w : World) : World :=
  cqi_free_all (cqi_new_n n w).2 (cqi_new_n n w).1

/-- `n` times a call of `cqi_new` followed at once by `cqi_free` on the record
obtained. -/
def cq_new_free_pairs : Nat → World → World
  | 0, w => w
  | n + 1, w =>
    match cqi_new w with
    | (none, w1) => cq_new_free_pairs n w1
    | (some item, w1) => cq_new_free_pairs n (cqi_free w1 item)

/-- `n` calls of `lqi_new` in a row: the records obtained, the first one
first, and the world after. -/
def lqi_new_n : Nat → World → List Nat × World
  | 0, w => ([], w)
  | n + 1, w =>
    match lqi_new w with
    | (none, w1) => lqi_new_n n w1
    | (some item, w1) => (item :: (lqi_new_n n w1).1, (lqi_new_n n w1).2)

/-- The calls `lqi_free(r)` for the records of a list, one after the other. -/
def lqi_free_all : World → List Nat → Except Fault World
  | w, [] => Except.ok w
  | w, r :: rs =>
    match lqi_free w r with
    | Except.ok w1 => lqi_free_all w1 rs
    | Except.error f => Except.error f

/-- `n` calls of `lqi_new` and then `lqi_free` on each record obtained. -/
def lq_new_then_free (n : Nat) (w : World) : Except Fault World :=
  lqi_free_all (lqi_new_n n w).2 (lqi_new_n n w).1

/-- `n` times a call of `lqi_new` followed at once by `lqi_free` on the record
obtained. -/
def lq_new_free_pairs : Nat → World → Except Fault World
  | 0, w => Except.ok w
  | n + 1, w =>
    match lqi_new w with
    | (none, w1) => lq_new_free_pairs n w1
    | (some item, w1) =>
      match lqi_free w1 item with
      | Except.ok w2 => lq_new_free_pairs n w2
      | Except.error f => Except.error f

/-- The chunks of `size` records allocated by a run from `w`, when the run
returns. -/
def chunks_of_run (size : Nat) (w : World) (r : Except Fault World) : Option Nat :=
  match r with
  | Except.ok w1 => some (chunks_allocated size w w1)
  | Except.error _ => none

/-! ## Outcomes of handlers -/

/-- The status a handler call ended the process with, if it did. -/
def exit_status : Ended → Option Int
  | Ended.returned _ => none
  | Ended.exited status => some status

/-- Modelled from the spec: the transport kind of a handoff record is TCP or
UDP, and the macro `IS_UDP` that line 415 applies to it lives in `memcached.h`,
which is not among the sources.  The kinds are numbered `local_transport`,
`tcp_transport`, `udp_transport`, and `IS_UDP(x)` is `x == udp_transport`. -/
def IS_UDP (x : Nat) : Bool := x == 2

/-- A schedule in which each of the `n` workers from `t` on, in turn, handles
every byte that waited in its pipe in `w` and one byte more, `conn_new`
succeeding each time. -/
def drain_from (w : World) : Nat → Nat → List WorkerStep
  | 0, _ => []
  | n + 1, t =>
    List.replicate (w.threads t).notify.length (WorkerStep.process t true)
      ++ WorkerStep.process t true :: drain_from w n (t + 1)

end Memcached

namespace Memcached

/-! ## Replay of one file: what the record loop does -/

/-- Claim C1, the code at a two-record file.  The file holds the linked image of
key `k` followed by the linked image of key `m`; `redo_file` returns 0 having
gone over the first image twice and over the second image never, so the table
holds two items of key `k` and none of key `m`. -/
theorem redo_file_repeats_first_record :
    (redo_file packed 8 "d/log_0"
        ((boot 4 1 "d").put "d/log_0"
          (packed_image 1 [107] [49] ++ packed_image 1 [109] [50]))).map
      (fun r => (r.1, replayed r.2.trace, r.2.table))
    = Run.ok (0, [packed_image 1 [107] [49], packed_image 1 [107] [49]],
        [packed_image 1 [107] [49], packed_image 1 [107] [49]]) := by
  decide

/-- Claim C2, the code at the hand-built log.  The file holds the image of key
`k` with value `1` and the flag LINKED, then the image of the same key and
value without the flag; after `redo_file` the lookup of `k` still finds the
item. -/
theorem redo_file_link_then_unlink_keeps_key :
    (redo_file packed 8 "d/log_0"
        ((boot 4 1 "d").put "d/log_0"
          (packed_image 1 [107] [49] ++ packed_image 0 [107] [49]))).map
      (fun r => (r.1, replayed r.2.trace, item_get packed r.2 [107]))
    = Run.ok (0, [packed_image 1 [107] [49], packed_image 1 [107] [49]],
        some (packed_image 1 [107] [49])) := by
  decide

/-- The unlink branch on its own: with key `k` linked with value `1`, a file
holding only the unflagged image of `k` with the same value leaves the item in
the table (the `memcmp` of equal values is 0), and the unflagged image of `k`
with another value of the same length removes it. -/
theorem redo_file_unlinks_only_on_different_value :
    (redo_file packed 8 "d/log_0"
        ({ boot 4 1 "d" with table := [packed_image 1 [107] [49]] }.put "d/log_0"
          (packed_image 0 [107] [49]))).map (fun r => r.2.table)
      = Run.ok [packed_image 1 [107] [49]]
    ∧ (redo_file packed 8 "d/log_0"
        ({ boot 4 1 "d" with table := [packed_image 1 [107] [49]] }.put "d/log_0"
          (packed_image 0 [107] [50]))).map (fun r => r.2.table)
      = Run.ok [] := by
  decide

/-- Claim C8, the code when `item_alloc` returns nothing.  The file holds two
linked images and the first allocation fails: `redo_file` stores through the
null pointer in `memcpy(cw_item, cr_item, ...)`, and the second record is never
reached. -/
theorem redo_file_faults_when_item_alloc_fails :
    (redo_file packed 8 "d/log_0"
        ({ boot 4 1 "d" with heap_script := [false] }.put "d/log_0"
          (packed_image 1 [107] [49] ++ packed_image 1 [109] [50]))).map (fun r => r.2.table)
      = Run.fault Fault.null_deref := by
  decide


/-! ## The recovery pass -/

theorem ReplayFrame.refl (w : World) : ReplayFrame w w := ⟨rfl, rfl, rfl, rfl⟩

theorem ReplayFrame.trans {a b c : World} (h1 : ReplayFrame a b) (h2 : ReplayFrame b c) :
    ReplayFrame a c :=
  ⟨h2.1.trans h1.1, h2.2.1.trans h1.2.1, h2.2.2.1.trans h1.2.2.1, h2.2.2.2.trans h1.2.2.2⟩

theorem redo_record_frame (L : ItemLayout) (m : Mem) (w w' : World)
    (h : redo_record L m w = Except.ok w') : ReplayFrame w w' := by
  unfold redo_record at h
  simp only [item_alloc, World.alloc, do_item_link, do_item_unlink] at h
  split at h
  · split at h
    · cases h
    · rename_i heq
      cases h
      split at heq
      · cases heq
        simp [ReplayFrame, redo_calls, List.filterMap_append]
      · cases heq
        simp [ReplayFrame, redo_calls, List.filterMap_append]
  · split at h
    · cases h
    · split at h
      · split at h <;> cases h <;> simp [ReplayFrame, redo_calls, List.filterMap_append]
      · cases h; simp [ReplayFrame, redo_calls, List.filterMap_append]

theorem redo_records_frame (L : ItemLayout) (m : Mem) (avail : Nat) :
    ∀ (fuel cp ps : Nat) (w : World) (r : (Nat × Nat) × World),
      redo_records L m avail fuel cp ps w = Run.ok r → ReplayFrame w r.2 := by
  intro fuel
  induction fuel with
  | zero => intro cp ps w r h; simp [redo_records] at h
  | succ n ih =>
    intro cp ps w r h
    rw [redo_records] at h
    split at h
    · split at h
      · cases h
      · rename_i w1 h1
        exact (redo_record_frame L m w w1 h1).trans (ih _ _ _ _ h)
    · cases h; exact ReplayFrame.refl w

theorem redo_loop_frame (L : ItemLayout) (bsz fuel0 : Nat) :
    ∀ (fuel : Nat) (st : RedoLocals) (w : World) (r : RedoLocals × World),
      redo_loop L bsz fuel0 fuel st w = Run.ok r → ReplayFrame w r.2 := by
  intro fuel
  induction fuel with
  | zero => intro st w r h; simp [redo_loop] at h
  | succ n ih =>
    intro st w r h
    rw [redo_loop] at h
    split at h
    · cases h; exact ReplayFrame.refl w
    · simp only at h
      split at h
      · cases h
      · cases h
      · rename_i cp ps w1 h1
        exact (redo_records_frame L _ _ _ _ _ _ _ h1).trans (ih _ _ _ h)

/-- A call of `redo_file` that returns leaves the files, the data directory and
`begin_recover` as they were and adds itself to the calls noted in the trace. -/
theorem redo_file_frame (L : ItemLayout) (fuel : Nat) (p : String) (w : World)
    (r : Int × World) (h : redo_file L fuel p w = Run.ok r) :
    r.2.fs = w.fs ∧ r.2.persisted_data_path = w.persisted_data_path
      ∧ r.2.begin_recover = w.begin_recover
      ∧ redo_calls r.2.trace = redo_calls w.trace ++ [(p, w.begin_recover)] := by
  unfold redo_file redo_file_sized at h
  split at h
  · cases h
  unfold redo_file_body at h
  simp only at h
  split at h
  · cases h
    simp [redo_calls, List.filterMap_append]
  · rename_i content hc
    generalize hrl : redo_loop L buffer_size fuel fuel _ _ = res at h
    cases res with
    | ok a =>
      have hf := redo_loop_frame L _ _ _ _ _ _ hrl
      simp only [Run.bind] at h
      cases h
      obtain ⟨h1, h2, h3, h4⟩ := hf
      refine ⟨h1, h2, h3, ?_⟩
      simp only [h4]
      simp [redo_calls, List.filterMap_append]
    | fault f => simp [Run.bind] at h
    | outOfFuel => simp [Run.bind] at h


theorem log_path_congr {w w' : World} (h : w'.persisted_data_path = w.persisted_data_path)
    (x : Nat) : log_path w' x = log_path w x := by
  simp [log_path, h]

theorem recover_logs_eq (L : ItemLayout) (fuel0 : Nat) :
    ∀ (k s fuel : Nat) (w : World),
      (∀ x, s ≤ x → x < s + k → (w.fs (log_path w x)).isSome) →
      w.fs (log_path w (s + k)) = none → k < fuel →
      recover_logs L fuel0 fuel s w
        = replay_files L fuel0
            ((List.range' s k).flatMap fun x =>
              [snapshot_before_path (log_path w x), log_path w x]) w := by
  intro k
  induction k with
  | zero =>
    intro s fuel w _ hnone hfuel
    obtain ⟨f, rfl⟩ : ∃ f, fuel = f + 1 := ⟨fuel - 1, by omega⟩
    simp only [Nat.add_zero] at hnone
    simp [recover_logs, hnone, replay_files]
  | succ k ih =>
    intro s fuel w hsome hnone hfuel
    obtain ⟨f, rfl⟩ : ∃ f, fuel = f + 1 := ⟨fuel - 1, by omega⟩
    have hs : (w.fs (log_path w s)).isSome := hsome s (le_refl s) (by omega)
    rw [recover_logs, if_pos hs, List.range'_succ, List.flatMap_cons]
    simp only [List.cons_append, List.nil_append, replay_files]
    cases h1 : redo_file L fuel0 (snapshot_before_path (log_path w s)) w with
    | fault e => simp [Run.bind]
    | outOfFuel => simp [Run.bind]
    | ok r1 =>
      obtain ⟨hfs1, hp1, -, -⟩ := redo_file_frame L fuel0 _ w r1 h1
      simp only [Run.bind]
      rw [log_path_congr hp1]
      cases h2 : redo_file L fuel0 (log_path w s) r1.2 with
      | fault e => simp
      | outOfFuel => simp
      | ok r2 =>
        obtain ⟨hfs2, hp2, -, -⟩ := redo_file_frame L fuel0 _ r1.2 r2 h2
        simp only
        have hp : r2.2.persisted_data_path = w.persisted_data_path := hp2.trans hp1
        have hfs : r2.2.fs = w.fs := hfs2.trans hfs1
        have := ih (s + 1) f r2.2
          (by
            intro x hx1 hx2
            rw [log_path_congr hp, hfs]
            exact hsome x (by omega) (by omega))
          (by
            rw [log_path_congr hp, hfs]
            have : s + 1 + k = s + (k + 1) := by omega
            rw [this]; exact hnone)
          (by omega)
        rw [this]
        have hl : (fun x => [snapshot_before_path (log_path r2.2 x), log_path r2.2 x])
            = (fun x => [snapshot_before_path (log_path w x), log_path w x]) := by
          funext x; rw [log_path_congr hp]
        rw [hl]
        rfl

theorem replay_files_calls (L : ItemLayout) (fuel : Nat) :
    ∀ (ps : List String) (w w' : World), replay_files L fuel ps w = Run.ok w' →
      w'.begin_recover = w.begin_recover
        ∧ redo_calls w'.trace = redo_calls w.trace ++ ps.map (fun p => (p, w.begin_recover)) := by
  intro ps
  induction ps with
  | nil => intro w w' h; simp [replay_files] at h; subst h; simp
  | cons p ps ih =>
    intro w w' h
    rw [replay_files] at h
    cases h1 : redo_file L fuel p w with
    | fault e => simp [h1, Run.bind] at h
    | outOfFuel => simp [h1, Run.bind] at h
    | ok r1 =>
      simp only [h1, Run.bind] at h
      obtain ⟨-, -, hb, hc⟩ := redo_file_frame L fuel p w r1 h1
      obtain ⟨hb2, hc2⟩ := ih r1.2 w' h
      refine ⟨hb2.trans hb, ?_⟩
      rw [hc2, hc, hb]
      simp

/-- The frame of `redo_file` does not fit a stack of at most `buffer_size`
bytes: the call faults whatever the path is, also when the file does not
exist. -/
theorem redo_file_stack_overflow (L : ItemLayout) (fuel : Nat) (p : String) (w : World)
    (h : w.stack_limit ≤ buffer_size) :
    redo_file L fuel p w = Run.fault Fault.stack_overflow := by
  unfold redo_file redo_file_sized
  rw [if_pos h]

/-- With a stack larger than its buffer, `redo_file` is the run of its
statements. -/
theorem redo_file_sized_fits (L : ItemLayout) (bsz fuel : Nat) (p : String) (w : World)
    (h : bsz < w.stack_limit) :
    redo_file_sized L bsz fuel p w = redo_file_body L bsz fuel p w := by
  unfold redo_file_sized
  rw [if_neg (Nat.not_le.mpr h)]

/-- The call sequence of `recover` on a thread whose stack holds the frame of
`redo_file`.  With `m` the least class whose file `log_m` is not readable,
`recover` is the same run as: set `begin_recover` to 1, call `redo_file` on
`snapshot`, then on `log_s.snapshot_before` and `log_s` for `s = 0, ..., m - 1`
and on no other path, then set `begin_recover` to 0.  When it returns,
`begin_recover` is 0 and every one of these calls was entered with
`begin_recover` equal to 1.  With enough stack, a call of `redo_file` on a path
that does not exist returns 1 and leaves the table (and all but the trace) as
it was. -/
theorem recover_call_sequence (L : ItemLayout) (fuel m : Nat) (w : World)
    (hsome : ∀ s, s < m → (w.fs (log_path w s)).isSome)
    (hnone : w.fs (log_path w m) = none) (hfuel : m < fuel) :
    recover L fuel w
        = (replay_files L fuel (recover_paths w m) { w with begin_recover := 1 }).bind
            (fun v => Run.ok { v with begin_recover := 0, recover_finished := 1 })
      ∧ (∀ w', recover L fuel w = Run.ok w' →
          w'.begin_recover = 0
            ∧ redo_calls w'.trace
                = redo_calls w.trace ++ (recover_paths w m).map (fun p => (p, 1)))
      ∧ (∀ (p : String) (v : World), v.fs p = none → buffer_size < v.stack_limit →
          redo_file L fuel p v
            = Run.ok (1, { v with trace := v.trace ++ [Event.redo_file p v.begin_recover] })) := by
  have hEq : recover L fuel w
        = (replay_files L fuel (recover_paths w m) { w with begin_recover := 1 }).bind
            (fun v => Run.ok { v with begin_recover := 0, recover_finished := 1 }) := by
    unfold recover recover_paths
    simp only [replay_files]
    cases h0 : redo_file L fuel (snapshot_path { w with begin_recover := 1 })
        { w with begin_recover := 1 } with
    | fault e => simp [snapshot_path] at h0 ⊢; simp [snapshot_path, h0, Run.bind]
    | outOfFuel => simp [snapshot_path] at h0 ⊢; simp [snapshot_path, h0, Run.bind]
    | ok r0 =>
      obtain ⟨hfs, hp, -, -⟩ := redo_file_frame L fuel _ _ r0 h0
      have h0' : redo_file L fuel (snapshot_path w) { w with begin_recover := 1 } = Run.ok r0 := h0
      simp only [h0', Run.bind]
      have hp' : r0.2.persisted_data_path = w.persisted_data_path := hp
      have hfs' : r0.2.fs = w.fs := hfs
      have := recover_logs_eq L fuel m 0 fuel r0.2
        (by
          intro x _ hx
          rw [log_path_congr hp', hfs']
          exact hsome x (by omega))
        (by
          rw [log_path_congr hp', hfs']
          simpa using hnone)
        hfuel
      rw [this, ← List.range_eq_range']
      have hl : (fun x => [snapshot_before_path (log_path r0.2 x), log_path r0.2 x])
          = (fun x => [snapshot_before_path (log_path w x), log_path w x]) := by
        funext x; rw [log_path_congr hp']
      rw [hl]
  refine ⟨hEq, ?_, ?_⟩
  · intro w' hw'
    rw [hEq] at hw'
    cases h1 : replay_files L fuel (recover_paths w m) { w with begin_recover := 1 } with
    | fault e => simp [h1, Run.bind] at hw'
    | outOfFuel => simp [h1, Run.bind] at hw'
    | ok v =>
      simp only [h1, Run.bind] at hw'
      cases hw'
      obtain ⟨-, hc⟩ := replay_files_calls L fuel _ _ _ h1
      exact ⟨rfl, hc⟩
  · intro p v hv hst
    unfold redo_file
    rw [redo_file_sized_fits L _ fuel p v hst]
    simp [redo_file_body, hv]

/-- The recovery pass under a stack limit of 16 MiB, on a data directory that
holds `log_0` with one linked record and `log_1` with another, and neither a
snapshot nor `log_2`: the pass returns with `begin_recover` 0 after five calls
of `redo_file`. -/
theorem recover_call_sequence_two_logs :
    (∀ s, s < 2 →
        ((((boot 4 0 "d").put "d/log_0" (packed_image 1 [107] [49])).put "d/log_1"
          (packed_image 1 [109] [50])).fs
          (log_path (((boot 4 0 "d").put "d/log_0" (packed_image 1 [107] [49])).put "d/log_1"
          (packed_image 1 [109] [50])) s)).isSome)
      ∧ (recover packed 8 (((boot 4 0 "d").put "d/log_0" (packed_image 1 [107] [49])).put
            "d/log_1" (packed_image 1 [109] [50]))).map
          (fun v => (v.begin_recover, redo_calls v.trace, v.table))
        = Run.ok (0, [("d/snapshot", 1), ("d/log_0.snapshot_before", 1), ("d/log_0", 1),
            ("d/log_1.snapshot_before", 1), ("d/log_1", 1)],
            [packed_image 1 [109] [50], packed_image 1 [107] [49]]) := by
  have hs : ∀ s, s < 2 →
      ((((boot 4 0 "d").put "d/log_0" (packed_image 1 [107] [49])).put "d/log_1"
          (packed_image 1 [109] [50])).fs
          (log_path (((boot 4 0 "d").put "d/log_0" (packed_image 1 [107] [49])).put "d/log_1"
          (packed_image 1 [109] [50])) s)).isSome := by decide
  have h := recover_call_sequence packed 8 2
    (((boot 4 0 "d").put "d/log_0" (packed_image 1 [107] [49])).put "d/log_1"
      (packed_image 1 [109] [50])) hs (by decide) (by decide)
  refine ⟨hs, ?_⟩
  rw [h.1]
  decide

/-- Claim C9, the code on the thread that `recover_thread_init` creates.  The
thread has default attributes, so its stack is `default_stack_limit` bytes, and
the array `read_buffer` in the frame of `redo_file` is as large: in every state
with such a stack the first call of `recover`, `redo_file` on `snapshot`,
faults, so `recover` does not return, no further path is replayed, and
`begin_recover` is never set back to 0; and a call of `redo_file` on a path
that does not exist faults instead of returning 1. -/
theorem recover_overflows_default_stack (L : ItemLayout) (fuel : Nat) (w : World)
    (h : w.stack_limit ≤ default_stack_limit) :
    recover L fuel w = Run.fault Fault.stack_overflow
      ∧ (∀ (p : String), w.fs p = none →
          redo_file L fuel p w = Run.fault Fault.stack_overflow) := by
  refine ⟨?_, fun p _ => redo_file_stack_overflow L fuel p w h⟩
  have h1 : ({ w with begin_recover := 1 } : World).stack_limit ≤ buffer_size := h
  unfold recover
  simp only [redo_file_stack_overflow L fuel _ _ h1, Run.bind]

/-- Claim C9 at start-up with two log files in the data directory and the
default stack: the recovery pass faults in its first call of `redo_file`. -/
theorem recover_overflows_default_stack_witness :
    ({ ((boot 4 0 "d").put "d/log_0" (packed_image 1 [107] [49])).put "d/log_1"
          (packed_image 1 [109] [50]) with
        stack_limit := default_stack_limit }).stack_limit ≤ default_stack_limit
      ∧ recover packed 8
          { ((boot 4 0 "d").put "d/log_0" (packed_image 1 [107] [49])).put "d/log_1"
              (packed_image 1 [109] [50]) with
            stack_limit := default_stack_limit }
        = Run.fault Fault.stack_overflow :=
  ⟨Nat.le_refl _,
    (recover_overflows_default_stack packed 8
      { ((boot 4 0 "d").put "d/log_0" (packed_image 1 [107] [49])).put "d/log_1"
          (packed_image 1 [109] [50]) with
        stack_limit := default_stack_limit } (Nat.le_refl _)).1⟩

/-! ## Lists threaded through `next` fields -/

theorem Seg.congr {next next' : Nat → Option Nat} :
    ∀ {l : List Nat} {p : Option Nat}, (∀ a ∈ l, next' a = next a) → Seg next p l →
      Seg next' p l
  | [], _, _, h => h
  | a :: l, _, hn, h =>
    ⟨h.1, by
      rw [hn a (List.mem_cons_self a l)]
      exact Seg.congr (fun b hb => hn b (List.mem_cons_of_mem a hb)) h.2⟩

theorem Seg.unique {next : Nat → Option Nat} :
    ∀ {l l' : List Nat} {p : Option Nat}, Seg next p l → Seg next p l' → l = l'
  | [], [], _, _, _ => rfl
  | [], b :: l', _, h, h' => by
    have h1 : _ = none := h
    have h2 := h'.1
    rw [h1] at h2; cases h2
  | a :: l, [], _, h, h' => by
    have h1 : _ = none := h'
    have h2 := h.1
    rw [h1] at h2; cases h2
  | a :: l, b :: l', _, h, h' => by
    have h1 := h.1
    have h2 := h'.1
    rw [h1] at h2
    cases h2
    rw [Seg.unique h.2 h'.2]

theorem Seg.snoc {next next' : Nat → Option Nat} {r : Nat} :
    ∀ {l : List Nat} {p : Option Nat}, Seg next p l → l ≠ [] → l.Nodup → r ∉ l →
      next' r = none → (∀ t, l.getLast? = some t → next' t = some r) →
      (∀ a, a ≠ r → l.getLast? ≠ some a → next' a = next a) →
      Seg next' p (l ++ [r])
  | [], _, _, hne, _, _, _, _, _ => absurd rfl hne
  | [a], _, h, _, _, _, hr, hlast, _ => by
    refine ⟨h.1, ?_⟩
    rw [hlast a (by simp)]
    exact ⟨rfl, by rw [hr]; rfl⟩
  | a :: b :: l, _, h, _, hnd, hrl, hr, hlast, hother => by
    refine ⟨h.1, ?_⟩
    have hnd' := List.nodup_cons.mp hnd
    have har : a ≠ r := fun e => hrl (by simp [e])
    have hal : (a :: b :: l).getLast? ≠ some a := by
      rw [List.getLast?_cons_cons]
      intro e
      exact hnd'.1 (List.mem_of_mem_getLast? e)
    rw [hother a har hal]
    exact Seg.snoc (l := b :: l) h.2 (by simp) hnd'.2
      (fun e => hrl (List.mem_cons_of_mem a e)) hr
      (fun t ht => hlast t (by rw [List.getLast?_cons_cons]; exact ht))
      (fun c hc hl => hother c hc (by rw [List.getLast?_cons_cons]; exact hl))

theorem Seg.range (next : Nat → Option Nat) :
    ∀ (n s : Nat), (∀ i, i < n → next (s + i) = some (s + i + 1)) → next (s + n) = none →
      Seg next (some s) (List.range' s (n + 1))
  | 0, s, _, hend => by
    simp only [List.range'_succ, List.range'_zero]
    exact ⟨rfl, by simpa using hend⟩
  | n + 1, s, hlink, hend => by
    rw [List.range'_succ]
    refine ⟨rfl, ?_⟩
    have h0 := hlink 0 (by omega)
    simp only [Nat.add_zero] at h0
    rw [h0]
    refine Seg.range next n (s + 1) (fun i hi => ?_) ?_
    · have := hlink (i + 1) (by omega)
      rw [show s + 1 + i = s + (i + 1) by omega]
      exact this
    · rw [show s + 1 + n = s + (n + 1) by omega]
      exact hend

/-! ## Pools of records -/

/-- A pool stays sound when the `next` fields of its listed records, its
freelist and its queue ends are kept and `brk` does not decrease. -/
theorem PoolInv.frame {P P' : Pool} {fl : List Nat} {qs : Nat → List Nat}
    (h : PoolInv P fl qs) (hbrk : P.brk ≤ P'.brk) (hfree : P'.freelist = P.freelist)
    (hhead : ∀ t, P'.head t = P.head t) (htail : ∀ t, P'.tail t = P.tail t)
    (hnext : ∀ a, a < P.brk → P'.next a = P.next a) : PoolInv P' fl qs where
  free := by
    rw [hfree]
    exact Seg.congr (fun a ha => hnext a (h.free_below a ha)) h.free
  queue := fun t => by
    rw [hhead]
    exact Seg.congr (fun a ha => hnext a (h.queue_below t a ha)) (h.queue t)
  tail := fun t => by rw [htail]; exact h.tail t
  nodup_free := h.nodup_free
  nodup_queue := h.nodup_queue
  free_queue := h.free_queue
  queue_queue := h.queue_queue
  free_below := fun p hp => lt_of_lt_of_le (h.free_below p hp) hbrk
  queue_below := fun t p hp => lt_of_lt_of_le (h.queue_below t p hp) hbrk

/-- Taking the first record off the freelist. -/
theorem PoolInv.take_free {P : Pool} (P' : Pool) {r : Nat} {fl : List Nat}
    {qs : Nat → List Nat} (h : PoolInv P (r :: fl) qs) (hbrk : P'.brk = P.brk) (hfree : P'.freelist = P.next r)
    (hhead : ∀ t, P'.head t = P.head t) (htail : ∀ t, P'.tail t = P.tail t)
    (hnext : ∀ a, P'.next a = P.next a) :
    PoolInv P' fl qs ∧ r ∉ fl ∧ (∀ u, r ∉ qs u) ∧ r < P'.brk := by
  have hnd := List.nodup_cons.mp h.nodup_free
  refine ⟨?_, hnd.1, fun u hu => h.free_queue u r hu (List.mem_cons_self r fl), ?_⟩
  · exact
      { free := by
          rw [hfree]
          exact Seg.congr (fun a _ => hnext a) h.free.2
        queue := fun t => by
          rw [hhead]
          exact Seg.congr (fun a _ => hnext a) (h.queue t)
        tail := fun t => by rw [htail]; exact h.tail t
        nodup_free := hnd.2
        nodup_queue := h.nodup_queue
        free_queue := fun t p hp hf => h.free_queue t p hp (List.mem_cons_of_mem r hf)
        queue_queue := h.queue_queue
        free_below := fun p hp => by
          rw [hbrk]; exact h.free_below p (List.mem_cons_of_mem r hp)
        queue_below := fun t p hp => by rw [hbrk]; exact h.queue_below t p hp }
  · rw [hbrk]; exact h.free_below r (List.mem_cons_self r fl)

/-- Carving a chunk of `n` records out of fresh memory when the freelist is
empty: the first record of the chunk is kept aside, the others form the new
freelist. -/
theorem PoolInv.grow {P : Pool} (P' : Pool) {qs : Nat → List Nat} (h : PoolInv P [] qs)
    (n : Nat)
    (hn : 2 ≤ n) (hbrk : P'.brk = P.brk + n) (hfree : P'.freelist = some (P.brk + 1))
    (hhead : ∀ t, P'.head t = P.head t) (htail : ∀ t, P'.tail t = P.tail t)
    (hold : ∀ a, a < P.brk → P'.next a = P.next a)
    (hlink : ∀ i, 1 ≤ i → i < n - 1 → P'.next (P.brk + i) = some (P.brk + i + 1))
    (hend : P'.next (P.brk + (n - 1)) = none) :
    PoolInv P' (List.range' (P.brk + 1) (n - 1)) qs
      ∧ P.brk ∉ List.range' (P.brk + 1) (n - 1) ∧ (∀ u, P.brk ∉ qs u) ∧ P.brk < P'.brk := by
  refine ⟨?_, ?_, ?_, by omega⟩
  · exact
      { free := by
          rw [hfree]
          obtain ⟨k, rfl⟩ : ∃ k, n = k + 2 := ⟨n - 2, by omega⟩
          have := Seg.range P'.next k (P.brk + 1)
            (fun i hi => by
              have := hlink (1 + i) (by omega) (by omega)
              rw [show P.brk + 1 + i = P.brk + (1 + i) by omega]
              exact this)
            (by
              rw [show P.brk + 1 + k = P.brk + (k + 2 - 1) by omega]
              exact hend)
          simpa using this
        queue := fun t => by
          rw [hhead]
          exact Seg.congr (fun a ha => hold a (h.queue_below t a ha)) (h.queue t)
        tail := fun t => by rw [htail]; exact h.tail t
        nodup_free := List.nodup_range' _ _
        nodup_queue := h.nodup_queue
        free_queue := fun t p hp hf => by
          have := h.queue_below t p hp
          rw [List.mem_range'_1] at hf
          omega
        queue_queue := h.queue_queue
        free_below := fun p hp => by
          rw [List.mem_range'_1] at hp
          omega
        queue_below := fun t p hp => by
          have := h.queue_below t p hp
          omega }
  · rw [List.mem_range'_1]; omega
  · intro u hu
    exact lt_irrefl _ (h.queue_below u _ hu)

/-- Appending a record that is in no list to queue `t`. -/
theorem PoolInv.push {P P' : Pool} {fl : List Nat} {qs : Nat → List Nat}
    (h : PoolInv P fl qs) (t : Nat) (r : Nat) (hrf : r ∉ fl) (hrq : ∀ u, r ∉ qs u)
    (hrb : r < P'.brk) (hbrk : P.brk ≤ P'.brk) (hfree : P'.freelist = P.freelist)
    (hr : P'.next r = none) (hlast : ∀ a, P.tail t = some a → P'.next a = some r)
    (hother : ∀ a, a ≠ r → P.tail t ≠ some a → P'.next a = P.next a)
    (hhead : P'.head t = if P.tail t = none then some r else P.head t)
    (htail : P'.tail t = some r)
    (hrest : ∀ u, u ≠ t → P'.head u = P.head u ∧ P'.tail u = P.tail u) :
    PoolInv P' fl (Function.update qs t (qs t ++ [r])) := by
  have hkeep : ∀ (l : List Nat), r ∉ l → (∀ a ∈ l, a ∉ qs t) → ∀ a ∈ l, P'.next a = P.next a := by
    intro l hrl hdis a ha
    refine hother a (fun e => hrl (e ▸ ha)) (fun e => ?_)
    rw [h.tail t] at e
    exact hdis a ha (List.mem_of_mem_getLast? e)
  exact
    { free := by
        rw [hfree]
        exact Seg.congr (hkeep fl hrf (fun a ha hq => h.free_queue t a hq ha)) h.free
      queue := fun u => by
        by_cases hu : u = t
        · subst hu
          rw [Function.update_same, hhead]
          by_cases hq : qs u = []
          · have ht : P.tail u = none := by rw [h.tail u, hq]; rfl
            rw [hq, if_pos ht]
            exact ⟨rfl, by rw [hr]; rfl⟩
          · have ht : P.tail u ≠ none := by
              rw [h.tail u]
              exact fun e => hq (List.getLast?_eq_none_iff.mp e)
            rw [if_neg ht]
            exact Seg.snoc (h.queue u) hq (h.nodup_queue u) (hrq u) hr
              (fun a ha => hlast a (by rw [h.tail u]; exact ha))
              (fun a ha hl => hother a ha (by rw [h.tail u]; exact hl))
        · rw [Function.update_noteq hu, (hrest u hu).1]
          exact Seg.congr
            (hkeep (qs u) (hrq u) (fun a ha hq => h.queue_queue u t hu a ha hq)) (h.queue u)
      tail := fun u => by
        by_cases hu : u = t
        · subst hu
          rw [Function.update_same, htail, List.getLast?_concat]
        · rw [Function.update_noteq hu, (hrest u hu).2]
          exact h.tail u
      nodup_free := h.nodup_free
      nodup_queue := fun u => by
        by_cases hu : u = t
        · subst hu
          rw [Function.update_same]
          exact List.nodup_append.mpr
            ⟨h.nodup_queue u, List.nodup_singleton r, fun a ha hb => by
              rw [List.mem_singleton] at hb
              exact hrq u (hb ▸ ha)⟩
        · rw [Function.update_noteq hu]
          exact h.nodup_queue u
      free_queue := fun u p hp => by
        by_cases hu : u = t
        · subst hu
          rw [Function.update_same, List.mem_append, List.mem_singleton] at hp
          rcases hp with hp | hp
          · exact h.free_queue u p hp
          · rw [hp]; exact hrf
        · rw [Function.update_noteq hu] at hp
          exact h.free_queue u p hp
      queue_queue := fun u v huv p hp => by
        by_cases hu : u = t
        · subst hu
          rw [Function.update_same, List.mem_append, List.mem_singleton] at hp
          rw [Function.update_noteq (Ne.symm huv)]
          rcases hp with hp | hp
          · exact h.queue_queue u v huv p hp
          · rw [hp]; exact hrq v
        · rw [Function.update_noteq hu] at hp
          by_cases hv : v = t
          · subst hv
            rw [Function.update_same, List.mem_append, List.mem_singleton]
            rintro (hq | hq)
            · exact h.queue_queue u v huv p hp hq
            · exact hrq u (hq ▸ hp)
          · rw [Function.update_noteq hv]
            exact h.queue_queue u v huv p hp
      free_below := fun p hp => lt_of_lt_of_le (h.free_below p hp) hbrk
      queue_below := fun u p hp => by
        by_cases hu : u = t
        · subst hu
          rw [Function.update_same, List.mem_append, List.mem_singleton] at hp
          rcases hp with hp | hp
          · exact lt_of_lt_of_le (h.queue_below u p hp) hbrk
          · rw [hp]; exact hrb
        · rw [Function.update_noteq hu] at hp
          exact lt_of_lt_of_le (h.queue_below u p hp) hbrk }

/-- Taking the first record off queue `t`. -/
theorem PoolInv.pop {P P' : Pool} {fl : List Nat} {qs : Nat → List Nat}
    (h : PoolInv P fl qs) (t : Nat) (a : Nat) (l : List Nat) (hq : qs t = a :: l)
    (hbrk : P'.brk = P.brk) (hfree : P'.freelist = P.freelist)
    (hnext : ∀ b, P'.next b = P.next b) (hhead : P'.head t = P.next a)
    (htail : P'.tail t = if P.next a = none then none else P.tail t)
    (hrest : ∀ u, u ≠ t → P'.head u = P.head u ∧ P'.tail u = P.tail u) :
    PoolInv P' fl (Function.update qs t l)
      ∧ a ∉ fl ∧ (∀ u, a ∉ Function.update qs t l u) ∧ a < P'.brk := by
  have hat : a ∈ qs t := by rw [hq]; exact List.mem_cons_self a l
  have hnd : a ∉ l ∧ l.Nodup := by
    have := h.nodup_queue t
    rw [hq] at this
    exact List.nodup_cons.mp this
  have hsub : ∀ p, p ∈ l → p ∈ qs t := fun p hp => by rw [hq]; exact List.mem_cons_of_mem a hp
  have hseg := h.queue t
  rw [hq] at hseg
  refine ⟨?_, h.free_queue t a hat, ?_, by rw [hbrk]; exact h.queue_below t a hat⟩
  · exact
      { free := by
          rw [hfree]
          exact Seg.congr (fun b _ => hnext b) h.free
        queue := fun u => by
          by_cases hu : u = t
          · subst hu
            rw [Function.update_same, hhead]
            exact Seg.congr (fun b _ => hnext b) hseg.2
          · rw [Function.update_noteq hu, (hrest u hu).1]
            exact Seg.congr (fun b _ => hnext b) (h.queue u)
        tail := fun u => by
          by_cases hu : u = t
          · subst hu
            rw [Function.update_same, htail]
            cases l with
            | nil =>
              have : P.next a = none := hseg.2
              rw [if_pos this]; rfl
            | cons b l' =>
              have : P.next a = some b := hseg.2.1
              rw [this, if_neg (by simp), h.tail u, hq, List.getLast?_cons_cons]
          · rw [Function.update_noteq hu, (hrest u hu).2]
            exact h.tail u
        nodup_free := h.nodup_free
        nodup_queue := fun u => by
          by_cases hu : u = t
          · subst hu
            rw [Function.update_same]
            exact hnd.2
          · rw [Function.update_noteq hu]
            exact h.nodup_queue u
        free_queue := fun u p hp => by
          by_cases hu : u = t
          · subst hu
            rw [Function.update_same] at hp
            exact h.free_queue u p (hsub p hp)
          · rw [Function.update_noteq hu] at hp
            exact h.free_queue u p hp
        queue_queue := fun u v huv p hp => by
          by_cases hu : u = t
          · subst hu
            rw [Function.update_same] at hp
            rw [Function.update_noteq (Ne.symm huv)]
            exact h.queue_queue u v huv p (hsub p hp)
          · rw [Function.update_noteq hu] at hp
            by_cases hv : v = t
            · subst hv
              rw [Function.update_same]
              exact fun hl => h.queue_queue u v huv p hp (hsub p hl)
            · rw [Function.update_noteq hv]
              exact h.queue_queue u v huv p hp
        free_below := fun p hp => by rw [hbrk]; exact h.free_below p hp
        queue_below := fun u p hp => by
          rw [hbrk]
          by_cases hu : u = t
          · subst hu
            rw [Function.update_same] at hp
            exact h.queue_below u p (hsub p hp)
          · rw [Function.update_noteq hu] at hp
            exact h.queue_below u p hp }
  · intro u
    by_cases hu : u = t
    · subst hu
      rw [Function.update_same]
      exact hnd.1
    · rw [Function.update_noteq hu]
      exact fun hl => h.queue_queue t u (Ne.symm hu) a hat hl

/-- Putting a record that is in no list at the front of the freelist. -/
theorem PoolInv.put_free {P P' : Pool} {fl : List Nat} {qs : Nat → List Nat}
    (h : PoolInv P fl qs) (r : Nat) (hrf : r ∉ fl) (hrq : ∀ u, r ∉ qs u) (hrb : r < P.brk)
    (hbrk : P'.brk = P.brk) (hfree : P'.freelist = some r) (hr : P'.next r = P.freelist)
    (hother : ∀ a, a ≠ r → P'.next a = P.next a)
    (hhead : ∀ t, P'.head t = P.head t) (htail : ∀ t, P'.tail t = P.tail t) :
    PoolInv P' (r :: fl) qs where
  free := by
    rw [hfree]
    refine ⟨rfl, ?_⟩
    rw [hr]
    exact Seg.congr (fun a ha => hother a (fun e => hrf (e ▸ ha))) h.free
  queue := fun t => by
    rw [hhead]
    exact Seg.congr (fun a ha => hother a (fun e => hrq t (e ▸ ha))) (h.queue t)
  tail := fun t => by rw [htail]; exact h.tail t
  nodup_free := List.nodup_cons.mpr ⟨hrf, h.nodup_free⟩
  nodup_queue := h.nodup_queue
  free_queue := fun t p hp hf => by
    rw [List.mem_cons] at hf
    rcases hf with hf | hf
    · exact hrq t (hf ▸ hp)
    · exact h.free_queue t p hp hf
  queue_queue := h.queue_queue
  free_below := fun p hp => by
    rw [hbrk]
    rw [List.mem_cons] at hp
    rcases hp with hp | hp
    · rw [hp]; exact hrb
    · exact h.free_below p hp
  queue_below := fun t p hp => by rw [hbrk]; exact h.queue_below t p hp

/-! ## The handoff freelist and `dispatch_conn_new` -/

theorem alloc_ok (w : World) (h : AllocOk w) :
    ∃ s : List Bool, w.alloc = (true, { w with heap_script := s }) ∧ ∀ b ∈ s, b = true := by
  unfold World.alloc
  cases hs : w.heap_script with
  | nil =>
    refine ⟨[], ?_, by simp⟩
    simp only
    rw [← hs]
  | cons b rest =>
    have hb : b = true := h b (by rw [hs]; exact List.mem_cons_self b rest)
    subst hb
    exact ⟨rest, rfl, fun x hx => h x (by rw [hs]; exact List.mem_cons_of_mem _ hx)⟩

theorem alloc_head (w : World) (h : w.heap_script.head? ≠ some false) :
    ∃ s : List Bool, w.alloc = (true, { w with heap_script := s })
      ∧ ∀ b ∈ s, b ∈ w.heap_script := by
  unfold World.alloc
  cases hs : w.heap_script with
  | nil =>
    refine ⟨[], ?_, by simp⟩
    simp only
    rw [← hs]
  | cons b rest =>
    have hb : b = true := by
      cases b with
      | true => rfl
      | false => rw [hs] at h; simp at h
    subst hb
    exact ⟨rest, rfl, fun x hx => List.mem_cons_of_mem _ hx⟩

theorem cq_set_next_next (mem : Nat → CQ_ITEM) (a : Nat) (n : Option Nat) (p : Nat) :
    (cq_set_next mem a n p).next = if p = a then n else (mem p).next := by
  unfold cq_set_next
  by_cases h : p = a
  · subst h; simp
  · simp [Function.update_noteq h, h]

theorem cq_link_chunk_next (item : Nat) :
    ∀ (n i : Nat) (mem : Nat → CQ_ITEM) (p : Nat), 1 ≤ i →
      (cq_link_chunk item n i mem p).next
        = if item + i - 1 ≤ p ∧ p < item + i - 1 + n then some (p + 1) else (mem p).next := by
  intro n
  induction n with
  | zero =>
    intro i mem p _
    rw [cq_link_chunk, if_neg (by omega)]
  | succ n ih =>
    intro i mem p hi
    rw [cq_link_chunk, ih (i + 1) _ p (by omega), cq_set_next_next]
    by_cases h1 : item + (i + 1) - 1 ≤ p ∧ p < item + (i + 1) - 1 + n
    · rw [if_pos h1, if_pos (by omega)]
    · rw [if_neg h1]
      by_cases h2 : p = item + i - 1
      · rw [if_pos h2, if_pos (by omega)]
        congr 1; omega
      · rw [if_neg h2, if_neg (by omega)]

/-- The function `cqi_new` when it has a record on the freelist or its
allocation succeeds: it hands out a record that is in no list and keeps the pool
sound; it touches only the handoff records, `cqi_freelist`, `brk` and the
allocation script. -/
theorem cqi_new_spec (w : World) (fl : List Nat) (qs : Nat → List Nat)
    (h : PoolInv (cq_pool w) fl qs)
    (hs : w.cqi_freelist = none → w.heap_script.head? ≠ some false) :
    ∃ (r : Nat) (fl' : List Nat) (mem : Nat → CQ_ITEM) (f : Option Nat) (b : Nat)
      (s : List Bool),
      cqi_new w
          = (some r, { w with cq_mem := mem, cqi_freelist := f, brk := b, heap_script := s })
        ∧ PoolInv (cq_pool
            { w with cq_mem := mem, cqi_freelist := f, brk := b, heap_script := s }) fl' qs
        ∧ r ∉ fl' ∧ (∀ u, r ∉ qs u) ∧ r < b ∧ w.brk ≤ b ∧ (∀ x ∈ s, x ∈ w.heap_script) := by
  cases hf : w.cqi_freelist with
  | some r =>
    cases fl with
    | nil =>
      have : (cq_pool w).freelist = none := h.free
      rw [show (cq_pool w).freelist = w.cqi_freelist from rfl, hf] at this
      cases this
    | cons a fl =>
      have ha : w.cqi_freelist = some a := h.free.1
      rw [hf] at ha
      cases ha
      refine ⟨r, fl, w.cq_mem, (w.cq_mem r).next, w.brk, w.heap_script, ?_, ?_⟩
      · simp [cqi_new, hf]
      · have := PoolInv.take_free (cq_pool
            { w with cq_mem := w.cq_mem, cqi_freelist := (w.cq_mem r).next, brk := w.brk,
                     heap_script := w.heap_script })
          h rfl rfl (fun _ => rfl) (fun _ => rfl) (fun _ => rfl)
        exact ⟨this.1, this.2.1, this.2.2.1, this.2.2.2, le_refl _, fun _ hx => hx⟩
  | none =>
    have hfl : fl = [] := by
      cases fl with
      | nil => rfl
      | cons a fl =>
        have ha : w.cqi_freelist = some a := h.free.1
        rw [hf] at ha
        cases ha
    subst hfl
    obtain ⟨s, hal, hsok⟩ := alloc_head w (hs hf)
    refine ⟨w.brk, List.range' (w.brk + 1) (ITEMS_PER_ALLOC - 1),
      cq_set_next (cq_link_chunk w.brk (ITEMS_PER_ALLOC - 2) 2 w.cq_mem)
        (w.brk + (ITEMS_PER_ALLOC - 1)) none,
      some (w.brk + 1), w.brk + ITEMS_PER_ALLOC, s, ?_, ?_⟩
    · simp [cqi_new, hf, hal]
    · have := PoolInv.grow (cq_pool
          { w with
            cq_mem := cq_set_next (cq_link_chunk w.brk (ITEMS_PER_ALLOC - 2) 2 w.cq_mem)
              (w.brk + (ITEMS_PER_ALLOC - 1)) none
            cqi_freelist := some (w.brk + 1)
            brk := w.brk + ITEMS_PER_ALLOC
            heap_script := s })
        h ITEMS_PER_ALLOC (by decide) rfl rfl (fun _ => rfl) (fun _ => rfl)
        (fun a ha => by
          show (cq_set_next _ _ _ a).next = (w.cq_mem a).next
          have ha' : a < w.brk := ha
          rw [cq_set_next_next, cq_link_chunk_next _ _ _ _ _ (by omega)]
          have : ITEMS_PER_ALLOC = 64 := rfl
          rw [if_neg (by omega), if_neg (by omega)])
        (fun i h1 h2 => by
          show (cq_set_next _ _ _ _).next = some (w.brk + i + 1)
          have : ITEMS_PER_ALLOC = 64 := rfl
          rw [cq_set_next_next, cq_link_chunk_next _ _ _ _ _ (by omega)]
          rw [if_neg (by show ¬ (w.brk + i = w.brk + (ITEMS_PER_ALLOC - 1)); omega),
            if_pos (by show w.brk + 2 - 1 ≤ w.brk + i ∧ w.brk + i < _; omega)]
          rfl)
        (by
          show (cq_set_next _ _ _ (w.brk + (ITEMS_PER_ALLOC - 1))).next = none
          rw [cq_set_next_next, if_pos rfl])
      exact ⟨this.1, this.2.1, this.2.2.1, this.2.2.2, Nat.le_add_right _ _, hsok⟩

theorem cq_push_next (mem : Nat → CQ_ITEM) (cq : CQ) (r p : Nat) :
    ((cq_push mem cq r).1 p).next
      = if cq.tail = some p then some r else if p = r then none else (mem p).next := by
  unfold cq_push
  cases ht : cq.tail with
  | none => simp [cq_set_next_next]
  | some t =>
    simp only [cq_set_next_next]
    by_cases h1 : p = t
    · simp [h1]
    · have : ¬ (some t = some p) := fun e => h1 (Option.some.inj e).symm
      simp [h1, this]

theorem cq_push_queue (mem : Nat → CQ_ITEM) (cq : CQ) (r : Nat) :
    (cq_push mem cq r).2.head = (if cq.tail = none then some r else cq.head)
      ∧ (cq_push mem cq r).2.tail = some r := by
  unfold cq_push
  cases ht : cq.tail <;> simp

/-- One call of `dispatch_conn_new` when `cqi_new` has a record on the freelist
or its allocation succeeds: the worker after `last_thread` gets one record that
was in no queue, appended to its queue, and one byte `c` in its pipe. -/
theorem dispatch_conn_new_spec (w : World) (fl : List Nat) (qs : Nat → List Nat)
    (h : PoolInv (cq_pool w) fl qs)
    (hs : w.cqi_freelist = none → w.heap_script.head? ≠ some false) (N : Nat) (hN : 1 ≤ N)
    (hw : w.num_threads = N) (hl : -1 ≤ w.last_thread) (c : Handoff) :
    ∃ (r : Nat) (fl' : List Nat) (w' : World),
      dispatch_conn_new w c.sfd c.init_state c.event_flags c.read_buffer_size c.transport
          = Except.ok w'
        ∧ (∀ u, r ∉ qs u)
        ∧ PoolInv (cq_pool w') fl'
            (Function.update qs ((w.last_thread + 1) % (N : Int)).toNat
              (qs ((w.last_thread + 1) % (N : Int)).toNat ++ [r]))
        ∧ w'.last_thread = (w.last_thread + 1) % (N : Int)
        ∧ w'.num_threads = w.num_threads ∧ (∀ x ∈ w'.heap_script, x ∈ w.heap_script)
        ∧ w'.malloc_fails = w.malloc_fails
        ∧ (w'.threads ((w.last_thread + 1) % (N : Int)).toNat).notify
            = (w.threads ((w.last_thread + 1) % (N : Int)).toNat).notify ++ ['c']
        ∧ (∀ u, u ≠ ((w.last_thread + 1) % (N : Int)).toNat →
            (w'.threads u).notify = (w.threads u).notify) := by
  obtain ⟨r, fl', mem, f, b, s, hnew, hinv, hrf, hrq, hrb, hbb, hsok⟩ :=
    cqi_new_spec w fl qs h hs
  have hN0 : (N : Int) ≠ 0 := by omega
  have htm : (w.last_thread + 1).tmod (N : Int) = (w.last_thread + 1) % (N : Int) :=
    Int.tmod_eq_emod (by omega) (by omega)
  generalize ht : ((w.last_thread + 1) % (N : Int)).toNat = t
  set w1 : World :=
    { w with cq_mem := mem, cqi_freelist := f, brk := b, heap_script := s } with hw1
  set mem1 : Nat → CQ_ITEM := Function.update w1.cq_mem r
    { w1.cq_mem r with
      sfd := c.sfd
      init_state := c.init_state
      event_flags := c.event_flags
      read_buffer_size := c.read_buffer_size
      transport := c.transport } with hmem1
  refine ⟨r, fl',
    { w1 with
      last_thread := (w.last_thread + 1) % (N : Int)
      cq_mem := (cq_push mem1 (w1.threads t).new_conn_queue r).1
      threads := Function.update w1.threads t
        { w1.threads t with
          new_conn_queue := (cq_push mem1 (w1.threads t).new_conn_queue r).2
          notify := (w1.threads t).notify ++ ['c'] } }, ?_, hrq, ?_⟩
  · unfold dispatch_conn_new
    rw [hnew]
    simp only [hw, hN0, if_false, htm, ht]
  · 
    have hm1 : ∀ p, (mem1 p).next = (w1.cq_mem p).next := by
      intro p
      by_cases hp : p = r
      · subst hp; simp [hmem1]
      · simp [hmem1, Function.update_noteq hp]
    have hnext := cq_push_next mem1 (w1.threads t).new_conn_queue r
    have hq := cq_push_queue mem1 (w1.threads t).new_conn_queue r
    have htl : (w1.threads t).new_conn_queue.tail ≠ some r := by
      intro e
      have := hinv.tail t
      rw [show (cq_pool w1).tail t = (w1.threads t).new_conn_queue.tail from rfl, e] at this
      exact hrq t (List.mem_of_mem_getLast? this.symm)
    refine ⟨?_, rfl, rfl, hsok, rfl, ?_, ?_⟩
    · refine PoolInv.push hinv t r hrf hrq hrb (le_refl _) rfl ?_ ?_ ?_ ?_ ?_ ?_
      · show ((cq_push mem1 (w1.threads t).new_conn_queue r).1 r).next = none
        rw [hnext, if_neg htl, if_pos rfl]
      · intro a ha
        have ha' : (w1.threads t).new_conn_queue.tail = some a := ha
        show ((cq_push mem1 (w1.threads t).new_conn_queue r).1 a).next = some r
        rw [hnext, if_pos ha']
      · intro a har hat
        have hat' : (w1.threads t).new_conn_queue.tail ≠ some a := hat
        show ((cq_push mem1 (w1.threads t).new_conn_queue r).1 a).next = (w1.cq_mem a).next
        rw [hnext, if_neg hat', if_neg har, hm1]
      · show (Function.update w1.threads t _ t).new_conn_queue.head = _
        rw [Function.update_same]
        exact hq.1
      · show (Function.update w1.threads t _ t).new_conn_queue.tail = _
        rw [Function.update_same]
        exact hq.2
      · intro u hu
        show (Function.update w1.threads t _ u).new_conn_queue.head = _
          ∧ (Function.update w1.threads t _ u).new_conn_queue.tail = _
        rw [Function.update_noteq hu]
        exact ⟨rfl, rfl⟩
    · show (Function.update w1.threads t _ t).notify = _
      rw [Function.update_same]
    · intro u hu
      show (Function.update w1.threads t _ u).notify = _
      rw [Function.update_noteq hu]

/-! ## Round robin -/

theorem share_of_le {α : Type} (N t : Nat) (hN : 1 ≤ N) (ht : N ≤ t) :
    ∀ (a : List α) (j : Nat), share N t j a = []
  | [], j => by simp [share]
  | x :: a, j => by
    have : j % N < N := Nat.mod_lt j (by omega)
    rw [share, if_neg (by omega)]
    exact share_of_le N t hN ht a (j + 1)

theorem share_one {α : Type} : ∀ (a : List α) (j : Nat), share 1 0 j a = a
  | [], j => by simp [share]
  | x :: a, j => by
    rw [share, if_pos (Nat.mod_one j), share_one a (j + 1)]

theorem turn_div (N t j : Nat) (ht : t < N) :
    (j + 1 + (N - 1 - t)) / N = (j + (N - 1 - t)) / N + if j % N = t then 1 else 0 := by
  have hr : j % N < N := Nat.mod_lt j (by omega)
  rw [show j + 1 + (N - 1 - t) = j + (N - 1 - t) + 1 by omega, Nat.succ_div]
  congr 1
  have hk : (j + (N - 1 - t) + 1) % N = (j % N + (N - t)) % N := by
    rw [Nat.mod_add_mod]
    congr 1
    omega
  by_cases h : j % N = t
  · rw [if_pos h, if_pos]
    rw [Nat.dvd_iff_mod_eq_zero, hk, h, show t + (N - t) = N by omega, Nat.mod_self]
  · rw [if_neg h, if_neg]
    rw [Nat.dvd_iff_mod_eq_zero, hk]
    by_cases h2 : j % N < t
    · rw [Nat.mod_eq_of_lt (by omega)]
      omega
    · rw [Nat.mod_eq_sub_mod (by omega), Nat.mod_eq_of_lt (by omega)]
      omega

theorem share_length {α : Type} (N t : Nat) (ht : t < N) :
    ∀ (rs : List α) (j : Nat),
      (share N t j rs).length + (j + (N - 1 - t)) / N = (j + rs.length + (N - 1 - t)) / N
  | [], j => by simp [share]
  | r :: rs, j => by
    have ih := share_length N t ht rs (j + 1)
    have hd := turn_div N t j ht
    rw [List.length_cons, show j + (rs.length + 1) = j + 1 + rs.length by omega, ← ih, hd, share]
    split <;> (simp; try omega)

/-- Over `k * N` elements dealt from number 0, each of the `N` workers gets `k`. -/
theorem share_length_full {α : Type} (N t k : Nat) (ht : t < N) (rs : List α)
    (hlen : rs.length = k * N) : (share N t 0 rs).length = k := by
  have h := share_length N t ht rs 0
  rw [hlen, Nat.zero_add, Nat.zero_add, Nat.div_eq_of_lt (by omega),
    Nat.add_comm (k * N), Nat.add_mul_div_right _ _ (by omega), Nat.div_eq_of_lt (by omega)] at h
  omega

/-- One call of `dispatch_conn_new` when the freelist is empty and the
allocation of a chunk fails: the socket is closed, `malloc_fails` grows by one,
and nothing else changes but the allocation script. -/
theorem dispatch_conn_new_fail (w : World) (s : List Bool) (hf : w.cqi_freelist = none)
    (hs : w.heap_script = false :: s) (c : Handoff) :
    dispatch_conn_new w c.sfd c.init_state c.event_flags c.read_buffer_size c.transport
      = Except.ok
          { w with
            heap_script := s
            malloc_fails := w.malloc_fails + 1
            closed := c.sfd :: w.closed } := by
  simp [dispatch_conn_new, cqi_new, hf, World.alloc, hs]

theorem dispatch_all_spec (N : Nat) (hN : 1 ≤ N) :
    ∀ (cs : List Handoff) (w : World) (fl : List Nat) (qs : Nat → List Nat) (j : Nat),
      PoolInv (cq_pool w) fl qs → w.num_threads = N →
      -1 ≤ w.last_thread → (w.last_thread + 1) % (N : Int) = ((j % N : Nat) : Int) →
      ∃ (w' : World) (fl' : List Nat) (rs : List Nat),
        dispatch_all w cs = Except.ok w'
          ∧ w'.malloc_fails + rs.length = w.malloc_fails + cs.length
          ∧ (AllocOk w → rs.length = cs.length)
          ∧ (∀ r ∈ rs, ∀ u, r ∉ qs u)
          ∧ PoolInv (cq_pool w') fl' (fun t => qs t ++ share N t j rs)
          ∧ (∀ t, (w'.threads t).notify
              = (w.threads t).notify ++ (share N t j rs).map (fun _ => 'c'))
          ∧ (rs = [] → w'.last_thread = w.last_thread)
          ∧ (rs ≠ [] → w'.last_thread = (((j + rs.length - 1) % N : Nat) : Int)) := by
  intro cs
  induction cs with
  | nil =>
    intro w fl qs j h _ _ _
    refine ⟨w, fl, [], rfl, rfl, fun _ => rfl, by simp, ?_, by simp [share], fun _ => rfl,
      fun e => absurd rfl e⟩
    simpa [share] using h
  | cons c cs ih =>
    intro w fl qs j h hw hl hj
    by_cases hfail : w.cqi_freelist = none ∧ w.heap_script.head? = some false
    · obtain ⟨hf, hh⟩ := hfail
      obtain ⟨s, hs⟩ : ∃ s, w.heap_script = false :: s := by
        cases hsc : w.heap_script with
        | nil => rw [hsc] at hh; simp at hh
        | cons b s =>
          rw [hsc] at hh
          simp only [List.head?_cons, Option.some.injEq] at hh
          exact ⟨s, by rw [hh]⟩
      have hd := dispatch_conn_new_fail w s hf hs c
      obtain ⟨w', fl', rs, hrun, hcount, -, hfresh, hinv', hpipe, hnil, hcons⟩ :=
        ih { w with heap_script := s, malloc_fails := w.malloc_fails + 1,
                    closed := c.sfd :: w.closed } fl qs j h hw hl hj
      refine ⟨w', fl', rs, ?_, ?_, ?_, hfresh, hinv', hpipe, hnil, hcons⟩
      · rw [dispatch_all, hd]
        exact hrun
      · simp only [List.length_cons] at hcount ⊢
        omega
      · intro hok
        have := hok false (by rw [hs]; exact List.mem_cons_self _ _)
        cases this
    · have hs : w.cqi_freelist = none → w.heap_script.head? ≠ some false :=
        fun hf hh => hfail ⟨hf, hh⟩
      obtain ⟨r, fl1, w1, hd, hrq, hinv, hlast, hnum, hs1, hmf, hpt, hpo⟩ :=
        dispatch_conn_new_spec w fl qs h hs N hN hw hl c
      have ht : ((w.last_thread + 1) % (N : Int)).toNat = j % N := by
        rw [hj]; exact Int.toNat_natCast _
      rw [ht] at hinv hpt hpo
      have hl1 : w1.last_thread = ((j % N : Nat) : Int) := hlast.trans hj
      have hj1 : (w1.last_thread + 1) % (N : Int) = (((j + 1) % N : Nat) : Int) := by
        rw [hl1, ← Nat.mod_add_mod]
        push_cast
        rfl
      obtain ⟨w', fl', rs, hrun, hcount, hall, hfresh, hinv', hpipe, hnil, hcons⟩ :=
        ih w1 fl1 _ (j + 1) hinv (hnum.trans hw) (by rw [hl1]; omega) hj1
      refine ⟨w', fl', r :: rs, ?_, ?_, ?_, ?_, ?_, ?_, fun e => (by cases e), fun _ => ?_⟩
      · rw [dispatch_all, hd]
        exact hrun
      · simp only [List.length_cons] at hcount ⊢
        omega
      · intro hok
        rw [List.length_cons, List.length_cons, hall (fun x hx => hok x (hs1 x hx))]
      · intro x hx u
        rw [List.mem_cons] at hx
        rcases hx with hx | hx
        · rw [hx]; exact hrq u
        · intro hu
          refine hfresh x hx u ?_
          by_cases hut : u = j % N
          · subst hut
            rw [Function.update_same]
            exact List.mem_append_left _ hu
          · rw [Function.update_noteq hut]
            exact hu
      · have : (fun t => qs t ++ share N t j (r :: rs))
            = (fun t => Function.update qs (j % N) (qs (j % N) ++ [r]) t
                ++ share N t (j + 1) rs) := by
          funext t
          by_cases hut : t = j % N
          · subst hut
            rw [Function.update_same, share, if_pos rfl]
            simp
          · rw [Function.update_noteq hut, share, if_neg (fun e => hut e.symm)]
        rw [this]
        exact hinv'
      · intro t
        rw [hpipe t]
        by_cases hut : t = j % N
        · subst hut
          rw [hpt, share, if_pos rfl]
          simp
        · rw [hpo t hut, share, if_neg (fun e => hut e.symm)]
      · by_cases hrs : rs = []
        · rw [hnil hrs, hl1, hrs]
          simp
        · rw [hcons hrs]
          simp only [List.length_cons]
          congr 2
          have : 0 < rs.length := List.length_pos.mpr hrs
          omega

theorem boot_cq_inv (n : Int) (s : Nat) (dir : String) :
    PoolInv (cq_pool (boot n s dir)) [] (fun _ => []) where
  free := rfl
  queue := fun _ => rfl
  tail := fun _ => rfl
  nodup_free := List.nodup_nil
  nodup_queue := fun _ => List.nodup_nil
  free_queue := fun _ _ hp => by cases hp
  queue_queue := fun _ _ _ _ hp => by cases hp
  free_below := fun _ hp => by cases hp
  queue_below := fun _ _ hp => by cases hp

/-- Claim C10.  From a sound state with `last_thread = -1` and `N >= 1`
workers, any run of calls of `dispatch_conn_new` returns.  A call fails only
when the freelist is empty and the allocation of a chunk fails, and each failed
call counts in `malloc_fails`; `rs` lists the records of the successful calls.
Successful call number `j` (from 0) appends exactly one record, which was in no
queue before, to the queue of worker `j mod N` and to no other queue, and one
byte `c` to that worker's pipe; after it `last_thread` is `j mod N`.  After
`k * N` successful calls every worker below `N` has received exactly `k`
records, workers from `N` on receive nothing, and with `N = 1` worker 0
receives every record. -/
theorem dispatch_conn_new_round_robin (w : World) (fl : List Nat) (qs : Nat → List Nat)
    (N : Nat) (hN : 1 ≤ N) (hw : w.num_threads = N) (hl : w.last_thread = -1)
    (h : PoolInv (cq_pool w) fl qs) (cs : List Handoff) :
    ∃ (w' : World) (fl' : List Nat) (rs : List Nat),
      dispatch_all w cs = Except.ok w'
        ∧ w'.malloc_fails + rs.length = w.malloc_fails + cs.length
        ∧ (AllocOk w → rs.length = cs.length)
        ∧ (∀ r ∈ rs, ∀ u, r ∉ qs u)
        ∧ PoolInv (cq_pool w') fl' (fun t => qs t ++ share N t 0 rs)
        ∧ (∀ t, (w'.threads t).notify
            = (w.threads t).notify ++ (share N t 0 rs).map (fun _ => 'c'))
        ∧ (rs = [] → w'.last_thread = -1)
        ∧ (rs ≠ [] → w'.last_thread = (((rs.length - 1) % N : Nat) : Int))
        ∧ (∀ k, rs.length = k * N → ∀ t, t < N → (share N t 0 rs).length = k)
        ∧ (∀ t, N ≤ t → share N t 0 rs = [])
        ∧ (N = 1 → share N 0 0 rs = rs) := by
  obtain ⟨w', fl', rs, hrun, hcount, hall, hfresh, hinv, hpipe, hnil, hcons⟩ :=
    dispatch_all_spec N hN cs w fl qs 0 h hw (by rw [hl]) (by rw [hl]; simp)
  refine ⟨w', fl', rs, hrun, hcount, hall, hfresh, hinv, hpipe, ?_, ?_, ?_, ?_, ?_⟩
  · intro hrs
    rw [hnil hrs, hl]
  · intro hrs
    rw [hcons hrs, Nat.zero_add]
  · intro k hk t ht
    exact share_length_full N t k ht rs hk
  · intro t ht
    exact share_of_le N t hN ht rs 0
  · intro h1
    subst h1
    exact share_one rs 0

/-- Claim C10 with four workers and sixteen connections, from the state after
start-up: every call succeeds, the last one selects worker 3, and every worker
receives four records. -/
theorem dispatch_conn_new_round_robin_witness :
    ∃ (w' : World) (rs : List Nat),
      dispatch_all (boot 4 1 "d")
          (List.replicate 16
            { sfd := 7, init_state := 0, event_flags := 0, read_buffer_size := 2048,
              transport := 0 }) = Except.ok w'
        ∧ rs.length = 16 ∧ w'.last_thread = 3
        ∧ ∀ t, t < 4 → (share 4 t 0 rs).length = 4 := by
  obtain ⟨w', fl', rs, hrun, -, hall, -, -, -, -, hlast, hk, -, -⟩ :=
    dispatch_conn_new_round_robin (boot 4 1 "d") [] (fun _ => []) 4 (by decide) rfl rfl
      (boot_cq_inv 4 1 "d")
      (List.replicate 16
        { sfd := 7, init_state := 0, event_flags := 0, read_buffer_size := 2048,
          transport := 0 })
  have hlen : rs.length = 16 := by
    rw [hall (fun _ hb => by cases hb)]
    simp
  refine ⟨w', rs, hrun, hlen, ?_, fun t ht => hk 4 (by rw [hlen]) t ht⟩
  have hne : rs ≠ [] := by
    intro e
    rw [e] at hlen
    cases hlen
  rw [hlast hne, hlen]
  rfl

/-! ## The log freelist and the log queues -/

theorem lq_set_next_next (mem : Nat → LQ_ITEM) (a : Nat) (n : Option Nat) (p : Nat) :
    (lq_set_next mem a n p).next = if p = a then n else (mem p).next := by
  unfold lq_set_next
  by_cases h : p = a
  · subst h; simp
  · simp [Function.update_noteq h, h]

theorem lq_set_next_item (mem : Nat → LQ_ITEM) (a : Nat) (n : Option Nat) (p : Nat) :
    (lq_set_next mem a n p).item = (mem p).item := by
  unfold lq_set_next
  by_cases h : p = a
  · subst h; simp
  · simp [Function.update_noteq h]

theorem lq_link_chunk_next (item : Nat) :
    ∀ (n i : Nat) (mem : Nat → LQ_ITEM) (p : Nat), 1 ≤ i →
      (lq_link_chunk item n i mem p).next
        = if item + i - 1 ≤ p ∧ p < item + i - 1 + n then some (p + 1) else (mem p).next := by
  intro n
  induction n with
  | zero =>
    intro i mem p _
    rw [lq_link_chunk, if_neg (by omega)]
  | succ n ih =>
    intro i mem p hi
    rw [lq_link_chunk, ih (i + 1) _ p (by omega), lq_set_next_next]
    by_cases h1 : item + (i + 1) - 1 ≤ p ∧ p < item + (i + 1) - 1 + n
    · rw [if_pos h1, if_pos (by omega)]
    · rw [if_neg h1]
      by_cases h2 : p = item + i - 1
      · rw [if_pos h2, if_pos (by omega)]
        congr 1; omega
      · rw [if_neg h2, if_neg (by omega)]

theorem lq_link_chunk_item (item : Nat) :
    ∀ (n i : Nat) (mem : Nat → LQ_ITEM) (p : Nat),
      (lq_link_chunk item n i mem p).item = (mem p).item := by
  intro n
  induction n with
  | zero => intro i mem p; rw [lq_link_chunk]
  | succ n ih =>
    intro i mem p
    rw [lq_link_chunk, ih, lq_set_next_item]

/-- The function `lqi_new` when allocation succeeds: it hands out a record that
is in no list and keeps the pool sound; it touches only the `next` fields of
the log records, `lqi_freelist`, `brk` and the allocation script. -/
theorem lqi_new_spec (w : World) (fl : List Nat) (qs : Nat → List Nat)
    (h : PoolInv (lq_pool w) fl qs) (hs : AllocOk w) :
    ∃ (r : Nat) (fl' : List Nat) (mem : Nat → LQ_ITEM) (f : Option Nat) (b : Nat)
      (s : List Bool),
      lqi_new w
          = (some r, { w with lq_mem := mem, lqi_freelist := f, brk := b, heap_script := s })
        ∧ PoolInv (lq_pool
            { w with lq_mem := mem, lqi_freelist := f, brk := b, heap_script := s }) fl' qs
        ∧ r ∉ fl' ∧ (∀ u, r ∉ qs u) ∧ r < b ∧ w.brk ≤ b ∧ (∀ x ∈ s, x = true)
        ∧ (∀ p, (mem p).item = (w.lq_mem p).item) := by
  cases hf : w.lqi_freelist with
  | some r =>
    cases fl with
    | nil =>
      have : (lq_pool w).freelist = none := h.free
      rw [show (lq_pool w).freelist = w.lqi_freelist from rfl, hf] at this
      cases this
    | cons a fl =>
      have ha : w.lqi_freelist = some a := h.free.1
      rw [hf] at ha
      cases ha
      refine ⟨r, fl, w.lq_mem, (w.lq_mem r).next, w.brk, w.heap_script, ?_, ?_⟩
      · simp [lqi_new, hf]
      · have := PoolInv.take_free (lq_pool
            { w with lq_mem := w.lq_mem, lqi_freelist := (w.lq_mem r).next, brk := w.brk,
                     heap_script := w.heap_script })
          h rfl rfl (fun _ => rfl) (fun _ => rfl) (fun _ => rfl)
        exact ⟨this.1, this.2.1, this.2.2.1, this.2.2.2, le_refl _, hs, fun _ => rfl⟩
  | none =>
    have hfl : fl = [] := by
      cases fl with
      | nil => rfl
      | cons a fl =>
        have ha : w.lqi_freelist = some a := h.free.1
        rw [hf] at ha
        cases ha
    subst hfl
    obtain ⟨s, hal, hsok⟩ := alloc_ok w hs
    refine ⟨w.brk, List.range' (w.brk + 1) (LOG_ITEMS_PER_ALLOC - 1),
      lq_set_next (lq_link_chunk w.brk (LOG_ITEMS_PER_ALLOC - 2) 2 w.lq_mem)
        (w.brk + (LOG_ITEMS_PER_ALLOC - 1)) none,
      some (w.brk + 1), w.brk + LOG_ITEMS_PER_ALLOC, s, ?_, ?_⟩
    · simp [lqi_new, hf, hal]
    · have := PoolInv.grow (lq_pool
          { w with
            lq_mem := lq_set_next (lq_link_chunk w.brk (LOG_ITEMS_PER_ALLOC - 2) 2 w.lq_mem)
              (w.brk + (LOG_ITEMS_PER_ALLOC - 1)) none
            lqi_freelist := some (w.brk + 1)
            brk := w.brk + LOG_ITEMS_PER_ALLOC
            heap_script := s })
        h LOG_ITEMS_PER_ALLOC (by decide) rfl rfl (fun _ => rfl) (fun _ => rfl)
        (fun a ha => by
          show (lq_set_next _ _ _ a).next = (w.lq_mem a).next
          have ha' : a < w.brk := ha
          rw [lq_set_next_next, lq_link_chunk_next _ _ _ _ _ (by omega)]
          have : LOG_ITEMS_PER_ALLOC = 32 := rfl
          rw [if_neg (by omega), if_neg (by omega)])
        (fun i h1 h2 => by
          show (lq_set_next _ _ _ _).next = some (w.brk + i + 1)
          have : LOG_ITEMS_PER_ALLOC = 32 := rfl
          rw [lq_set_next_next, lq_link_chunk_next _ _ _ _ _ (by omega)]
          rw [if_neg (by show ¬ (w.brk + i = w.brk + (LOG_ITEMS_PER_ALLOC - 1)); omega),
            if_pos (by show w.brk + 2 - 1 ≤ w.brk + i ∧ w.brk + i < _; omega)]
          rfl)
        (by
          show (lq_set_next _ _ _ (w.brk + (LOG_ITEMS_PER_ALLOC - 1))).next = none
          rw [lq_set_next_next, if_pos rfl])
      refine ⟨this.1, this.2.1, this.2.2.1, this.2.2.2, Nat.le_add_right _ _, hsok, fun p => ?_⟩
      rw [lq_set_next_item, lq_link_chunk_item]

theorem lq_push_next (mem : Nat → LQ_ITEM) (lq : LQ) (r p : Nat) :
    ((lq_push mem lq r).1 p).next
      = if lq.tail = some p then some r else if p = r then none else (mem p).next := by
  unfold lq_push
  cases ht : lq.tail with
  | none => simp [lq_set_next_next]
  | some t =>
    simp only [lq_set_next_next]
    by_cases h1 : p = t
    · simp [h1]
    · have : ¬ (some t = some p) := fun e => h1 (Option.some.inj e).symm
      simp [h1, this]

theorem lq_push_item (mem : Nat → LQ_ITEM) (lq : LQ) (r p : Nat) :
    ((lq_push mem lq r).1 p).item = (mem p).item := by
  unfold lq_push
  cases ht : lq.tail with
  | none => simp [lq_set_next_item]
  | some t => simp [lq_set_next_item]

theorem lq_push_queue (mem : Nat → LQ_ITEM) (lq : LQ) (r : Nat) :
    (lq_push mem lq r).2.head = (if lq.tail = none then some r else lq.head)
      ∧ (lq_push mem lq r).2.tail = some r := by
  unfold lq_push
  cases ht : lq.tail <;> simp

/-! ## Submission of an item to its log writer -/

/-- One call of `notify_log` outside recovery when allocation succeeds and the
class of the item is one of the `slabs_num` classes. -/
theorem notify_log_step (L : ItemLayout) (sc : Nat → Nat) (w : World) (vitem : Mem)
    (fl : List Nat) (qs : Nat → List Nat) (hb : w.begin_recover = 0) (hs : AllocOk w)
    (hclass : sc (L.ITEM_ntotal vitem) < w.slabs_num)
    (h : PoolInv (lq_pool w) fl qs) :
    ∃ (r : Nat) (fl' : List Nat) (w' : World),
      notify_log L sc w vitem = Except.ok w'
        ∧ (∀ u, r ∉ qs u)
        ∧ PoolInv (lq_pool w') fl'
            (Function.update qs (sc (L.ITEM_ntotal vitem))
              (qs (sc (L.ITEM_ntotal vitem)) ++ [r]))
        ∧ (w'.lq_mem r).item
            = some (bytes vitem (L.ITEM_ntotal vitem)
                ++ List.replicate (3 * L.ITEM_ntotal vitem) 0)
        ∧ (∀ p, p ≠ r → (w'.lq_mem p).item = (w.lq_mem p).item)
        ∧ (w'.log_threads (sc (L.ITEM_ntotal vitem))).notify
            = (w.log_threads (sc (L.ITEM_ntotal vitem))).notify ++ ['l']
        ∧ (∀ u, u ≠ sc (L.ITEM_ntotal vitem) →
            (w'.log_threads u).notify = (w.log_threads u).notify)
        ∧ (∀ u, (w'.log_threads u).log_fd = (w.log_threads u).log_fd
            ∧ (w'.log_threads u).log_filepath = (w.log_threads u).log_filepath)
        ∧ w'.changes_after_last_snapshot = w.changes_after_last_snapshot + 1
        ∧ w'.fs = w.fs ∧ w'.begin_recover = w.begin_recover ∧ AllocOk w'
        ∧ w'.malloc_fails = w.malloc_fails := by
  obtain ⟨s, hal, hsok⟩ := alloc_ok w hs
  obtain ⟨r, fl', mem, f, b, s2, hnew, hinv, hrf, hrq, hrb, hbb, hs2, hitem⟩ :=
    lqi_new_spec { w with heap_script := s } fl qs h hsok
  generalize hid : sc (L.ITEM_ntotal vitem) = id at hclass
  have hcl : ¬ (w.slabs_num ≤ id) := Nat.not_le.mpr hclass
  set w2 : World :=
    { w with lq_mem := mem, lqi_freelist := f, brk := b, heap_script := s2 } with hw2
  set mem1 : Nat → LQ_ITEM := Function.update w2.lq_mem r
    { w2.lq_mem r with
      item := some (bytes vitem (L.ITEM_ntotal vitem)
        ++ List.replicate (3 * L.ITEM_ntotal vitem) 0) } with hmem1
  have hm1 : ∀ p, (mem1 p).next = (w2.lq_mem p).next := by
    intro p
    by_cases hp : p = r
    · subst hp; simp [hmem1]
    · simp [hmem1, Function.update_noteq hp]
  have hnext := lq_push_next mem1 (w2.log_threads id).new_log_queue r
  have hq := lq_push_queue mem1 (w2.log_threads id).new_log_queue r
  have htl : (w2.log_threads id).new_log_queue.tail ≠ some r := by
    intro e
    have := hinv.tail id
    rw [show (lq_pool w2).tail id = (w2.log_threads id).new_log_queue.tail from rfl, e] at this
    exact hrq id (List.mem_of_mem_getLast? this.symm)
  refine ⟨r, fl',
    { w2 with
      lq_mem := (lq_push mem1 (w2.log_threads id).new_log_queue r).1
      log_threads := Function.update w2.log_threads id
        { w2.log_threads id with
          new_log_queue := (lq_push mem1 (w2.log_threads id).new_log_queue r).2
          notify := (w2.log_threads id).notify ++ ['l'] }
      changes_after_last_snapshot := w2.changes_after_last_snapshot + 1 },
    ?_, hrq, ?_, ?_, ?_, ?_, ?_, ?_, rfl, rfl, rfl, hs2, rfl⟩
  · unfold notify_log
    have hnew' : lqi_new { w with heap_script := s }
        = (some r, { w with lq_mem := mem, lqi_freelist := f, brk := b, heap_script := s2 }) :=
      hnew
    have hb' : ¬ (w.begin_recover ≠ 0) := fun e => e hb
    simp only [if_neg hb', hal, hnew', hid, if_neg hcl]
  · refine PoolInv.push hinv id r hrf hrq hrb (le_refl _) rfl ?_ ?_ ?_ ?_ ?_ ?_
    · show ((lq_push mem1 (w2.log_threads id).new_log_queue r).1 r).next = none
      rw [hnext, if_neg htl, if_pos rfl]
    · intro a ha
      have ha' : (w2.log_threads id).new_log_queue.tail = some a := ha
      show ((lq_push mem1 (w2.log_threads id).new_log_queue r).1 a).next = some r
      rw [hnext, if_pos ha']
    · intro a har hat
      have hat' : (w2.log_threads id).new_log_queue.tail ≠ some a := hat
      show ((lq_push mem1 (w2.log_threads id).new_log_queue r).1 a).next = (w2.lq_mem a).next
      rw [hnext, if_neg hat', if_neg har, hm1]
    · show (Function.update w2.log_threads id _ id).new_log_queue.head = _
      rw [Function.update_same]
      exact hq.1
    · show (Function.update w2.log_threads id _ id).new_log_queue.tail = _
      rw [Function.update_same]
      exact hq.2
    · intro u hu
      show (Function.update w2.log_threads id _ u).new_log_queue.head = _
        ∧ (Function.update w2.log_threads id _ u).new_log_queue.tail = _
      rw [Function.update_noteq hu]
      exact ⟨rfl, rfl⟩
  · show ((lq_push mem1 (w2.log_threads id).new_log_queue r).1 r).item = _
    rw [lq_push_item]
    simp [hmem1]
  · intro p hp
    show ((lq_push mem1 (w2.log_threads id).new_log_queue r).1 p).item = _
    rw [lq_push_item]
    simp only [hmem1, Function.update_noteq hp]
    exact hitem p
  · show (Function.update w2.log_threads id _ id).notify = _
    rw [Function.update_same]
  · intro u hu
    show (Function.update w2.log_threads id _ u).notify = _
    rw [Function.update_noteq hu]
  · intro u
    show (Function.update w2.log_threads id _ u).log_fd = _
      ∧ (Function.update w2.log_threads id _ u).log_filepath = _
    by_cases hu : u = id
    · subst hu
      rw [Function.update_same]
      exact ⟨rfl, rfl⟩
    · rw [Function.update_noteq hu]
      exact ⟨rfl, rfl⟩

theorem boot_lq_inv (n : Int) (s : Nat) (dir : String) :
    PoolInv (lq_pool (boot n s dir)) [] (fun _ => []) where
  free := rfl
  queue := fun _ => rfl
  tail := fun _ => rfl
  nodup_free := List.nodup_nil
  nodup_queue := fun _ => List.nodup_nil
  free_queue := fun _ _ hp => by cases hp
  queue_queue := fun _ _ _ _ hp => by cases hp
  free_below := fun _ hp => by cases hp
  queue_below := fun _ _ hp => by cases hp

theorem bytes_length (m : Mem) (n : Nat) : (bytes m n).length = n := by
  simp [bytes]

/-- Claim C6.  In a sound state, `notify_log` called while `begin_recover` is
set returns the state it was given: no queue, pipe or counter changes.  Called
while `begin_recover` is 0, allocation succeeding and the slab allocator
giving the item a class below `stats.slabs_num`, it returns with one record,
which was in no queue, appended to the queue of class
`slabs_clsid(ITEM_ntotal(item))` and every other queue as before; the copy held
by the record starts with the `ITEM_ntotal(item)` bytes of the item; the pipe
of that writer has one more byte `l`, the other pipes are as before, and
`changes_after_last_snapshot` is one more. -/
theorem notify_log_submits_one_record (L : ItemLayout) (sc : Nat → Nat) (w : World)
    (vitem : Mem) (fl : List Nat) (qs : Nat → List Nat) (h : PoolInv (lq_pool w) fl qs)
    (hs : AllocOk w) (hclass : sc (L.ITEM_ntotal vitem) < w.slabs_num) :
    (w.begin_recover ≠ 0 → notify_log L sc w vitem = Except.ok w)
      ∧ (w.begin_recover = 0 →
          ∃ (r : Nat) (fl' : List Nat) (w' : World) (copy : List Byte),
            notify_log L sc w vitem = Except.ok w'
              ∧ (∀ u, r ∉ qs u)
              ∧ PoolInv (lq_pool w') fl'
                  (Function.update qs (sc (L.ITEM_ntotal vitem))
                    (qs (sc (L.ITEM_ntotal vitem)) ++ [r]))
              ∧ (w'.lq_mem r).item = some copy
              ∧ copy.take (L.ITEM_ntotal vitem) = bytes vitem (L.ITEM_ntotal vitem)
              ∧ (w'.log_threads (sc (L.ITEM_ntotal vitem))).notify
                  = (w.log_threads (sc (L.ITEM_ntotal vitem))).notify ++ ['l']
              ∧ (∀ u, u ≠ sc (L.ITEM_ntotal vitem) →
                  (w'.log_threads u).notify = (w.log_threads u).notify)
              ∧ w'.changes_after_last_snapshot = w.changes_after_last_snapshot + 1) := by
  constructor
  · intro hb
    unfold notify_log
    simp only [if_pos hb]
  · intro hb
    obtain ⟨r, fl', w', hrun, hrq, hinv, hcopy, -, hpipe, hpo, -, hch, -⟩ :=
      notify_log_step L sc w vitem fl qs hb hs hclass h
    refine ⟨r, fl', w', _, hrun, hrq, hinv, hcopy, ?_, hpipe, hpo, hch⟩
    rw [List.take_left' (bytes_length _ _)]

/-- Claim C6 at the state after start-up, for an item of slab class 1: with
`begin_recover` set the call returns its input, and with `begin_recover` clear
writer 1 gets the byte `l` and the dirty counter becomes 1. -/
theorem notify_log_submits_one_record_witness :
    notify_log packed (fun _ => 1) { boot 4 2 "d" with begin_recover := 1 }
        (view (packed_image 1 [107] [49]))
      = Except.ok { boot 4 2 "d" with begin_recover := 1 }
    ∧ ∃ w' : World,
        notify_log packed (fun _ => 1) (boot 4 2 "d") (view (packed_image 1 [107] [49]))
          = Except.ok w'
        ∧ (w'.log_threads 1).notify = ['l'] ∧ w'.changes_after_last_snapshot = 1 := by
  constructor
  · exact (notify_log_submits_one_record packed (fun _ => 1)
      { boot 4 2 "d" with begin_recover := 1 } (view (packed_image 1 [107] [49])) []
      (fun _ => []) (boot_lq_inv 4 2 "d") (fun _ hb => by cases hb) (by decide)).1
      (by decide)
  · obtain ⟨r, fl', w', copy, hrun, -, -, -, -, hpipe, -, hch⟩ :=
      (notify_log_submits_one_record packed (fun _ => 1) (boot 4 2 "d")
        (view (packed_image 1 [107] [49])) [] (fun _ => []) (boot_lq_inv 4 2 "d")
        (fun _ hb => by cases hb) (by decide)).2 rfl
    exact ⟨w', hrun, hpipe, hch⟩

/-- Claim C7, the code when allocation fails.  With the copy not allocated
(`calloc` returns null) `notify_log` stores through the null pointer in
`memcpy(copy_item, vitem, item_ntotal)`; with the copy allocated and the chunk
of log records not (`lqi_new` returns null) it stores through the null pointer
in `log_item->item = copy_item`. -/
theorem notify_log_faults_when_allocation_fails :
    fault_of (notify_log packed (fun _ => 1) { boot 4 2 "d" with heap_script := [false] }
        (view (packed_image 1 [107] [49]))) = some Fault.null_deref
    ∧ fault_of (notify_log packed (fun _ => 1)
        { boot 4 2 "d" with heap_script := [true, false] }
        (view (packed_image 1 [107] [49]))) = some Fault.null_deref
    ∧ (lqi_new { boot 4 2 "d" with heap_script := [false] }).1 = none
    ∧ (lqi_new { boot 4 2 "d" with heap_script := [false] }).2.malloc_fails = 1 := by
  decide

/-! ## The log writer -/

/-- A record that holds an item copy cannot be given back: `lqi_free` passes
the record itself to `free`. -/
theorem lqi_free_of_copy (w : World) (a : Nat) (h : (w.lq_mem a).item ≠ none) :
    lqi_free w a = Except.error Fault.invalid_free := by
  unfold lqi_free
  rw [if_pos h]

/-- A record without an item copy goes back on the freelist, and `brk` and the
copies stay as they are. -/
theorem lqi_free_of_null (w : World) (a : Nat) (h : (w.lq_mem a).item = none) :
    lqi_free w a
      = Except.ok { w with
          lq_mem := lq_set_next w.lq_mem a w.lqi_freelist
          lqi_freelist := some a } := by
  unfold lqi_free
  rw [if_neg (by rw [h]; exact fun e => e rfl)]

/-- The command `l` in writer `i` with its log file open on `fd` and the
record `a`, which holds `copy`, at the head of its queue: the writer takes the
record off the queue, appends the first `ITEM_ntotal(copy)` bytes of the copy
to the file, and then calls `lqi_free` on the record, which faults in
`free`. -/
theorem log_event_process_l_frees_record (L : ItemLayout) (w : World) (i a : Nat)
    (fd : String) (copy : List Byte) (bs : List Char)
    (hhead : (w.log_threads i).new_log_queue.head = some a)
    (hpipe : (w.log_threads i).notify = 'l' :: bs)
    (hfd : (w.log_threads i).log_fd = some fd) (hcopy : (w.lq_mem a).item = some copy) :
    ∃ w2, log_event_process L w i = lqi_free w2 a
      ∧ w2.fs = Function.update w.fs fd
          (some ((w.fs fd).getD [] ++ bytes (view copy) (L.ITEM_ntotal (view copy))))
      ∧ (w2.log_threads i).new_log_queue.head = (w.lq_mem a).next
      ∧ (w2.lq_mem a).item = some copy
      ∧ log_event_process L w i = Except.error Fault.invalid_free := by
  have hrun : log_event_process L w i
      = lqi_free
          (fwrite
            { w with
              log_threads := Function.update w.log_threads i
                { new_log_queue :=
                    { head := (w.lq_mem a).next
                      tail := if (w.lq_mem a).next = none then none
                        else (w.log_threads i).new_log_queue.tail }
                  notify := bs
                  log_fd := (w.log_threads i).log_fd
                  log_filepath := (w.log_threads i).log_filepath
                  slab_no := (w.log_threads i).slab_no } }
            fd (bytes (view copy) (L.ITEM_ntotal (view copy)))) a := by
    simp only [log_event_process, hpipe, log_event_switch, lq_pop, hhead, hfd, hcopy,
      Function.update_same, Function.update_idem, if_true]
  refine ⟨_, hrun, rfl, ?_, hcopy, ?_⟩
  · simp [fwrite]
  · rw [hrun]
    exact lqi_free_of_copy _ a (by
      show (w.lq_mem a).item ≠ none
      rw [hcopy]
      exact fun e => by cases e)

/-- Claim C5, the code at one `l` command.  After start-up with two log
writers an item of class 0 and then an item of class 1 are submitted: the
record of the second is the second record of the chunk and is the head of the
queue of writer 1, whose log file is open and empty.  Writer 1 then handles
its `l` command: the call does not return, because after the write `lqi_free`
passes the record, a pointer into the middle of the chunk, to `free`. -/
theorem log_event_process_l_frees_queue_record :
    (run_log packed (fun n => if n = 11 then 0 else 1) 1 (boot 4 2 "d")
        [LogStep.submit (view (packed_image 1 [97] [48])),
          LogStep.submit (view (packed_image 1 [107] [49, 49]))]).toOption.map
      (fun w => ((w.log_threads 1).new_log_queue.head, (w.log_threads 1).notify,
        (w.log_threads 1).log_fd, w.fs "d/log_1"))
      = some (some 1, ['l'], some "d/log_1", some [])
    ∧ fault_of (run_log packed (fun n => if n = 11 then 0 else 1) 1 (boot 4 2 "d")
        [LogStep.submit (view (packed_image 1 [97] [48])),
          LogStep.submit (view (packed_image 1 [107] [49, 49])), LogStep.handle])
      = some Fault.invalid_free := by
  decide

/-- Claim C3, the code at two records for one writer.  After an item of class
0, two items are submitted to writer 1, which then handles two `l` commands:
the run ends in the first of them, in the call of `free` on the queue record,
so the second record does not reach the log file. -/
theorem log_writer_aborts_before_second_record :
    fault_of (run_log packed (fun n => if n = 11 then 0 else 1) 1 (boot 4 2 "d")
        [LogStep.submit (view (packed_image 1 [97] [48])),
          LogStep.submit (view (packed_image 1 [107] [49, 49])),
          LogStep.submit (view (packed_image 1 [109] [50, 50])),
          LogStep.handle])
      = some Fault.invalid_free
    ∧ fault_of (run_log packed (fun n => if n = 11 then 0 else 1) 1 (boot 4 2 "d")
        [LogStep.submit (view (packed_image 1 [97] [48])),
          LogStep.submit (view (packed_image 1 [107] [49, 49])),
          LogStep.submit (view (packed_image 1 [109] [50, 50])),
          LogStep.handle, LogStep.handle])
      = some Fault.invalid_free := by
  decide

/-! ## Rotation of a log file -/

/-- Claim C4, the code at a rotation with one record before and one after.
After an item of class 0, writer 1 is to write one record, rotate on `s`, write
another record and finish on `d`: the run ends in the first `l` command, in the
call of `free` on the queue record, before the rotation starts.  Without any
record the two commands `s` and `d` alone do return, and leave an empty
`log_1` and no `log_1.snapshot_before`. -/
theorem log_rotation_aborts_at_first_record :
    fault_of (run_log packed (fun n => if n = 11 then 0 else 1) 1 (boot 4 2 "d")
        [LogStep.submit (view (packed_image 1 [97] [48])),
          LogStep.submit (view (packed_image 1 [107] [49, 49])), LogStep.handle,
          LogStep.rotate, LogStep.handle,
          LogStep.submit (view (packed_image 1 [109] [50, 50])), LogStep.handle,
          LogStep.finish, LogStep.handle])
      = some Fault.invalid_free
    ∧ (run_log packed (fun n => if n = 11 then 0 else 1) 1 (boot 4 2 "d")
        [LogStep.rotate, LogStep.handle, LogStep.finish, LogStep.handle]).toOption.map
      (fun w => (w.fs "d/log_1", w.fs "d/log_1.snapshot_before"))
      = some (some [], none) := by
  decide

/-! ## A failed allocation in `dispatch_conn_new` -/

/-- Claim C11.  When `cqi_new` returns null, `dispatch_conn_new` returns after
closing `sfd` and counting one more failure in `malloc_fails`; the queue and
the pipe of every worker, the handoff records, the freelist and `last_thread`
are as before the call. -/
theorem dispatch_conn_new_alloc_failure_closes_socket (w : World) (sfd : Int)
    (init_state : Nat) (event_flags read_buffer_size : Int) (transport : Nat)
    (h : (cqi_new w).1 = none) :
    ∃ w', dispatch_conn_new w sfd init_state event_flags read_buffer_size transport
          = Except.ok w'
      ∧ w'.closed = sfd :: w.closed
      ∧ w'.malloc_fails = w.malloc_fails + 1
      ∧ w'.threads = w.threads
      ∧ w'.cq_mem = w.cq_mem
      ∧ w'.cqi_freelist = w.cqi_freelist
      ∧ w'.last_thread = w.last_thread := by
  unfold cqi_new at h
  cases hf : w.cqi_freelist with
  | some a => rw [hf] at h; cases h
  | none =>
    rw [hf] at h
    unfold World.alloc at h
    cases hs : w.heap_script with
    | nil => rw [hs] at h; cases h
    | cons b s =>
      rw [hs] at h
      cases b with
      | true => cases h
      | false =>
        have hr := dispatch_conn_new_fail w s hf hs
          { sfd := sfd, init_state := init_state, event_flags := event_flags,
            read_buffer_size := read_buffer_size, transport := transport }
        exact ⟨_, hr, rfl, rfl, rfl, rfl, hf, rfl⟩

/-- Claim C11 in the state after start-up with four workers, the next
allocation failing: the socket 7 is closed, one failure is counted, and worker
0 has an empty queue and an empty pipe. -/
theorem dispatch_conn_new_alloc_failure_closes_socket_witness :
    ∃ w', dispatch_conn_new { boot 4 1 "d" with heap_script := [false] } 7 0 0 2048 0
          = Except.ok w'
      ∧ w'.closed = [7] ∧ w'.malloc_fails = 1
      ∧ (w'.threads 0).new_conn_queue = { head := none, tail := none }
      ∧ (w'.threads 0).notify = [] ∧ w'.last_thread = -1 := by
  obtain ⟨w', hr, hc, hm, ht, -, -, hl⟩ :=
    dispatch_conn_new_alloc_failure_closes_socket
      { boot 4 1 "d" with heap_script := [false] } 7 0 0 2048 0 rfl
  exact ⟨w', hr, hc, hm, by rw [ht]; rfl, by rw [ht]; rfl, by rw [hl]; rfl⟩

/-! ## The lock table -/

theorem hashsize_eq (n : Nat) (h : n < 64) : hashsize n = 2 ^ n := by
  unfold hashsize
  exact Nat.mod_eq_of_lt (Nat.pow_lt_pow_right (by decide) h)

theorem hashmask_eq (n : Nat) (h : n < 64) : hashmask n = 2 ^ n - 1 := by
  unfold hashmask
  rw [hashsize_eq n h]
  have h1 : 0 < 2 ^ n := Nat.two_pow_pos _
  have h2 : 2 ^ n < 2 ^ 64 := Nat.pow_lt_pow_right (by decide) h
  have h3 : 2 ^ n + 2 ^ 64 - 1 = (2 ^ n - 1) + 2 ^ 64 := by omega
  rw [h3, Nat.add_mod_right]
  exact Nat.mod_eq_of_lt (by omega)

theorem thread_init_power_range (N : Int) :
    thread_init_power N = 10 ∨ thread_init_power N = 11 ∨ thread_init_power N = 12
      ∨ thread_init_power N = 13 := by
  unfold thread_init_power
  split_ifs <;> simp

/-- Claim C13.  For every worker count `N`, `thread_init` selects the exponent
10 if `N < 3`, 11 if `N < 4`, 12 if `N < 5` and 13 otherwise, and sets
`item_lock_count` to 2 to that exponent; the exponents for 1, 2, 3, 4, 5 and
128 workers are 10, 10, 11, 12, 13 and 13; the exponent is one of 10, 11, 12,
13, and a larger worker count never gets a smaller exponent. -/
theorem thread_init_selects_lock_exponent (N M : Int) (h : N ≤ M) :
    (∃ k, thread_init_lock_table N true = some k
        ∧ k.item_lock_hashpower
          = (if N < 3 then 10 else if N < 4 then 11 else if N < 5 then 12 else 13)
        ∧ k.item_lock_count = 2 ^ k.item_lock_hashpower
        ∧ k.item_lock_hashpower ∈ [10, 11, 12, 13])
      ∧ [1, 2, 3, 4, 5, 128].map thread_init_power = [10, 10, 11, 12, 13, 13]
      ∧ thread_init_power N ≤ thread_init_power M := by
  refine ⟨⟨_, rfl, rfl, ?_, ?_⟩, by decide, ?_⟩
  · show hashsize (thread_init_power N) % 2 ^ 32 = 2 ^ thread_init_power N
    rcases thread_init_power_range N with e | e | e | e <;> rw [e] <;> decide
  · show thread_init_power N ∈ [10, 11, 12, 13]
    rcases thread_init_power_range N with e | e | e | e <;> rw [e] <;> decide
  · unfold thread_init_power
    split_ifs <;> omega

/-- Claim C13 for two and for five workers: the table of two workers has
1024 locks, and the exponent of two workers is below that of five. -/
theorem thread_init_selects_lock_exponent_witness :
    (∃ k, thread_init_lock_table 2 true = some k ∧ k.item_lock_count = 1024)
      ∧ thread_init_power 2 ≤ thread_init_power 5 := by
  obtain ⟨⟨k, hk, hp, hc, -⟩, -, hm⟩ := thread_init_selects_lock_exponent 2 5 (by decide)
  refine ⟨⟨k, hk, ?_⟩, hm⟩
  rw [hc, hp]
  rfl

/-- Claim C14.  With a lock table of `2 ^ P` locks, for every hash value and
either mode: the bucket index `hv & (2 ^ P - 1)` is below `item_lock_count`;
`item_lock` returns exactly when the mutex it selects is free, and then that
mutex alone has changed, to held: the bucket of that index under GRANULAR, the
global lock otherwise, never both; `item_unlock` in the same mode releases
that same mutex and no other; and `item_unlock` after `item_lock` leaves every
lock as it was before the two calls. -/
theorem item_lock_takes_one_mutex (k : Locks) (lock_type : item_lock_types) (hv : Nat)
    (hP : k.item_lock_hashpower < 32)
    (hc : k.item_lock_count = (hashsize k.item_lock_hashpower) % 2 ^ 32) :
    hv &&& (2 ^ k.item_lock_hashpower - 1) < k.item_lock_count
      ∧ item_lock k item_lock_types.ITEM_LOCK_GRANULAR hv
        = (if k.item_locks (hv &&& (2 ^ k.item_lock_hashpower - 1)) then none
           else some { k with
              item_locks := Function.update k.item_locks
                (hv &&& (2 ^ k.item_lock_hashpower - 1)) true })
      ∧ item_lock k item_lock_types.ITEM_LOCK_GLOBAL hv
        = (if k.item_global_lock then none else some { k with item_global_lock := true })
      ∧ item_unlock k item_lock_types.ITEM_LOCK_GRANULAR hv
        = { k with
            item_locks := Function.update k.item_locks
              (hv &&& (2 ^ k.item_lock_hashpower - 1)) false }
      ∧ item_unlock k item_lock_types.ITEM_LOCK_GLOBAL hv
        = { k with item_global_lock := false }
      ∧ ∀ k1, item_lock k lock_type hv = some k1 → item_unlock k1 lock_type hv = k := by
  have hm : hashmask k.item_lock_hashpower = 2 ^ k.item_lock_hashpower - 1 :=
    hashmask_eq _ (by omega)
  have hs : k.item_lock_count = 2 ^ k.item_lock_hashpower := by
    rw [hc, hashsize_eq _ (by omega)]
    exact Nat.mod_eq_of_lt (Nat.pow_lt_pow_right (by decide) hP)
  have hg : item_lock k item_lock_types.ITEM_LOCK_GRANULAR hv
        = (if k.item_locks (hv &&& (2 ^ k.item_lock_hashpower - 1)) then none
           else some { k with
              item_locks := Function.update k.item_locks
                (hv &&& (2 ^ k.item_lock_hashpower - 1)) true }) := by
    unfold item_lock mutex_lock
    rw [if_pos rfl, hm]
    by_cases hb : k.item_locks (hv &&& (2 ^ k.item_lock_hashpower - 1)) = true
    · simp only [hb, if_true, Option.map_none']
    · simp only [hb, if_false, Option.map_some', Bool.false_eq_true]
  have hl : item_lock k item_lock_types.ITEM_LOCK_GLOBAL hv
        = (if k.item_global_lock then none else some { k with item_global_lock := true }) := by
    unfold item_lock mutex_lock
    rw [if_neg (by decide)]
    by_cases hb : k.item_global_lock = true
    · simp only [hb, if_true, Option.map_none']
    · simp only [hb, if_false, Option.map_some', Bool.false_eq_true]
  refine ⟨?_, hg, hl, ?_, ?_, ?_⟩
  · rw [Nat.and_pow_two_sub_one_eq_mod, hs]
    exact Nat.mod_lt _ (Nat.two_pow_pos _)
  · unfold item_unlock mutex_unlock
    rw [if_pos rfl, hm]
  · unfold item_unlock mutex_unlock
    rw [if_neg (by decide)]
  · intro k1 h1
    cases lock_type with
    | ITEM_LOCK_GRANULAR =>
      rw [hg] at h1
      cases hb : k.item_locks (hv &&& (2 ^ k.item_lock_hashpower - 1)) with
      | true => rw [hb] at h1; cases h1
      | false =>
        rw [hb] at h1
        simp only [Bool.false_eq_true, if_false, Option.some.injEq] at h1
        subst h1
        unfold item_unlock mutex_unlock
        rw [if_pos rfl]
        show ({ k with
            item_locks := Function.update (Function.update k.item_locks
              (hv &&& (2 ^ k.item_lock_hashpower - 1)) true)
              (hv &&& hashmask k.item_lock_hashpower) false } : Locks) = k
        rw [hm, Function.update_idem, ← hb, Function.update_eq_self]
    | ITEM_LOCK_GLOBAL =>
      rw [hl] at h1
      cases hb : k.item_global_lock with
      | true => rw [hb] at h1; cases h1
      | false =>
        rw [hb] at h1
        simp only [Bool.false_eq_true, if_false, Option.some.injEq] at h1
        subst h1
        unfold item_unlock mutex_unlock
        rw [if_neg (by decide)]
        show ({ k with item_global_lock := false } : Locks) = k
        rw [← hb]

/-- Claim C14 on the lock table of four workers, all locks free, for the hash
value 123456789: the bucket is number 3349 of 4096, and locking then unlocking
in GRANULAR mode gives the table back. -/
theorem item_lock_takes_one_mutex_witness :
    (123456789 : Nat) &&& (2 ^ 12 - 1) < 4096
      ∧ ∀ k1, item_lock
            { item_lock_hashpower := 12, item_lock_count := 4096,
              item_locks := fun _ => false, item_global_lock := false }
            item_lock_types.ITEM_LOCK_GRANULAR 123456789 = some k1 →
          item_unlock k1 item_lock_types.ITEM_LOCK_GRANULAR 123456789
            = { item_lock_hashpower := 12, item_lock_count := 4096,
                item_locks := fun _ => false, item_global_lock := false } := by
  obtain ⟨hi, -, -, -, -, hu⟩ :=
    item_lock_takes_one_mutex
      { item_lock_hashpower := 12, item_lock_count := 4096,
        item_locks := fun _ => false, item_global_lock := false }
      item_lock_types.ITEM_LOCK_GRANULAR 123456789 (by decide) (by decide)
  exact ⟨hi, hu⟩

/-! ## Queues are first in, first out -/

/-- Appending a record to a chain through the assignments of a push: the old
tail, if any, now leads to the record, and the record leads to null. -/
theorem Seg.append_pushed {next next' : Nat → Option Nat} {head tail : Option Nat} {l : List Nat}
    {r : Nat} (h : Seg next head l) (ht : tail = l.getLast?) (hnd : l.Nodup) (hr : r ∉ l)
    (hnext : ∀ p, next' p
      = if tail = some p then some r else if p = r then none else next p) :
    Seg next' (if tail = none then some r else head) (l ++ [r]) := by
  by_cases hl : l = []
  · subst hl
    have ht' : tail = none := ht
    subst ht'
    refine ⟨by simp, ?_⟩
    rw [hnext r]
    simp only [if_true, reduceCtorEq, if_false]
    rfl
  · obtain ⟨t, htl⟩ : ∃ t, l.getLast? = some t := by
      cases hg : l.getLast? with
      | none => exact absurd (List.getLast?_eq_none_iff.mp hg) hl
      | some t => exact ⟨t, rfl⟩
    have htm : t ∈ l := List.mem_of_getLast?_eq_some htl
    have htr : t ≠ r := fun e => hr (e ▸ htm)
    rw [htl] at ht
    subst ht
    rw [if_neg (by simp)]
    refine Seg.snoc h hl hnd hr ?_ ?_ ?_
    · rw [hnext r, if_neg (by simpa using htr), if_pos rfl]
    · intro t' ht'
      rw [htl] at ht'
      rw [hnext t', if_pos ht']
    · intro a har hla
      rw [htl] at hla
      rw [hnext a, if_neg hla, if_neg har]

/-- Taking the first record off a chain: the rest starts at its `next` field,
and the tail pointer that a pop computes points at the last record of the
rest. -/
theorem Seg.drop_head {next : Nat → Option Nat} {head tail : Option Nat} {a : Nat} {l : List Nat}
    (h : Seg next head (a :: l)) (ht : tail = (a :: l).getLast?) :
    head = some a ∧ Seg next (next a) l
      ∧ (if next a = none then none else tail) = l.getLast? := by
  refine ⟨h.1, h.2, ?_⟩
  cases l with
  | nil =>
    have h2 : next a = none := h.2
    rw [if_pos h2]
    rfl
  | cons b l =>
    have h2 : next a = some b := h.2.1
    rw [if_neg (by rw [h2]; simp), ht]
    simp [List.getLast?_cons_cons]

theorem cq_push_all_chain :
    ∀ (rs : List Nat) (mem : Nat → CQ_ITEM) (cq : CQ) (l : List Nat),
      Seg (fun p => (mem p).next) cq.head l → cq.tail = l.getLast? → (l ++ rs).Nodup →
      Seg (fun p => ((cq_push_all mem cq rs).1 p).next) (cq_push_all mem cq rs).2.head (l ++ rs)
        ∧ (cq_push_all mem cq rs).2.tail = (l ++ rs).getLast?
  | [], mem, cq, l, h, ht, _ => by
    rw [List.append_nil]
    exact ⟨h, ht⟩
  | r :: rs, mem, cq, l, h, ht, hnd => by
    have hnd' : ((l ++ [r]) ++ rs).Nodup := by simpa using hnd
    have hl : (l ++ [r]).Nodup := (List.nodup_append.mp hnd').1
    have hl' := List.nodup_append.mp hl
    have hr : r ∉ l := fun hm => hl'.2.2 hm (List.mem_singleton_self r)
    have hq := cq_push_queue mem cq r
    have hseg : Seg (fun p => ((cq_push mem cq r).1 p).next) (cq_push mem cq r).2.head
        (l ++ [r]) := by
      rw [hq.1]
      exact Seg.append_pushed h ht hl'.1 hr (fun p => cq_push_next mem cq r p)
    have htail : (cq_push mem cq r).2.tail = (l ++ [r]).getLast? := by
      rw [hq.2]
      simp
    have := cq_push_all_chain rs (cq_push mem cq r).1 (cq_push mem cq r).2 (l ++ [r])
      hseg htail hnd'
    simpa [cq_push_all] using this

theorem cq_pop_n_chain (mem : Nat → CQ_ITEM) :
    ∀ (l : List Nat) (cq : CQ), Seg (fun p => (mem p).next) cq.head l →
      cq.tail = l.getLast? →
      cq_pop_n mem l.length cq = (l.map some, { head := none, tail := none })
  | [], cq, h, ht => by
    have h1 : cq.head = none := h
    have h2 : cq.tail = none := ht
    cases cq
    simp only at h1 h2
    subst h1
    subst h2
    rfl
  | a :: l, cq, h, ht => by
    obtain ⟨hh, hs, htl⟩ := Seg.drop_head h ht
    have hp : cq_pop mem cq
        = (some a, { head := (mem a).next,
                     tail := if (mem a).next = none then none else cq.tail }) := by
      unfold cq_pop
      rw [hh]
    have ih := cq_pop_n_chain mem l
      { head := (mem a).next, tail := if (mem a).next = none then none else cq.tail } hs htl
    simp only [List.length_cons, cq_pop_n, hp, ih, List.map_cons]

theorem lq_push_all_chain :
    ∀ (rs : List Nat) (mem : Nat → LQ_ITEM) (lq : LQ) (l : List Nat),
      Seg (fun p => (mem p).next) lq.head l → lq.tail = l.getLast? → (l ++ rs).Nodup →
      Seg (fun p => ((lq_push_all mem lq rs).1 p).next) (lq_push_all mem lq rs).2.head (l ++ rs)
        ∧ (lq_push_all mem lq rs).2.tail = (l ++ rs).getLast?
  | [], mem, lq, l, h, ht, _ => by
    rw [List.append_nil]
    exact ⟨h, ht⟩
  | r :: rs, mem, lq, l, h, ht, hnd => by
    have hnd' : ((l ++ [r]) ++ rs).Nodup := by simpa using hnd
    have hl : (l ++ [r]).Nodup := (List.nodup_append.mp hnd').1
    have hl' := List.nodup_append.mp hl
    have hr : r ∉ l := fun hm => hl'.2.2 hm (List.mem_singleton_self r)
    have hq := lq_push_queue mem lq r
    have hseg : Seg (fun p => ((lq_push mem lq r).1 p).next) (lq_push mem lq r).2.head
        (l ++ [r]) := by
      rw [hq.1]
      exact Seg.append_pushed h ht hl'.1 hr (fun p => lq_push_next mem lq r p)
    have htail : (lq_push mem lq r).2.tail = (l ++ [r]).getLast? := by
      rw [hq.2]
      simp
    have := lq_push_all_chain rs (lq_push mem lq r).1 (lq_push mem lq r).2 (l ++ [r])
      hseg htail hnd'
    simpa [lq_push_all] using this

theorem lq_pop_n_chain (mem : Nat → LQ_ITEM) :
    ∀ (l : List Nat) (lq : LQ), Seg (fun p => (mem p).next) lq.head l →
      lq.tail = l.getLast? →
      lq_pop_n mem l.length lq = (l.map some, { head := none, tail := none })
  | [], lq, h, ht => by
    have h1 : lq.head = none := h
    have h2 : lq.tail = none := ht
    cases lq
    simp only at h1 h2
    subst h1
    subst h2
    rfl
  | a :: l, lq, h, ht => by
    obtain ⟨hh, hs, htl⟩ := Seg.drop_head h ht
    have hp : lq_pop mem lq
        = (some a, { head := (mem a).next,
                     tail := if (mem a).next = none then none else lq.tail }) := by
      unfold lq_pop
      rw [hh]
    have ih := lq_pop_n_chain mem l
      { head := (mem a).next, tail := if (mem a).next = none then none else lq.tail } hs htl
    simp only [List.length_cons, lq_pop_n, hp, ih, List.map_cons]

/-- Claim C12.  For the handoff queue and for the log queue, whatever the
records hold before: when distinct records `rs` are pushed onto an empty queue
(head and tail null), as many pops as there are records return the records in
the order of the pushes, and the queue is empty after them, head and tail
null.  One push and one pop return the record pushed and leave the queue
empty, and a pop on an empty queue returns null and leaves it empty. -/
theorem queue_pops_in_push_order (cmem : Nat → CQ_ITEM) (lmem : Nat → LQ_ITEM)
    (rs : List Nat) (hrs : rs.Nodup) (r : Nat) :
    cq_pop_n (cq_push_all cmem { head := none, tail := none } rs).1 rs.length
        (cq_push_all cmem { head := none, tail := none } rs).2
      = (rs.map some, { head := none, tail := none })
    ∧ lq_pop_n (lq_push_all lmem { head := none, tail := none } rs).1 rs.length
        (lq_push_all lmem { head := none, tail := none } rs).2
      = (rs.map some, { head := none, tail := none })
    ∧ cq_pop (cq_push cmem { head := none, tail := none } r).1
        (cq_push cmem { head := none, tail := none } r).2
      = (some r, { head := none, tail := none })
    ∧ lq_pop (lq_push lmem { head := none, tail := none } r).1
        (lq_push lmem { head := none, tail := none } r).2
      = (some r, { head := none, tail := none })
    ∧ cq_pop cmem { head := none, tail := none } = (none, { head := none, tail := none })
    ∧ lq_pop lmem { head := none, tail := none } = (none, { head := none, tail := none }) := by
  have hc := cq_push_all_chain rs cmem { head := none, tail := none } [] rfl rfl
    (by simpa using hrs)
  have hl := lq_push_all_chain rs lmem { head := none, tail := none } [] rfl rfl
    (by simpa using hrs)
  rw [List.nil_append] at hc hl
  refine ⟨cq_pop_n_chain _ rs _ hc.1 hc.2, lq_pop_n_chain _ rs _ hl.1 hl.2, ?_, ?_, rfl, rfl⟩
  · simp [cq_push, cq_pop, cq_set_next]
  · simp [lq_push, lq_pop, lq_set_next]

/-- Claim C12 with the records at addresses 5, 9 and 2: three pops return 5,
9, 2 and empty each queue. -/
theorem queue_pops_in_push_order_witness :
    cq_pop_n (cq_push_all (boot 4 1 "d").cq_mem { head := none, tail := none } [5, 9, 2]).1 3
        (cq_push_all (boot 4 1 "d").cq_mem { head := none, tail := none } [5, 9, 2]).2
      = ([some 5, some 9, some 2], { head := none, tail := none })
    ∧ lq_pop_n (lq_push_all (boot 4 1 "d").lq_mem { head := none, tail := none } [5, 9, 2]).1 3
        (lq_push_all (boot 4 1 "d").lq_mem { head := none, tail := none } [5, 9, 2]).2
      = ([some 5, some 9, some 2], { head := none, tail := none }) := by
  obtain ⟨hc, hl, -⟩ :=
    queue_pops_in_push_order (boot 4 1 "d").cq_mem (boot 4 1 "d").lq_mem [5, 9, 2]
      (by decide) 0
  exact ⟨hc, hl⟩

/-! ## One byte of a worker's pipe -/

/-- Taking the head record `a` off the queue of worker `t` and putting it on
the freelist keeps the pool of handoff records sound. -/
theorem cq_take_head_inv (w : World) (t a : Nat) (rest fl : List Nat) (qs : Nat → List Nat)
    (ns : List Char) (cl : List Int) (h : PoolInv (cq_pool w) fl qs) (hq : qs t = a :: rest) :
    PoolInv (cq_pool (cqi_free
      { w with
        threads := Function.update w.threads t
          { new_conn_queue :=
              { head := (w.cq_mem a).next
                tail := if (w.cq_mem a).next = none then none
                  else (w.threads t).new_conn_queue.tail }
            notify := ns
            item_lock_type := (w.threads t).item_lock_type }
        closed := cl } a)) (a :: fl) (Function.update qs t rest) := by
  have h1 : PoolInv
      { next := (cq_pool w).next
        freelist := (cq_pool w).freelist
        head := Function.update (cq_pool w).head t ((w.cq_mem a).next)
        tail := Function.update (cq_pool w).tail t
          (if (w.cq_mem a).next = none then none else (cq_pool w).tail t)
        brk := w.brk } fl (Function.update qs t rest)
      ∧ a ∉ fl ∧ (∀ u, a ∉ Function.update qs t rest u) ∧ a < w.brk :=
    PoolInv.pop h t a rest hq rfl rfl (fun _ => rfl)
      (by simp [cq_pool]) (by simp [cq_pool])
      (fun u hu => by simp [Function.update_noteq hu])
  refine PoolInv.put_free h1.1 a h1.2.1 h1.2.2.1 h1.2.2.2 rfl rfl ?_ ?_ ?_ ?_
  · show (cq_set_next w.cq_mem a w.cqi_freelist a).next = w.cqi_freelist
    rw [cq_set_next_next, if_pos rfl]
  · intro p hp
    show (cq_set_next w.cq_mem a w.cqi_freelist p).next = (w.cq_mem p).next
    rw [cq_set_next_next, if_neg hp]
  · intro u
    by_cases hu : u = t
    · subst hu
      simp [cq_pool, cqi_free]
    · simp [cq_pool, cqi_free, Function.update_noteq hu]
  · intro u
    by_cases hu : u = t
    · subst hu
      simp [cq_pool, cqi_free]
    · simp [cq_pool, cqi_free, Function.update_noteq hu]

/-- The byte `c` in worker `t`: what `thread_libevent_process` computes. -/
theorem thread_libevent_process_c (is_udp : Nat → Bool) (ok : Bool) (w : World) (t : Nat)
    (bs : List Char) (hpipe : (w.threads t).notify = 'c' :: bs) :
    thread_libevent_process is_udp ok w t
      = match (w.threads t).new_conn_queue.head with
        | none =>
          Ended.returned
            { w with
              threads := Function.update w.threads t
                { new_conn_queue := (w.threads t).new_conn_queue
                  notify := bs
                  item_lock_type := (w.threads t).item_lock_type } }
        | some a =>
          if ok then
            Ended.returned (cqi_free
              { w with
                threads := Function.update w.threads t
                  { new_conn_queue :=
                      { head := (w.cq_mem a).next
                        tail := if (w.cq_mem a).next = none then none
                          else (w.threads t).new_conn_queue.tail }
                    notify := bs
                    item_lock_type := (w.threads t).item_lock_type }
                closed := w.closed } a)
          else if is_udp (w.cq_mem a).transport then Ended.exited 1
          else
            Ended.returned (cqi_free
              { w with
                threads := Function.update w.threads t
                  { new_conn_queue :=
                      { head := (w.cq_mem a).next
                        tail := if (w.cq_mem a).next = none then none
                          else (w.threads t).new_conn_queue.tail }
                    notify := bs
                    item_lock_type := (w.threads t).item_lock_type }
                closed := (w.cq_mem a).sfd :: w.closed } a) := by
  unfold thread_libevent_process
  simp only [hpipe]
  unfold thread_libevent_switch
  simp only [if_true, Function.update_same, Function.update_idem, cq_pop]
  cases hh : (w.threads t).new_conn_queue.head with
  | none => simp only [hh]
  | some a =>
    cases ok <;> simp only [hh, Bool.false_eq_true, if_false, if_true]

/-- The bytes `l` and `g` in worker `t`: what `thread_libevent_process`
computes. -/
theorem thread_libevent_process_mode (is_udp : Nat → Bool) (ok : Bool) (w : World) (t : Nat)
    (m : item_lock_types) (bs : List Char)
    (hpipe : (w.threads t).notify = lock_type_byte m :: bs) :
    thread_libevent_process is_udp ok w t
      = Ended.returned
          { w with
            threads := Function.update w.threads t
              { new_conn_queue := (w.threads t).new_conn_queue
                notify := bs
                item_lock_type := m }
            init_count := w.init_count + 1 } := by
  unfold thread_libevent_process
  simp only [hpipe]
  unfold thread_libevent_switch register_thread_initialized
  have hlc : ¬ ('l' = 'c') := by decide
  have hgc : ¬ ('g' = 'c') := by decide
  have hgl : ¬ ('g' = 'l') := by decide
  cases m with
  | ITEM_LOCK_GRANULAR =>
    simp only [lock_type_byte, if_neg hlc, if_true, Function.update_same, Function.update_idem]
  | ITEM_LOCK_GLOBAL =>
    simp only [lock_type_byte, if_neg hgc, if_neg hgl, if_true, Function.update_same,
      Function.update_idem]

/-- Any other byte in worker `t`: `thread_libevent_process` only takes the
byte off the pipe. -/
theorem thread_libevent_process_other (is_udp : Nat → Bool) (ok : Bool) (w : World) (t : Nat)
    (b : Char) (bs : List Char) (hpipe : (w.threads t).notify = b :: bs)
    (hc : b ≠ 'c') (hl : b ≠ 'l') (hg : b ≠ 'g') :
    thread_libevent_process is_udp ok w t
      = Ended.returned
          { w with
            threads := Function.update w.threads t
              { new_conn_queue := (w.threads t).new_conn_queue
                notify := bs
                item_lock_type := (w.threads t).item_lock_type } } := by
  unfold thread_libevent_process
  simp only [hpipe]
  unfold thread_libevent_switch
  simp only [if_neg hc, if_neg hl, if_neg hg]

/-- The pool of handoff records stays sound when the records, the freelist,
the end of the heap and every queue are kept. -/
theorem cq_pool_same_queues {w w' : World} {fl : List Nat} {qs : Nat → List Nat}
    (h : PoolInv (cq_pool w) fl qs) (hm : w'.cq_mem = w.cq_mem)
    (hf : w'.cqi_freelist = w.cqi_freelist) (hb : w'.brk = w.brk)
    (hq : ∀ u, (w'.threads u).new_conn_queue = (w.threads u).new_conn_queue) :
    PoolInv (cq_pool w') fl qs :=
  PoolInv.frame h (by simp [cq_pool, hb]) hf (fun u => by simp [cq_pool, hq])
    (fun u => by simp [cq_pool, hq]) (fun a _ => by simp [cq_pool, hm])

/-- Claim C19, amended.  Worker `t` of a sound state reads the byte `b` from
its pipe.
For `c` with an empty queue the call returns and changes nothing else.  For
`c` with head record `a` the call either ends the process by `exit(1)`, which
it does exactly when `conn_new` fails and the record is for UDP, or returns
with `a` taken off the head of this worker's queue and put on the freelist,
the socket closed if `conn_new` failed, and the flag and `init_count` as
before.  For `l` and `g` the call returns with the flag GRANULAR or GLOBAL,
`init_count` one higher and the queue, the records and the freelist as before.
For any other byte the call returns with queue, flag and `init_count` as
before.  Whenever the call returns, the byte is gone from the pipe and no
other worker has changed. -/
theorem thread_libevent_process_acts_on_byte (is_udp : Nat → Bool) (ok : Bool) (w : World)
    (t : Nat) (b : Char) (bs : List Char) (fl : List Nat) (qs : Nat → List Nat)
    (h : PoolInv (cq_pool w) fl qs) (hpipe : (w.threads t).notify = b :: bs) :
    (∀ w', thread_libevent_process is_udp ok w t = Ended.returned w' →
        (w'.threads t).notify = bs ∧ ∀ u, u ≠ t → w'.threads u = w.threads u)
    ∧ (b = 'c' → qs t = [] →
        ∃ w', thread_libevent_process is_udp ok w t = Ended.returned w'
          ∧ PoolInv (cq_pool w') fl qs
          ∧ w'.cq_mem = w.cq_mem ∧ w'.cqi_freelist = w.cqi_freelist
          ∧ (w'.threads t).new_conn_queue = (w.threads t).new_conn_queue
          ∧ (w'.threads t).item_lock_type = (w.threads t).item_lock_type
          ∧ w'.init_count = w.init_count)
    ∧ (b = 'c' → ∀ a rest, qs t = a :: rest →
        (thread_libevent_process is_udp ok w t = Ended.exited 1
          ↔ (ok = false ∧ is_udp (w.cq_mem a).transport = true))
        ∧ (¬ (ok = false ∧ is_udp (w.cq_mem a).transport = true) →
          ∃ w', thread_libevent_process is_udp ok w t = Ended.returned w'
            ∧ PoolInv (cq_pool w') (a :: fl) (Function.update qs t rest)
            ∧ w'.closed = (if ok then w.closed else (w.cq_mem a).sfd :: w.closed)
            ∧ (w'.threads t).item_lock_type = (w.threads t).item_lock_type
            ∧ w'.init_count = w.init_count))
    ∧ (∀ m, b = lock_type_byte m →
        ∃ w', thread_libevent_process is_udp ok w t = Ended.returned w'
          ∧ (w'.threads t).item_lock_type = m
          ∧ w'.init_count = w.init_count + 1
          ∧ PoolInv (cq_pool w') fl qs
          ∧ w'.cq_mem = w.cq_mem ∧ w'.cqi_freelist = w.cqi_freelist
          ∧ (w'.threads t).new_conn_queue = (w.threads t).new_conn_queue)
    ∧ (b ≠ 'c' → b ≠ 'l' → b ≠ 'g' →
        ∃ w', thread_libevent_process is_udp ok w t = Ended.returned w'
          ∧ (w'.threads t).item_lock_type = (w.threads t).item_lock_type
          ∧ w'.init_count = w.init_count
          ∧ PoolInv (cq_pool w') fl qs
          ∧ w'.cq_mem = w.cq_mem ∧ w'.cqi_freelist = w.cqi_freelist
          ∧ (w'.threads t).new_conn_queue = (w.threads t).new_conn_queue) := by
  have hupd : ∀ (x : LIBEVENT_THREAD) (u : Nat),
      (Function.update w.threads t x u).new_conn_queue
        = if u = t then x.new_conn_queue else (w.threads u).new_conn_queue := by
    intro x u
    by_cases hu : u = t
    · subst hu
      simp
    · simp [Function.update_noteq hu, hu]
  refine ⟨?_, ?_, ?_, ?_, ?_⟩
  · intro w' hw'
    by_cases hc : b = 'c'
    · subst hc
      rw [thread_libevent_process_c is_udp ok w t bs hpipe] at hw'
      cases hh : (w.threads t).new_conn_queue.head with
      | none =>
        simp only [hh, Ended.returned.injEq] at hw'
        subst hw'
        exact ⟨by simp, fun u hu => by simp [Function.update_noteq hu]⟩
      | some a =>
        simp only [hh] at hw'
        cases ok with
        | true =>
          simp only [if_true, Ended.returned.injEq] at hw'
          subst hw'
          exact ⟨by simp [cqi_free], fun u hu => by simp [cqi_free, Function.update_noteq hu]⟩
        | false =>
          cases hu : is_udp (w.cq_mem a).transport with
          | true => simp [hu] at hw'
          | false =>
            simp only [hu, Bool.false_eq_true, if_false, Ended.returned.injEq] at hw'
            subst hw'
            exact ⟨by simp [cqi_free], fun u hu => by simp [cqi_free, Function.update_noteq hu]⟩
    · by_cases hl : b = 'l'
      · subst hl
        rw [thread_libevent_process_mode is_udp ok w t item_lock_types.ITEM_LOCK_GRANULAR bs
          hpipe] at hw'
        simp only [Ended.returned.injEq] at hw'
        subst hw'
        exact ⟨by simp, fun u hu => by simp [Function.update_noteq hu]⟩
      · by_cases hg : b = 'g'
        · subst hg
          rw [thread_libevent_process_mode is_udp ok w t item_lock_types.ITEM_LOCK_GLOBAL bs
            hpipe] at hw'
          simp only [Ended.returned.injEq] at hw'
          subst hw'
          exact ⟨by simp, fun u hu => by simp [Function.update_noteq hu]⟩
        · rw [thread_libevent_process_other is_udp ok w t b bs hpipe hc hl hg] at hw'
          simp only [Ended.returned.injEq] at hw'
          subst hw'
          exact ⟨by simp, fun u hu => by simp [Function.update_noteq hu]⟩
  · intro hc hq
    subst hc
    have hseg := h.queue t
    rw [hq] at hseg
    have hh : (w.threads t).new_conn_queue.head = none := hseg
    rw [thread_libevent_process_c is_udp ok w t bs hpipe]
    simp only [hh]
    refine ⟨_, rfl, ?_, rfl, rfl, by simp, by simp, rfl⟩
    exact cq_pool_same_queues h rfl rfl rfl (fun u => by rw [hupd]; split_ifs with hu <;> simp [hu])
  · intro hc a rest hq
    subst hc
    have hseg := h.queue t
    rw [hq] at hseg
    have hh : (w.threads t).new_conn_queue.head = some a := hseg.1
    rw [thread_libevent_process_c is_udp ok w t bs hpipe]
    simp only [hh]
    have hinv := fun cl => cq_take_head_inv w t a rest fl qs bs cl h hq
    cases ok with
    | true =>
      simp only [if_true, reduceCtorEq, false_and, iff_false, not_false_eq_true, true_implies]
      exact ⟨trivial, _, rfl, hinv w.closed, rfl, by simp [cqi_free], rfl⟩
    | false =>
      simp only [Bool.false_eq_true, if_false, true_and]
      cases hu : is_udp (w.cq_mem a).transport with
      | true => simp
      | false =>
        simp only [Bool.false_eq_true, if_false, reduceCtorEq, not_false_eq_true, true_implies,
          false_iff]
        exact ⟨trivial, _, rfl, hinv _, rfl, by simp [cqi_free], rfl⟩
  · intro m hm
    subst hm
    rw [thread_libevent_process_mode is_udp ok w t m bs hpipe]
    refine ⟨_, rfl, by simp, rfl, ?_, rfl, rfl, by simp⟩
    exact cq_pool_same_queues h rfl rfl rfl (fun u => by rw [hupd]; split_ifs with hu <;> simp [hu])
  · intro hc hl hg
    rw [thread_libevent_process_other is_udp ok w t b bs hpipe hc hl hg]
    refine ⟨_, rfl, by simp, rfl, ?_, rfl, rfl, by simp⟩
    exact cq_pool_same_queues h rfl rfl rfl (fun u => by rw [hupd]; split_ifs with hu <;> simp [hu])

/-- Claim C19, amended, for worker 0 of four, with the byte `g` in its pipe after
start-up: the call returns, the flag is GLOBAL and `init_count` is 5. -/
theorem thread_libevent_process_acts_on_byte_witness :
    ∃ w', thread_libevent_process (fun _ => false) true
          (send_worker_byte (boot 4 1 "d") 0 'g') 0 = Ended.returned w'
      ∧ (w'.threads 0).item_lock_type = item_lock_types.ITEM_LOCK_GLOBAL
      ∧ w'.init_count = 5 := by
  have hinv : PoolInv (cq_pool (send_worker_byte (boot 4 1 "d") 0 'g')) [] (fun _ => []) :=
    cq_pool_same_queues (boot_cq_inv 4 1 "d") rfl rfl rfl (fun u => by
      by_cases hu : u = 0
      · subst hu
        rfl
      · simp [send_worker_byte, Function.update_noteq hu])
  obtain ⟨-, -, -, hm, -⟩ :=
    thread_libevent_process_acts_on_byte (fun _ => false) true
      (send_worker_byte (boot 4 1 "d") 0 'g') 0 'g' [] [] (fun _ => []) hinv rfl
  obtain ⟨w', hr, hf, hc, -⟩ := hm item_lock_types.ITEM_LOCK_GLOBAL rfl
  exact ⟨w', hr, hf, by rw [hc]; rfl⟩

/-- Claim C19 as stated fails at the byte `c`.  After start-up with four
workers one UDP connection is handed over: its record is the head of the queue
of worker 0 and the byte `c` waits in the pipe of worker 0.  Worker 0 then
handles the byte while `conn_new` fails: the call does not return the record
to the freelist, it ends the process with `exit(1)`.  With a TCP connection in
place of the UDP one the same call returns. -/
theorem thread_libevent_process_exits_on_failed_udp_handoff :
    (dispatch_all (boot 4 1 "d")
        [{ sfd := 5, init_state := 0, event_flags := 0, read_buffer_size := 2048,
           transport := 2 }]).toOption.map
      (fun w => ((w.threads 0).notify, (w.threads 0).new_conn_queue.head,
        exit_status (thread_libevent_process IS_UDP false w 0)))
      = some (['c'], some 0, some 1)
    ∧ (dispatch_all (boot 4 1 "d")
        [{ sfd := 5, init_state := 0, event_flags := 0, read_buffer_size := 2048,
           transport := 1 }]).toOption.map
      (fun w => exit_status (thread_libevent_process IS_UDP false w 0))
      = some none := by
  decide

/-! ## The switch of the lock mode -/

theorem marked_le (reg : Nat → Bool) : ∀ n, marked reg n ≤ n
  | 0 => Nat.le_refl 0
  | n + 1 => by
    have := marked_le reg n
    unfold marked
    split_ifs <;> omega

theorem marked_full (reg : Nat → Bool) :
    ∀ n, marked reg n = n → ∀ t, t < n → reg t = true
  | 0, _, t, ht => absurd ht (Nat.not_lt_zero t)
  | n + 1, h, t, ht => by
    have hle := marked_le reg n
    unfold marked at h
    by_cases hn : reg n = true
    · rw [if_pos hn] at h
      rcases Nat.lt_succ_iff_lt_or_eq.mp ht with h1 | h1
      · exact marked_full reg n (by omega) t h1
      · rw [h1]
        exact hn
    · rw [if_neg hn] at h
      omega

theorem marked_update_ge (reg : Nat → Bool) (t : Nat) :
    ∀ n, n ≤ t → marked (Function.update reg t true) n = marked reg n
  | 0, _ => rfl
  | n + 1, h => by
    unfold marked
    rw [marked_update_ge reg t n (by omega), Function.update_noteq (by omega)]

theorem marked_update (reg : Nat → Bool) (t : Nat) (h : reg t = false) :
    ∀ n, t < n → marked (Function.update reg t true) n = marked reg n + 1
  | 0, ht => absurd ht (Nat.not_lt_zero t)
  | n + 1, ht => by
    unfold marked
    rcases Nat.lt_succ_iff_lt_or_eq.mp ht with h1 | h1
    · rw [marked_update reg t h n h1, Function.update_noteq (by omega)]
      omega
    · subst h1
      rw [marked_update_ge reg t t (Nat.le_refl t), Function.update_same, h]
      simp

theorem mode_bytes_append (a b : List Char) :
    mode_bytes (a ++ b) = mode_bytes a ++ mode_bytes b := by
  unfold mode_bytes
  exact List.filter_append a b

theorem send_worker_byte_threads (v : World) (i : Nat) (b : Char) (t : Nat) :
    (send_worker_byte v i b).threads t
      = if t = i then { v.threads i with notify := (v.threads i).notify ++ [b] }
        else v.threads t := by
  unfold send_worker_byte
  by_cases h : t = i
  · subst h
    simp
  · simp [Function.update_noteq h, h]

/-- The writes of `switch_item_lock_type`: one byte more in the pipe of each
worker below `n`. -/
theorem send_worker_bytes (b : Char) :
    ∀ (n : Nat) (w : World),
      (∀ t, ((List.range n).foldl (fun v i => send_worker_byte v i b) w).threads t
          = if t < n then
              { w.threads t with notify := (w.threads t).notify ++ [b] }
            else w.threads t)
        ∧ ((List.range n).foldl (fun v i => send_worker_byte v i b) w).num_threads
            = w.num_threads
        ∧ ((List.range n).foldl (fun v i => send_worker_byte v i b) w).init_count
            = w.init_count
  | 0, w => ⟨fun t => by simp, rfl, rfl⟩
  | n + 1, w => by
    obtain ⟨ht, hn, hi⟩ := send_worker_bytes b n w
    rw [List.range_succ, List.foldl_append]
    simp only [List.foldl_cons, List.foldl_nil]
    refine ⟨fun t => ?_, hn, hi⟩
    rw [send_worker_byte_threads]
    by_cases htn : t = n
    · subst htn
      rw [if_pos rfl, ht, if_neg (Nat.lt_irrefl t), if_pos (Nat.lt_succ_self t)]
    · rw [if_neg htn, ht]
      by_cases hlt : t < n
      · rw [if_pos hlt, if_pos (by omega)]
      · rw [if_neg hlt, if_neg (by omega)]

theorem mode_bytes_cons_mode (m : item_lock_types) (bs : List Char) :
    mode_bytes (lock_type_byte m :: bs) = lock_type_byte m :: mode_bytes bs := by
  cases m <;> simp [mode_bytes, lock_type_byte]

theorem mode_bytes_cons_other (b : Char) (bs : List Char)
    (h : ∀ m, b ≠ lock_type_byte m) : mode_bytes (b :: bs) = mode_bytes bs := by
  have hl : b ≠ 'l' := h item_lock_types.ITEM_LOCK_GRANULAR
  have hg : b ≠ 'g' := h item_lock_types.ITEM_LOCK_GLOBAL
  simp [mode_bytes, hl, hg]

theorem lock_type_byte_injective (m m' : item_lock_types)
    (h : lock_type_byte m = lock_type_byte m') : m = m' := by
  cases m <;> cases m' <;> first | rfl | (exfalso; revert h; decide)

/-- What a call of `thread_libevent_process` that returns has done, by the
byte `b` it read. -/
theorem thread_libevent_process_returned (is_udp : Nat → Bool) (ok : Bool) (w : World)
    (t : Nat) (b : Char) (bs : List Char) (w' : World)
    (hpipe : (w.threads t).notify = b :: bs)
    (hr : thread_libevent_process is_udp ok w t = Ended.returned w') :
    w'.num_threads = w.num_threads ∧ (w'.threads t).notify = bs
      ∧ (∀ u, u ≠ t → w'.threads u = w.threads u)
      ∧ ((∀ m, b ≠ lock_type_byte m) →
          (w'.threads t).item_lock_type = (w.threads t).item_lock_type
            ∧ w'.init_count = w.init_count)
      ∧ (∀ m, b = lock_type_byte m →
          (w'.threads t).item_lock_type = m ∧ w'.init_count = w.init_count + 1) := by
  by_cases hm : ∃ m, b = lock_type_byte m
  · obtain ⟨m, rfl⟩ := hm
    rw [thread_libevent_process_mode is_udp ok w t m bs hpipe] at hr
    simp only [Ended.returned.injEq] at hr
    subst hr
    refine ⟨rfl, by simp, fun u hu => by simp [Function.update_noteq hu], ?_, ?_⟩
    · intro hn
      exact absurd rfl (hn m)
    · intro m' hm'
      rw [lock_type_byte_injective m m' hm']
      exact ⟨by simp, rfl⟩
  · have hn : ∀ m, b ≠ lock_type_byte m := fun m e => hm ⟨m, e⟩
    have hl : b ≠ 'l' := hn item_lock_types.ITEM_LOCK_GRANULAR
    have hg : b ≠ 'g' := hn item_lock_types.ITEM_LOCK_GLOBAL
    have hlast : ∀ m, b = lock_type_byte m →
        (w'.threads t).item_lock_type = m ∧ w'.init_count = w.init_count + 1 :=
      fun m e => absurd e (hn m)
    by_cases hc : b = 'c'
    · subst hc
      rw [thread_libevent_process_c is_udp ok w t bs hpipe] at hr
      cases hh : (w.threads t).new_conn_queue.head with
      | none =>
        simp only [hh, Ended.returned.injEq] at hr
        subst hr
        exact ⟨rfl, by simp, fun u hu => by simp [Function.update_noteq hu],
          fun _ => ⟨by simp, rfl⟩, hlast⟩
      | some a =>
        simp only [hh] at hr
        cases ok with
        | true =>
          simp only [if_true, Ended.returned.injEq] at hr
          subst hr
          exact ⟨rfl, by simp [cqi_free],
            fun u hu => by simp [cqi_free, Function.update_noteq hu],
            fun _ => ⟨by simp [cqi_free], rfl⟩, hlast⟩
        | false =>
          cases hu : is_udp (w.cq_mem a).transport with
          | true => simp [hu] at hr
          | false =>
            simp only [hu, Bool.false_eq_true, if_false, Ended.returned.injEq] at hr
            subst hr
            exact ⟨rfl, by simp [cqi_free],
              fun u hu => by simp [cqi_free, Function.update_noteq hu],
              fun _ => ⟨by simp [cqi_free], rfl⟩, hlast⟩
    · rw [thread_libevent_process_other is_udp ok w t b bs hpipe hc hl hg] at hr
      simp only [Ended.returned.injEq] at hr
      subst hr
      exact ⟨rfl, by simp, fun u hu => by simp [Function.update_noteq hu],
        fun _ => ⟨by simp, rfl⟩, hlast⟩

theorem cqi_new_keeps_threads (w : World) :
    (cqi_new w).2.threads = w.threads ∧ (cqi_new w).2.num_threads = w.num_threads
      ∧ (cqi_new w).2.init_count = w.init_count := by
  unfold cqi_new
  cases w.cqi_freelist with
  | some a => exact ⟨rfl, rfl, rfl⟩
  | none =>
    unfold World.alloc
    cases w.heap_script with
    | nil => exact ⟨rfl, rfl, rfl⟩
    | cons b s => cases b <;> exact ⟨rfl, rfl, rfl⟩

/-- A call of `dispatch_conn_new` that returns leaves the worker count,
`init_count`, every flag and the mode bytes of every pipe as they were. -/
theorem dispatch_conn_new_keeps_modes (w w' : World) (c : Handoff)
    (h : dispatch_conn_new w c.sfd c.init_state c.event_flags c.read_buffer_size c.transport
      = Except.ok w') :
    w'.num_threads = w.num_threads ∧ w'.init_count = w.init_count
      ∧ ∀ u, mode_bytes (w'.threads u).notify = mode_bytes (w.threads u).notify
          ∧ (w'.threads u).item_lock_type = (w.threads u).item_lock_type := by
  obtain ⟨ht, hn, hi⟩ := cqi_new_keeps_threads w
  unfold dispatch_conn_new at h
  cases hc : cqi_new w with
  | mk r w1 =>
    rw [hc] at ht hn hi h
    simp only at ht hn hi
    cases r with
    | none =>
      simp only [Except.ok.injEq] at h
      subst h
      exact ⟨hn, hi, fun u => by simp [ht]⟩
    | some item =>
      simp only at h
      split_ifs at h with h0
      simp only [Except.ok.injEq] at h
      subst h
      refine ⟨hn, hi, fun u => ?_⟩
      by_cases hu : u = ((w1.last_thread + 1).tmod w1.num_threads).toNat
      · subst hu
        simp [ht, mode_bytes_append, mode_bytes]
      · simp [Function.update_noteq hu, ht]

/-- The state of a switch carries over to a world with the same worker count,
`init_count`, flags and mode bytes. -/
theorem Switching.carry {N : Nat} {m : item_lock_types} {reg : Nat → Bool} {w w' : World}
    (h : Switching N m reg w) (hn : w'.num_threads = w.num_threads)
    (hi : w'.init_count = w.init_count)
    (ht : ∀ u, mode_bytes (w'.threads u).notify = mode_bytes (w.threads u).notify
      ∧ (w'.threads u).item_lock_type = (w.threads u).item_lock_type) :
    Switching N m reg w' where
  workers := by rw [hn]; exact h.workers
  count := by rw [hi]; exact h.count
  pending := fun t hr hN => by rw [(ht t).1]; exact h.pending t hr hN
  idle := fun t hr hN => by rw [(ht t).1]; exact h.idle t hr hN
  done := fun t hr => by rw [(ht t).1, (ht t).2]; exact h.done t hr

/-- One step of another thread keeps the state of a switch, with one more
worker registered when the step handles the byte of the switch. -/
theorem Switching.step {N : Nat} {m : item_lock_types} {reg : Nat → Bool} {w : World}
    (is_udp : Nat → Bool) (h : Switching N m reg w) (s : WorkerStep) (w1 : World)
    (hs : worker_step is_udp w s = some w1) : ∃ reg', Switching N m reg' w1 := by
  cases s with
  | dispatch c =>
    simp only [worker_step] at hs
    cases hd : dispatch_conn_new w c.sfd c.init_state c.event_flags c.read_buffer_size
        c.transport with
    | error e => rw [hd] at hs; cases hs
    | ok w' =>
      rw [hd] at hs
      simp only [Option.some.injEq] at hs
      subst hs
      obtain ⟨hn, hi, ht⟩ := dispatch_conn_new_keeps_modes w w' c hd
      exact ⟨reg, h.carry hn hi ht⟩
  | process t ok =>
    simp only [worker_step] at hs
    cases hp : thread_libevent_process is_udp ok w t with
    | exited st => rw [hp] at hs; cases hs
    | returned w' =>
      rw [hp] at hs
      simp only [Option.some.injEq] at hs
      subst hs
      cases hpipe : (w.threads t).notify with
      | nil =>
        have he : thread_libevent_process is_udp ok w t = Ended.returned w := by
          unfold thread_libevent_process
          simp only [hpipe]
        rw [he] at hp
        simp only [Ended.returned.injEq] at hp
        subst hp
        exact ⟨reg, h⟩
      | cons b bs =>
        obtain ⟨hn, hnot, hoth, hkeep, hmode⟩ :=
          thread_libevent_process_returned is_udp ok w t b bs w' hpipe hp
        by_cases hb : ∃ m', b = lock_type_byte m'
        · obtain ⟨m', rfl⟩ := hb
          obtain ⟨hflag, hcnt⟩ := hmode m' rfl
          have hmb : mode_bytes (w.threads t).notify
              = lock_type_byte m' :: mode_bytes bs := by
            rw [hpipe, mode_bytes_cons_mode]
          have hreg : reg t = false := by
            cases hr : reg t with
            | false => rfl
            | true =>
              have := (h.done t hr).2.1
              rw [hmb] at this
              cases this
          have htN : t < N := by
            by_contra hge
            have := h.idle t hreg (by omega)
            rw [hmb] at this
            cases this
          have hpend := h.pending t hreg htN
          rw [hmb] at hpend
          have hbs : mode_bytes bs = [] := (List.cons.inj hpend).2
          have hmm : m' = m := lock_type_byte_injective m' m (List.cons.inj hpend).1
          subst hmm
          refine ⟨Function.update reg t true, ?_⟩
          constructor
          · rw [hn]
            exact h.workers
          · rw [hcnt, h.count, marked_update reg t hreg N htN]
            push_cast
            rfl
          · intro u hu huN
            have hut : u ≠ t := by
              rintro rfl
              simp at hu
            rw [Function.update_noteq hut] at hu
            rw [hoth u hut]
            exact h.pending u hu huN
          · intro u hu huN
            have hut : u ≠ t := by
              rintro rfl
              simp at hu
            rw [Function.update_noteq hut] at hu
            rw [hoth u hut]
            exact h.idle u hu huN
          · intro u hu
            by_cases hut : u = t
            · subst hut
              exact ⟨htN, by rw [hnot]; exact hbs, hflag⟩
            · rw [Function.update_noteq hut] at hu
              rw [hoth u hut]
              exact h.done u hu
        · have hnm : ∀ m', b ≠ lock_type_byte m' := fun m' e => hb ⟨m', e⟩
          obtain ⟨hflag, hcnt⟩ := hkeep hnm
          refine ⟨reg, h.carry hn hcnt (fun u => ?_)⟩
          by_cases hut : u = t
          · subst hut
            rw [hnot, hpipe, mode_bytes_cons_other b bs hnm]
            exact ⟨rfl, hflag⟩
          · rw [hoth u hut]
            exact ⟨rfl, rfl⟩

/-- When the wait of the switcher ends, the switch is still in its state and
`init_count` is not below the worker count. -/
theorem Switching.wait {N : Nat} {m : item_lock_types} (is_udp : Nat → Bool) :
    ∀ (sched : List WorkerStep) (w : World) (reg : Nat → Bool) (w1 : World),
      Switching N m reg w →
      wait_for_thread_registration is_udp N w sched = some w1 →
      ∃ reg', Switching N m reg' w1 ∧ ¬ (w1.init_count < N)
  | [], w, reg, w1, h, hw => by
    unfold wait_for_thread_registration at hw
    split_ifs at hw with hlt
    simp only [Option.some.injEq] at hw
    subst hw
    exact ⟨reg, h, hlt⟩
  | s :: sched, w, reg, w1, h, hw => by
    unfold wait_for_thread_registration at hw
    split_ifs at hw with hlt
    · cases hs : worker_step is_udp w s with
      | none => rw [hs] at hw; cases hw
      | some w2 =>
        rw [hs] at hw
        obtain ⟨reg2, h2⟩ := h.step is_udp s w2 hs
        exact Switching.wait is_udp sched w2 reg2 w1 h2 hw
    · simp only [Option.some.injEq] at hw
      subst hw
      exact ⟨reg, h, hlt⟩

/-- When the wait of the switcher has ended, every worker has registered:
its flag is the new mode, `init_count` is the worker count and no pipe holds a
mode byte. -/
theorem Switching.finished {N : Nat} {m : item_lock_types} {reg : Nat → Bool} {w : World}
    (h : Switching N m reg w) (hd : ¬ (w.init_count < N)) :
    (∀ t, t < N → (w.threads t).item_lock_type = m) ∧ w.init_count = N
      ∧ ∀ t, mode_bytes (w.threads t).notify = [] := by
  have hle := marked_le reg N
  have hc := h.count
  have hfull : marked reg N = N := by
    rw [hc] at hd
    have : ¬ (marked reg N < N) := fun hlt => hd (by exact_mod_cast hlt)
    omega
  have hall := marked_full reg N hfull
  refine ⟨fun t ht => (h.done t (hall t ht)).2.2, by rw [hc, hfull], fun t => ?_⟩
  cases hr : reg t with
  | true => exact (h.done t hr).2.1
  | false =>
    by_cases ht : t < N
    · rw [hall t ht] at hr
      cases hr
    · exact h.idle t hr (by omega)

/-- The start of `switch_item_lock_type` puts the switch in its state with no
worker registered. -/
theorem Switching.start (w : World) (N : Nat) (m : item_lock_types)
    (hN : w.num_threads = N) (hidle : ∀ t, mode_bytes (w.threads t).notify = []) :
    Switching N m (fun _ => false)
      ((List.range N).foldl (fun v i => send_worker_byte v i (lock_type_byte m))
        { w with init_count := 0 }) := by
  obtain ⟨ht, hn, hi⟩ := send_worker_bytes (lock_type_byte m) N { w with init_count := 0 }
  have hz : ∀ n, marked (fun _ => false) n = 0 := by
    intro n
    induction n with
    | zero => rfl
    | succ n ih => simp [marked, ih]
  constructor
  · rw [hn]
    exact hN
  · rw [hi, hz]
    rfl
  · intro t _ htN
    rw [ht, if_pos htN]
    show mode_bytes ((w.threads t).notify ++ [lock_type_byte m]) = _
    rw [mode_bytes_append, hidle t]
    exact mode_bytes_cons_mode m []
  · intro t _ htN
    rw [ht, if_neg (by omega)]
    exact hidle t
  · intro t hr
    cases hr

/-- The call of `switch_item_lock_type` for mode `m`, when it returns: every
worker has registered. -/
theorem switch_item_lock_type_returned (is_udp : Nat → Bool) (w : World) (N : Nat)
    (m : item_lock_types) (hN : w.num_threads = N)
    (hidle : ∀ t, mode_bytes (w.threads t).notify = []) (sched : List WorkerStep)
    (w1 : World) (h1 : switch_item_lock_type is_udp w m sched = some w1) :
    (∀ t, t < N → (w1.threads t).item_lock_type = m) ∧ w1.init_count = N
      ∧ (∀ t, mode_bytes (w1.threads t).notify = []) ∧ w1.num_threads = N := by
  have hs := Switching.start w N m hN hidle
  unfold switch_item_lock_type at h1
  have hk : w.num_threads.toNat = N := by
    rw [hN]
    rfl
  simp only [hk] at h1
  rw [hs.workers] at h1
  obtain ⟨reg', h', hd⟩ := Switching.wait is_udp sched _ _ w1 hs h1
  obtain ⟨hf, hc, hm⟩ := h'.finished hd
  exact ⟨hf, hc, hm, h'.workers⟩

/-! ## The switch of the lock mode returns when the workers take their steps -/

/-- With `conn_new` succeeding, `thread_libevent_process` returns. -/
theorem thread_libevent_process_ok (is_udp : Nat → Bool) (w : World) (t : Nat) :
    ∃ w', thread_libevent_process is_udp true w t = Ended.returned w' := by
  cases hpipe : (w.threads t).notify with
  | nil =>
    refine ⟨w, ?_⟩
    unfold thread_libevent_process
    simp only [hpipe]
  | cons b bs =>
    by_cases hc : b = 'c'
    · subst hc
      rw [thread_libevent_process_c is_udp true w t bs hpipe]
      cases (w.threads t).new_conn_queue.head with
      | none => exact ⟨_, rfl⟩
      | some a => exact ⟨_, rfl⟩
    · by_cases hl : b = 'l'
      · subst hl
        exact ⟨_, thread_libevent_process_mode is_udp true w t
          item_lock_types.ITEM_LOCK_GRANULAR bs hpipe⟩
      · by_cases hg : b = 'g'
        · subst hg
          exact ⟨_, thread_libevent_process_mode is_udp true w t
            item_lock_types.ITEM_LOCK_GLOBAL bs hpipe⟩
        · exact ⟨_, thread_libevent_process_other is_udp true w t b bs hpipe hc hl hg⟩

/-- While the switcher waits, worker `t` handles the bytes that were in its
pipe before the byte of the switch: the switcher is still waiting after them,
and only the pipe and the queue of `t` have changed. -/
theorem wait_drains_pipe (is_udp : Nat → Bool) (N : Int) (t : Nat) (b : Char) :
    ∀ (bs : List Char) (v : World) (rest : List WorkerStep),
      (v.threads t).notify = bs ++ [b] → mode_bytes bs = [] → v.init_count < N →
      ∃ v', wait_for_thread_registration is_udp N v
            (List.replicate bs.length (WorkerStep.process t true) ++ rest)
          = wait_for_thread_registration is_udp N v' rest
        ∧ (v'.threads t).notify = [b] ∧ v'.init_count = v.init_count
        ∧ v'.num_threads = v.num_threads ∧ ∀ u, u ≠ t → v'.threads u = v.threads u
  | [], v, rest, hp, _, _ => ⟨v, rfl, hp, rfl, rfl, fun _ _ => rfl⟩
  | c :: bs, v, rest, hp, hm, hlt => by
    obtain ⟨v1, hv1⟩ := thread_libevent_process_ok is_udp v t
    have hcm : ∀ m, c ≠ lock_type_byte m := by
      intro m e
      rw [e, mode_bytes_cons_mode] at hm
      cases hm
    have hbs : mode_bytes bs = [] := by
      rw [mode_bytes_cons_other c bs hcm] at hm
      exact hm
    obtain ⟨hn, hnot, hoth, hkeep, -⟩ :=
      thread_libevent_process_returned is_udp true v t c (bs ++ [b]) v1 hp hv1
    obtain ⟨-, hcnt⟩ := hkeep hcm
    obtain ⟨v', hw, hp', hc', hn', ho'⟩ :=
      wait_drains_pipe is_udp N t b bs v1 rest hnot hbs (by rw [hcnt]; exact hlt)
    refine ⟨v', ?_, hp', by rw [hc', hcnt], by rw [hn', hn],
      fun u hu => by rw [ho' u hu, hoth u hu]⟩
    rw [← hw]
    show wait_for_thread_registration is_udp N v
      (WorkerStep.process t true
        :: (List.replicate bs.length (WorkerStep.process t true) ++ rest)) = _
    conv_lhs => unfold wait_for_thread_registration
    rw [if_pos hlt]
    simp only [worker_step, hv1]

/-- From a state in which the workers from `k` on still have the byte of the
switch at the end of their pipes and `init_count` is `k`, the switcher returns
when these workers handle their pipes in turn. -/
theorem wait_returns (is_udp : Nat → Bool) (w : World) (N : Nat) (m : item_lock_types)
    (hidle : ∀ t, mode_bytes (w.threads t).notify = []) :
    ∀ (n k : Nat) (v : World), k + n = N → v.init_count = k →
      (∀ t, k ≤ t → t < N →
        (v.threads t).notify = (w.threads t).notify ++ [lock_type_byte m]) →
      ∃ w1, wait_for_thread_registration is_udp N v (drain_from w n k) = some w1
  | 0, k, v, hk, hc, _ => by
    refine ⟨v, ?_⟩
    unfold drain_from wait_for_thread_registration
    rw [if_neg]
    rw [hc]
    have : ¬ (k < N) := by omega
    exact_mod_cast this
  | n + 1, k, v, hk, hc, hp => by
    have hkN : k < N := by omega
    have hlt : v.init_count < (N : Int) := by
      rw [hc]
      exact_mod_cast hkN
    obtain ⟨v', hw, hp', hc', -, ho'⟩ :=
      wait_drains_pipe is_udp N k (lock_type_byte m) (w.threads k).notify v
        (WorkerStep.process k true :: drain_from w n (k + 1)) (hp k (Nat.le_refl k) hkN)
        (hidle k) hlt
    have hstep := thread_libevent_process_mode is_udp true v' k m [] hp'
    obtain ⟨w1, h1⟩ := wait_returns is_udp w N m hidle n (k + 1)
      { v' with
        threads := Function.update v'.threads k
          { new_conn_queue := (v'.threads k).new_conn_queue
            notify := []
            item_lock_type := m }
        init_count := v'.init_count + 1 } (by omega)
      (by
        show v'.init_count + 1 = ((k + 1 : Nat) : Int)
        rw [hc', hc]
        push_cast
        rfl)
      (fun t ht htN => by
        have htk : t ≠ k := by omega
        show (Function.update v'.threads k _ t).notify = _
        rw [Function.update_noteq htk, ho' t htk]
        exact hp t (by omega) htN)
    refine ⟨w1, ?_⟩
    rw [← h1]
    show wait_for_thread_registration is_udp N v
      (List.replicate (w.threads k).notify.length (WorkerStep.process k true)
        ++ WorkerStep.process k true :: drain_from w n (k + 1)) = _
    rw [hw]
    conv_lhs => unfold wait_for_thread_registration
    rw [if_pos (by rw [hc']; exact hlt)]
    simp only [worker_step, hstep]

/-- The call of `switch_item_lock_type` returns when every worker handles the
bytes of its pipe. -/
theorem switch_item_lock_type_returns (is_udp : Nat → Bool) (w : World) (N : Nat)
    (m : item_lock_types) (hN : w.num_threads = N)
    (hidle : ∀ t, mode_bytes (w.threads t).notify = []) :
    ∃ w1, switch_item_lock_type is_udp w m (drain_from w N 0) = some w1 := by
  obtain ⟨ht, hn, hi⟩ := send_worker_bytes (lock_type_byte m) N { w with init_count := 0 }
  have hk : w.num_threads.toNat = N := by
    rw [hN]
    rfl
  obtain ⟨w1, h1⟩ := wait_returns is_udp w N m hidle N 0
    ((List.range N).foldl (fun v i => send_worker_byte v i (lock_type_byte m))
      { w with init_count := 0 }) (by omega) (by rw [hi]; rfl)
    (fun t _ htN => by
      rw [ht, if_pos htN])
  refine ⟨w1, ?_⟩
  unfold switch_item_lock_type
  simp only [hk]
  rw [hn]
  show wait_for_thread_registration is_udp w.num_threads _ _ = _
  rw [← hN] at h1
  exact h1

/-- Claim C15.  In the step model, with `N` workers and no mode byte waiting in
any pipe when the switch starts: when `switch_item_lock_type(GLOBAL)` returns,
whatever steps the workers and the listener took meanwhile, the flag of every
worker is GLOBAL and `init_count`, set to 0 at the start, is `N`; with at least
one worker the switcher does not return before a step of another thread; a
later `item_lock` in any worker takes the global lock and no bucket; and when
a following `switch_item_lock_type(GRANULAR)` returns the flag of every worker
is GRANULAR and `init_count` is `N` again.  The switcher does return when
each worker in turn handles the bytes of its pipe with `conn_new` succeeding. -/
theorem switch_item_lock_type_reaches_every_worker (is_udp : Nat → Bool) (w : World)
    (N : Nat) (hN : w.num_threads = N)
    (hidle : ∀ t, mode_bytes (w.threads t).notify = []) (sched1 : List WorkerStep)
    (w1 : World)
    (h1 : switch_item_lock_type is_udp w item_lock_types.ITEM_LOCK_GLOBAL sched1 = some w1) :
    (∀ t, t < N → (w1.threads t).item_lock_type = item_lock_types.ITEM_LOCK_GLOBAL)
      ∧ w1.init_count = N
      ∧ (1 ≤ N →
          switch_item_lock_type is_udp w item_lock_types.ITEM_LOCK_GLOBAL [] = none)
      ∧ (∀ t, t < N → ∀ (k : Locks) (hv : Nat),
          item_lock k (w1.threads t).item_lock_type hv
            = if k.item_global_lock then none else some { k with item_global_lock := true })
      ∧ (∀ sched2 w2,
          switch_item_lock_type is_udp w1 item_lock_types.ITEM_LOCK_GRANULAR sched2
            = some w2 →
          (∀ t, t < N → (w2.threads t).item_lock_type = item_lock_types.ITEM_LOCK_GRANULAR)
            ∧ w2.init_count = N)
      ∧ (∃ w', switch_item_lock_type is_udp w item_lock_types.ITEM_LOCK_GLOBAL
          (drain_from w N 0) = some w') := by
  obtain ⟨hf, hc, hm, hn⟩ :=
    switch_item_lock_type_returned is_udp w N item_lock_types.ITEM_LOCK_GLOBAL hN hidle
      sched1 w1 h1
  refine ⟨hf, hc, ?_, ?_, ?_,
    switch_item_lock_type_returns is_udp w N item_lock_types.ITEM_LOCK_GLOBAL hN hidle⟩
  · intro h1N
    have hs := Switching.start w N item_lock_types.ITEM_LOCK_GLOBAL hN hidle
    have hk : w.num_threads.toNat = N := by
      rw [hN]
      rfl
    unfold switch_item_lock_type
    simp only [hk]
    unfold wait_for_thread_registration
    rw [if_pos]
    rw [hs.workers, hs.count]
    have hz : ∀ n, marked (fun _ => false) n = 0 := by
      intro n
      induction n with
      | zero => rfl
      | succ n ih => simp [marked, ih]
    rw [hz]
    exact_mod_cast h1N
  · intro t ht k hv
    rw [hf t ht]
    unfold item_lock mutex_lock
    rw [if_neg (by decide)]
    by_cases hb : k.item_global_lock = true
    · simp only [hb, if_true, Option.map_none']
    · simp only [hb, if_false, Option.map_some', Bool.false_eq_true]
  · intro sched2 w2 h2
    obtain ⟨hf2, hc2, -, -⟩ :=
      switch_item_lock_type_returned is_udp w1 N item_lock_types.ITEM_LOCK_GRANULAR hn hm
        sched2 w2 h2
    exact ⟨hf2, hc2⟩

/-- Claim C15 with two workers after start-up, each worker handling the byte
in its pipe once: the switch to GLOBAL returns, both flags are GLOBAL and
`init_count` is 2. -/
theorem switch_item_lock_type_reaches_every_worker_witness :
    ∃ w1,
      switch_item_lock_type (fun _ => false) (boot 2 1 "d") item_lock_types.ITEM_LOCK_GLOBAL
          [WorkerStep.process 0 true, WorkerStep.process 1 true] = some w1
        ∧ (∀ t, t < 2 → (w1.threads t).item_lock_type = item_lock_types.ITEM_LOCK_GLOBAL)
        ∧ w1.init_count = 2 := by
  have hs : (switch_item_lock_type (fun _ => false) (boot 2 1 "d")
      item_lock_types.ITEM_LOCK_GLOBAL
      [WorkerStep.process 0 true, WorkerStep.process 1 true]).isSome = true := by decide
  obtain ⟨w1, h1⟩ := Option.isSome_iff_exists.mp hs
  obtain ⟨hf, hc, -⟩ :=
    switch_item_lock_type_reaches_every_worker (fun _ => false) (boot 2 1 "d") 2 rfl
      (fun _ => rfl) [WorkerStep.process 0 true, WorkerStep.process 1 true] w1 h1
  exact ⟨w1, h1, hf, hc⟩

/-! ## The snapshot timer -/

theorem send_byte_notify (v : World) (i : Nat) (b : Char) (t : Nat) :
    ((send_byte v i b).log_threads t).notify
      = if t = i then (v.log_threads t).notify ++ [b] else (v.log_threads t).notify := by
  unfold send_byte
  by_cases h : t = i
  · subst h
    simp
  · simp [Function.update_noteq h, h]

/-- The loop that writes the byte `b` to the first `n` log writers: one byte
more in each of their pipes, and nothing else of the counters changes. -/
theorem send_bytes (b : Char) :
    ∀ (n : Nat) (w : World),
      (∀ t, (((List.range n).foldl (fun v i => send_byte v i b) w).log_threads t).notify
          = if t < n then (w.log_threads t).notify ++ [b] else (w.log_threads t).notify)
        ∧ ((List.range n).foldl (fun v i => send_byte v i b) w).slabs_num = w.slabs_num
        ∧ ((List.range n).foldl (fun v i => send_byte v i b) w).changes_after_last_snapshot
            = w.changes_after_last_snapshot
  | 0, w => ⟨fun t => by simp, rfl, rfl⟩
  | n + 1, w => by
    obtain ⟨ht, hn, hi⟩ := send_bytes b n w
    rw [List.range_succ, List.foldl_append]
    simp only [List.foldl_cons, List.foldl_nil]
    refine ⟨fun t => ?_, hn, hi⟩
    rw [send_byte_notify, ht]
    by_cases htn : t = n
    · subst htn
      rw [if_pos rfl, if_neg (Nat.lt_irrefl t), if_pos (Nat.lt_succ_self t)]
    · rw [if_neg htn]
      by_cases hlt : t < n
      · rw [if_pos hlt, if_pos (by omega)]
      · rw [if_neg hlt, if_neg (by omega)]

/-- Claim C18.  With a heap walk that leaves the pipes and the counters alone:
`snapshot_process` re-arms the timer in every case.  When `begin_recover` is 0
and `changes_after_last_snapshot` is at least
`settings.change_num_need_snapshop`, it sets the counter to 0, writes `s` to
each of the `slabs_num` log writers, runs the heap walk on the state so
reached, and then writes `d` to each of them, so that each writer has received
`s` then `d` and nothing else, and no pipe beyond them has changed.  Otherwise
it leaves the state as it was. -/
theorem snapshot_process_rotates_when_due (walk : World → World)
    (hwalk : ∀ v, (walk v).log_threads = v.log_threads ∧ (walk v).slabs_num = v.slabs_num
      ∧ (walk v).changes_after_last_snapshot = v.changes_after_last_snapshot)
    (w : World) :
    (snapshot_process walk w).2 = true
      ∧ (w.begin_recover = 0 ∧ w.change_num_need_snapshop ≤ w.changes_after_last_snapshot →
          (snapshot_process walk w).1
              = send_all (walk (send_all { w with changes_after_last_snapshot := 0 } 's')) 'd'
            ∧ (snapshot_process walk w).1.changes_after_last_snapshot = 0
            ∧ (∀ i, i < w.slabs_num →
                (((send_all { w with changes_after_last_snapshot := 0 } 's').log_threads i).notify
                    = (w.log_threads i).notify ++ ['s'])
                  ∧ ((snapshot_process walk w).1.log_threads i).notify
                    = (w.log_threads i).notify ++ ['s', 'd'])
            ∧ (∀ i, w.slabs_num ≤ i →
                ((snapshot_process walk w).1.log_threads i).notify
                  = (w.log_threads i).notify))
      ∧ (¬ (w.begin_recover = 0
            ∧ w.change_num_need_snapshop ≤ w.changes_after_last_snapshot) →
          (snapshot_process walk w).1 = w) := by
  refine ⟨rfl, ?_, ?_⟩
  · intro hc
    have hrun : (snapshot_process walk w).1
        = send_all (walk (send_all { w with changes_after_last_snapshot := 0 } 's')) 'd' := by
      unfold snapshot_process
      simp only [ge_iff_le]
      rw [if_pos hc]
    obtain ⟨hs1, hs2, hs3⟩ :=
      send_bytes 's' w.slabs_num { w with changes_after_last_snapshot := 0 }
    have hs1' : ∀ t, ((send_all { w with changes_after_last_snapshot := 0 } 's').log_threads
        t).notify = if t < w.slabs_num then (w.log_threads t).notify ++ ['s']
          else (w.log_threads t).notify := hs1
    have hs2' : (send_all { w with changes_after_last_snapshot := 0 } 's').slabs_num
        = w.slabs_num := hs2
    have hs3' : (send_all { w with changes_after_last_snapshot := 0 }
        's').changes_after_last_snapshot = 0 := hs3
    obtain ⟨hw1, hw2, hw3⟩ := hwalk (send_all { w with changes_after_last_snapshot := 0 } 's')
    obtain ⟨hd1, -, hd3⟩ := send_bytes 'd'
      (walk (send_all { w with changes_after_last_snapshot := 0 } 's')).slabs_num
      (walk (send_all { w with changes_after_last_snapshot := 0 } 's'))
    have hd1' : ∀ t, ((send_all (walk (send_all { w with changes_after_last_snapshot := 0 }
        's')) 'd').log_threads t).notify
          = if t < w.slabs_num then ((w.log_threads t).notify ++ ['s']) ++ ['d']
            else (w.log_threads t).notify := by
      intro t
      show (((List.range
          (walk (send_all { w with changes_after_last_snapshot := 0 } 's')).slabs_num).foldl
            (fun v i => send_byte v i 'd')
            (walk (send_all { w with changes_after_last_snapshot := 0 } 's'))).log_threads
              t).notify = _
      rw [hd1 t, hw2, hs2', hw1, hs1' t]
      split_ifs <;> rfl
    refine ⟨hrun, ?_, ?_, ?_⟩
    · rw [hrun]
      exact hd3.trans (hw3.trans hs3')
    · intro i hi
      refine ⟨by rw [hs1' i, if_pos hi], ?_⟩
      rw [hrun, hd1' i, if_pos hi, List.append_assoc]
      rfl
    · intro i hi
      rw [hrun, hd1' i, if_neg (by omega)]
  · intro hc
    unfold snapshot_process
    simp only [ge_iff_le]
    rw [if_neg hc]

/-- Claim C18 with two log writers, one change since the last snapshot and a
threshold of one: each writer has received `s` then `d` and the counter is 0. -/
theorem snapshot_process_rotates_when_due_witness :
    (snapshot_process snapshot_all_slab
        { boot 4 2 "d" with changes_after_last_snapshot := 1 }).1.changes_after_last_snapshot
      = 0
    ∧ ∀ i, i < 2 →
        ((snapshot_process snapshot_all_slab
          { boot 4 2 "d" with changes_after_last_snapshot := 1 }).1.log_threads i).notify
        = ['s', 'd'] := by
  obtain ⟨-, hdo, -⟩ :=
    snapshot_process_rotates_when_due snapshot_all_slab (fun _ => ⟨rfl, rfl, rfl⟩)
      { boot 4 2 "d" with changes_after_last_snapshot := 1 }
  obtain ⟨-, hz, hp, -⟩ := hdo ⟨rfl, by decide⟩
  exact ⟨hz, fun i hi => (hp i hi).2⟩

/-! ## Chunks allocated for the freelists -/

/-- A call of `cqi_new` in a sound state where allocation succeeds: it returns
a record, and the freelist after it is the rest of the old one, or the other
records of a new chunk when the old one was empty. -/
theorem cqi_new_exact (w : World) (fl : List Nat) (qs : Nat → List Nat)
    (h : PoolInv (cq_pool w) fl qs) (hs : AllocOk w) :
    ∃ r, (cqi_new w).1 = some r ∧ AllocOk (cqi_new w).2
      ∧ PoolInv (cq_pool (cqi_new w).2)
          (if fl = [] then List.range' (w.brk + 1) (ITEMS_PER_ALLOC - 1) else fl.tail) qs
      ∧ (w.cqi_freelist = none ↔ fl = [])
      ∧ (cqi_new w).2.brk = (if fl = [] then w.brk + ITEMS_PER_ALLOC else w.brk) := by
  cases hf : w.cqi_freelist with
  | some r =>
    cases fl with
    | nil =>
      have : (cq_pool w).freelist = none := h.free
      rw [show (cq_pool w).freelist = w.cqi_freelist from rfl, hf] at this
      cases this
    | cons a fl =>
      have ha : w.cqi_freelist = some a := h.free.1
      rw [hf] at ha
      cases ha
      have e : cqi_new w = (some r, { w with cqi_freelist := (w.cq_mem r).next }) := by
        simp [cqi_new, hf]
      rw [e, if_neg (by simp), if_neg (by simp)]
      refine ⟨r, rfl, hs, ?_, by simp, rfl⟩
      exact (PoolInv.take_free (cq_pool { w with cqi_freelist := (w.cq_mem r).next })
        h rfl rfl (fun _ => rfl) (fun _ => rfl) (fun _ => rfl)).1
  | none =>
    have hfl : fl = [] := by
      cases fl with
      | nil => rfl
      | cons a fl =>
        have ha : w.cqi_freelist = some a := h.free.1
        rw [hf] at ha
        cases ha
    subst hfl
    obtain ⟨s, hal, hsok⟩ := alloc_ok w hs
    have e : cqi_new w = (some w.brk,
        { w with
          cq_mem := cq_set_next (cq_link_chunk w.brk (ITEMS_PER_ALLOC - 2) 2 w.cq_mem)
            (w.brk + (ITEMS_PER_ALLOC - 1)) none
          cqi_freelist := some (w.brk + 1)
          brk := w.brk + ITEMS_PER_ALLOC
          heap_script := s }) := by
      simp [cqi_new, hf, hal]
    rw [e, if_pos rfl, if_pos rfl]
    refine ⟨w.brk, rfl, hsok, ?_, by simp, rfl⟩
    exact (PoolInv.grow (cq_pool
        { w with
          cq_mem := cq_set_next (cq_link_chunk w.brk (ITEMS_PER_ALLOC - 2) 2 w.cq_mem)
            (w.brk + (ITEMS_PER_ALLOC - 1)) none
          cqi_freelist := some (w.brk + 1)
          brk := w.brk + ITEMS_PER_ALLOC
          heap_script := s })
      h ITEMS_PER_ALLOC (by decide) rfl rfl (fun _ => rfl) (fun _ => rfl)
      (fun a ha => by
        show (cq_set_next _ _ _ a).next = (w.cq_mem a).next
        have ha' : a < w.brk := ha
        rw [cq_set_next_next, cq_link_chunk_next _ _ _ _ _ (by omega)]
        have : ITEMS_PER_ALLOC = 64 := rfl
        rw [if_neg (by omega), if_neg (by omega)])
      (fun i h1 h2 => by
        show (cq_set_next _ _ _ _).next = some (w.brk + i + 1)
        have : ITEMS_PER_ALLOC = 64 := rfl
        rw [cq_set_next_next, cq_link_chunk_next _ _ _ _ _ (by omega)]
        rw [if_neg (by show ¬ (w.brk + i = w.brk + (ITEMS_PER_ALLOC - 1)); omega),
          if_pos (by show w.brk + 2 - 1 ≤ w.brk + i ∧ w.brk + i < _; omega)]
        rfl)
      (by
        show (cq_set_next _ _ _ (w.brk + (ITEMS_PER_ALLOC - 1))).next = none
        rw [cq_set_next_next, if_pos rfl])).1

/-- The chunks that `n` calls of `cqi_new` in a row allocate, from a freelist
of `fl.length` records: `brk` moves by one chunk for every 64 records asked
for beyond those of the freelist. -/
theorem cqi_new_n_chunks :
    ∀ (n : Nat) (w : World) (fl : List Nat) (qs : Nat → List Nat),
      PoolInv (cq_pool w) fl qs → AllocOk w →
      (cqi_new_n n w).2.brk = w.brk + 64 * ((n + 63 - fl.length) / 64)
        ∧ (cqi_new_n n w).1.length = n
  | 0, w, fl, qs, _, _ => by
    refine ⟨?_, rfl⟩
    show w.brk = w.brk + 64 * ((0 + 63 - fl.length) / 64)
    omega
  | n + 1, w, fl, qs, h, hs => by
    obtain ⟨r, hr, hok, hinv, hiff, hbrk⟩ := cqi_new_exact w fl qs h hs
    have ih := cqi_new_n_chunks n (cqi_new w).2 _ qs hinv hok
    have e : cqi_new w = (some r, (cqi_new w).2) := Prod.ext hr rfl
    have hrun : cqi_new_n (n + 1) w
        = (r :: (cqi_new_n n (cqi_new w).2).1, (cqi_new_n n (cqi_new w).2).2) := by
      conv_lhs => unfold cqi_new_n
      generalize cqi_new w = p at e
      obtain ⟨o, w1⟩ := p
      have ho : o = some r := (Prod.mk.inj e).1
      subst ho
      rfl
    rw [hrun]
    refine ⟨?_, by simp [ih.2]⟩
    show (cqi_new_n n (cqi_new w).2).2.brk = _
    rw [ih.1, hbrk]
    cases fl with
    | nil =>
      rw [if_pos rfl, if_pos rfl]
      simp only [List.length_range', List.length_nil]
      have : ITEMS_PER_ALLOC = 64 := rfl
      omega
    | cons a rest =>
      rw [if_neg (by simp), if_neg (by simp)]
      simp only [List.length_cons, List.tail_cons]
      omega

/-- Calls of `cqi_free` allocate nothing. -/
theorem cqi_free_all_brk : ∀ (rs : List Nat) (w : World), (cqi_free_all w rs).brk = w.brk
  | [], _ => rfl
  | r :: rs, w => by
    rw [cqi_free_all, cqi_free_all_brk rs (cqi_free w r)]
    rfl

/-- With a record on the freelist, pairs of `cqi_new` and `cqi_free` allocate
no chunk. -/
theorem cq_new_free_pairs_none :
    ∀ (n : Nat) (w : World), w.cqi_freelist ≠ none → (cq_new_free_pairs n w).brk = w.brk
  | 0, _, _ => rfl
  | n + 1, w, hf => by
    cases hfl : w.cqi_freelist with
    | none => exact absurd hfl hf
    | some r =>
      have e : cqi_new w = (some r, { w with cqi_freelist := (w.cq_mem r).next }) := by
        simp [cqi_new, hfl]
      have ih := cq_new_free_pairs_none n
        (cqi_free { w with cqi_freelist := (w.cq_mem r).next } r) (by simp [cqi_free])
      simp only [cq_new_free_pairs, e, ih]
      rfl

/-- From an empty freelist, with the first allocation succeeding, one or more
pairs of `cqi_new` and `cqi_free` allocate exactly one chunk. -/
theorem cq_new_free_pairs_one (n : Nat) (w : World) (hf : w.cqi_freelist = none)
    (hs : w.heap_script.head? ≠ some false) :
    (cq_new_free_pairs (n + 1) w).brk = w.brk + ITEMS_PER_ALLOC := by
  obtain ⟨s, hal, -⟩ := alloc_head w hs
  have e : cqi_new w = (some w.brk,
      { w with
        cq_mem := cq_set_next (cq_link_chunk w.brk (ITEMS_PER_ALLOC - 2) 2 w.cq_mem)
          (w.brk + (ITEMS_PER_ALLOC - 1)) none
        cqi_freelist := some (w.brk + 1)
        brk := w.brk + ITEMS_PER_ALLOC
        heap_script := s }) := by
    simp [cqi_new, hf, hal]
  have ih := cq_new_free_pairs_none n
    (cqi_free
      { w with
        cq_mem := cq_set_next (cq_link_chunk w.brk (ITEMS_PER_ALLOC - 2) 2 w.cq_mem)
          (w.brk + (ITEMS_PER_ALLOC - 1)) none
        cqi_freelist := some (w.brk + 1)
        brk := w.brk + ITEMS_PER_ALLOC
        heap_script := s } w.brk) (by simp [cqi_free])
  simp only [cq_new_free_pairs, e, ih]
  rfl

/-- A call of `lqi_new` in a sound state where allocation succeeds: it returns
a record, and the freelist after it is the rest of the old one, or the other
records of a new chunk when the old one was empty. -/
theorem lqi_new_exact (w : World) (fl : List Nat) (qs : Nat → List Nat)
    (h : PoolInv (lq_pool w) fl qs) (hs : AllocOk w) :
    ∃ r, (lqi_new w).1 = some r ∧ AllocOk (lqi_new w).2
      ∧ PoolInv (lq_pool (lqi_new w).2)
          (if fl = [] then List.range' (w.brk + 1) (LOG_ITEMS_PER_ALLOC - 1) else fl.tail) qs
      ∧ (w.lqi_freelist = none ↔ fl = [])
      ∧ (lqi_new w).2.brk = (if fl = [] then w.brk + LOG_ITEMS_PER_ALLOC else w.brk)
      ∧ (∀ p, ((lqi_new w).2.lq_mem p).item = (w.lq_mem p).item) := by
  cases hf : w.lqi_freelist with
  | some r =>
    cases fl with
    | nil =>
      have : (lq_pool w).freelist = none := h.free
      rw [show (lq_pool w).freelist = w.lqi_freelist from rfl, hf] at this
      cases this
    | cons a fl =>
      have ha : w.lqi_freelist = some a := h.free.1
      rw [hf] at ha
      cases ha
      have e : lqi_new w = (some r, { w with lqi_freelist := (w.lq_mem r).next }) := by
        simp [lqi_new, hf]
      rw [e, if_neg (by simp), if_neg (by simp)]
      refine ⟨r, rfl, hs, ?_, by simp, rfl, fun _ => rfl⟩
      exact (PoolInv.take_free (lq_pool { w with lqi_freelist := (w.lq_mem r).next })
        h rfl rfl (fun _ => rfl) (fun _ => rfl) (fun _ => rfl)).1
  | none =>
    have hfl : fl = [] := by
      cases fl with
      | nil => rfl
      | cons a fl =>
        have ha : w.lqi_freelist = some a := h.free.1
        rw [hf] at ha
        cases ha
    subst hfl
    obtain ⟨s, hal, hsok⟩ := alloc_ok w hs
    have e : lqi_new w = (some w.brk,
        { w with
          lq_mem := lq_set_next (lq_link_chunk w.brk (LOG_ITEMS_PER_ALLOC - 2) 2 w.lq_mem)
            (w.brk + (LOG_ITEMS_PER_ALLOC - 1)) none
          lqi_freelist := some (w.brk + 1)
          brk := w.brk + LOG_ITEMS_PER_ALLOC
          heap_script := s }) := by
      simp [lqi_new, hf, hal]
    rw [e, if_pos rfl, if_pos rfl]
    refine ⟨w.brk, rfl, hsok, ?_, by simp, rfl, fun p => by
      show (lq_set_next _ _ _ p).item = _
      rw [lq_set_next_item, lq_link_chunk_item]⟩
    exact (PoolInv.grow (lq_pool
        { w with
          lq_mem := lq_set_next (lq_link_chunk w.brk (LOG_ITEMS_PER_ALLOC - 2) 2 w.lq_mem)
            (w.brk + (LOG_ITEMS_PER_ALLOC - 1)) none
          lqi_freelist := some (w.brk + 1)
          brk := w.brk + LOG_ITEMS_PER_ALLOC
          heap_script := s })
      h LOG_ITEMS_PER_ALLOC (by decide) rfl rfl (fun _ => rfl) (fun _ => rfl)
      (fun a ha => by
        show (lq_set_next _ _ _ a).next = (w.lq_mem a).next
        have ha' : a < w.brk := ha
        rw [lq_set_next_next, lq_link_chunk_next _ _ _ _ _ (by omega)]
        have : LOG_ITEMS_PER_ALLOC = 32 := rfl
        rw [if_neg (by omega), if_neg (by omega)])
      (fun i h1 h2 => by
        show (lq_set_next _ _ _ _).next = some (w.brk + i + 1)
        have : LOG_ITEMS_PER_ALLOC = 32 := rfl
        rw [lq_set_next_next, lq_link_chunk_next _ _ _ _ _ (by omega)]
        rw [if_neg (by show ¬ (w.brk + i = w.brk + (LOG_ITEMS_PER_ALLOC - 1)); omega),
          if_pos (by show w.brk + 2 - 1 ≤ w.brk + i ∧ w.brk + i < _; omega)]
        rfl)
      (by
        show (lq_set_next _ _ _ (w.brk + (LOG_ITEMS_PER_ALLOC - 1))).next = none
        rw [lq_set_next_next, if_pos rfl])).1

/-- The chunks that `n` calls of `lqi_new` in a row allocate, from a freelist
of `fl.length` records: `brk` moves by one chunk for every 32 records asked
for beyond those of the freelist; the item fields stay as they are. -/
theorem lqi_new_n_chunks :
    ∀ (n : Nat) (w : World) (fl : List Nat) (qs : Nat → List Nat),
      PoolInv (lq_pool w) fl qs → AllocOk w →
      (lqi_new_n n w).2.brk = w.brk + 32 * ((n + 31 - fl.length) / 32)
        ∧ (lqi_new_n n w).1.length = n
        ∧ (∀ p, ((lqi_new_n n w).2.lq_mem p).item = (w.lq_mem p).item)
  | 0, w, fl, qs, _, _ => by
    refine ⟨?_, rfl, fun _ => rfl⟩
    show w.brk = w.brk + 32 * ((0 + 31 - fl.length) / 32)
    omega
  | n + 1, w, fl, qs, h, hs => by
    obtain ⟨r, hr, hok, hinv, hiff, hbrk, hitem⟩ := lqi_new_exact w fl qs h hs
    have ih := lqi_new_n_chunks n (lqi_new w).2 _ qs hinv hok
    have e : lqi_new w = (some r, (lqi_new w).2) := Prod.ext hr rfl
    have hrun : lqi_new_n (n + 1) w
        = (r :: (lqi_new_n n (lqi_new w).2).1, (lqi_new_n n (lqi_new w).2).2) := by
      conv_lhs => unfold lqi_new_n
      generalize lqi_new w = p at e
      obtain ⟨o, w1⟩ := p
      have ho : o = some r := (Prod.mk.inj e).1
      subst ho
      rfl
    rw [hrun]
    refine ⟨?_, by simp [ih.2.1], fun p => (ih.2.2 p).trans (hitem p)⟩
    show (lqi_new_n n (lqi_new w).2).2.brk = _
    rw [ih.1, hbrk]
    cases fl with
    | nil =>
      rw [if_pos rfl, if_pos rfl]
      simp only [List.length_range', List.length_nil]
      have : LOG_ITEMS_PER_ALLOC = 32 := rfl
      omega
    | cons a rest =>
      rw [if_neg (by simp), if_neg (by simp)]
      simp only [List.length_cons, List.tail_cons]
      omega

/-- Calls of `lqi_free` on records none of which holds an item copy return and
allocate nothing. -/
theorem lqi_free_all_brk :
    ∀ (rs : List Nat) (w : World), (∀ p, (w.lq_mem p).item = none) →
      ∃ w', lqi_free_all w rs = Except.ok w' ∧ w'.brk = w.brk
  | [], w, _ => ⟨w, rfl, rfl⟩
  | r :: rs, w, hz => by
    obtain ⟨w', hrun, hb⟩ := lqi_free_all_brk rs
      { w with
        lq_mem := lq_set_next w.lq_mem r w.lqi_freelist
        lqi_freelist := some r }
      (fun p => by
        show (lq_set_next w.lq_mem r w.lqi_freelist p).item = none
        rw [lq_set_next_item]
        exact hz p)
    refine ⟨w', ?_, hb⟩
    rw [lqi_free_all, lqi_free_of_null w r (hz r)]
    exact hrun

/-- With a record on the freelist and no record holding an item copy, pairs of
`lqi_new` and `lqi_free` return and allocate no chunk. -/
theorem lq_new_free_pairs_none :
    ∀ (n : Nat) (w : World), w.lqi_freelist ≠ none → (∀ p, (w.lq_mem p).item = none) →
      ∃ w', lq_new_free_pairs n w = Except.ok w' ∧ w'.brk = w.brk
  | 0, w, _, _ => ⟨w, rfl, rfl⟩
  | n + 1, w, hf, hz => by
    cases hfl : w.lqi_freelist with
    | none => exact absurd hfl hf
    | some r =>
      have e : lqi_new w = (some r, { w with lqi_freelist := (w.lq_mem r).next }) := by
        simp [lqi_new, hfl]
      have hfree := lqi_free_of_null { w with lqi_freelist := (w.lq_mem r).next } r (hz r)
      obtain ⟨w', hrun, hb⟩ := lq_new_free_pairs_none n
        { w with
          lq_mem := lq_set_next w.lq_mem r (w.lq_mem r).next
          lqi_freelist := some r }
        (by simp)
        (fun p => by
          show (lq_set_next w.lq_mem r (w.lq_mem r).next p).item = none
          rw [lq_set_next_item]
          exact hz p)
      refine ⟨w', ?_, hb⟩
      simp only [lq_new_free_pairs, e, hfree]
      exact hrun

/-- From an empty freelist, with the first allocation succeeding and no record
holding an item copy, one or more pairs of `lqi_new` and `lqi_free` return and
allocate exactly one chunk. -/
theorem lq_new_free_pairs_one (n : Nat) (w : World) (hf : w.lqi_freelist = none)
    (hs : w.heap_script.head? ≠ some false) (hz : ∀ p, (w.lq_mem p).item = none) :
    ∃ w', lq_new_free_pairs (n + 1) w = Except.ok w'
      ∧ w'.brk = w.brk + LOG_ITEMS_PER_ALLOC := by
  obtain ⟨s, hal, -⟩ := alloc_head w hs
  have e : lqi_new w = (some w.brk,
      { w with
        lq_mem := lq_set_next (lq_link_chunk w.brk (LOG_ITEMS_PER_ALLOC - 2) 2 w.lq_mem)
          (w.brk + (LOG_ITEMS_PER_ALLOC - 1)) none
        lqi_freelist := some (w.brk + 1)
        brk := w.brk + LOG_ITEMS_PER_ALLOC
        heap_script := s }) := by
    simp [lqi_new, hf, hal]
  have hz1 : ∀ p, ((lq_set_next (lq_link_chunk w.brk (LOG_ITEMS_PER_ALLOC - 2) 2 w.lq_mem)
      (w.brk + (LOG_ITEMS_PER_ALLOC - 1)) none) p).item = none := fun p => by
    rw [lq_set_next_item, lq_link_chunk_item]
    exact hz p
  have hfree := lqi_free_of_null
      { w with
        lq_mem := lq_set_next (lq_link_chunk w.brk (LOG_ITEMS_PER_ALLOC - 2) 2 w.lq_mem)
          (w.brk + (LOG_ITEMS_PER_ALLOC - 1)) none
        lqi_freelist := some (w.brk + 1)
        brk := w.brk + LOG_ITEMS_PER_ALLOC
        heap_script := s } w.brk (hz1 w.brk)
  obtain ⟨w', hrun, hb⟩ := lq_new_free_pairs_none n
    { w with
      lq_mem := lq_set_next
        (lq_set_next (lq_link_chunk w.brk (LOG_ITEMS_PER_ALLOC - 2) 2 w.lq_mem)
          (w.brk + (LOG_ITEMS_PER_ALLOC - 1)) none) w.brk (some (w.brk + 1))
      lqi_freelist := some w.brk
      brk := w.brk + LOG_ITEMS_PER_ALLOC
      heap_script := s }
    (by simp)
    (fun p => by
      show (lq_set_next _ w.brk (some (w.brk + 1)) p).item = none
      rw [lq_set_next_item]
      exact hz1 p)
  refine ⟨w', ?_, hb⟩
  simp only [lq_new_free_pairs, e, hfree]
  exact hrun

theorem alloc_ok_head (w : World) (hs : AllocOk w) : w.heap_script.head? ≠ some false := by
  intro hh
  cases hsc : w.heap_script with
  | nil => rw [hsc] at hh; cases hh
  | cons b s =>
    rw [hsc] at hh
    have hb : b = false := by simpa using hh
    have := hs b (by rw [hsc]; exact List.mem_cons_self b s)
    rw [hb] at this
    cases this

/-- The chunk count of a run that starts at `w` and ends at a state whose
`brk` is `k` chunks further. -/
theorem chunks_allocated_of_brk (size k : Nat) (w w' : World) (hsize : 0 < size)
    (h : w'.brk = w.brk + size * k) : chunks_allocated size w w' = k := by
  unfold chunks_allocated
  rw [h, Nat.add_sub_cancel_left, Nat.mul_div_cancel_left k hsize]

/-- `n` calls of `cqi_new` in a row from an empty freelist, then the `free` of
each record: `ceil(n / 64)` chunks. -/
theorem cq_new_then_free_chunks (w : World) (qs : Nat → List Nat)
    (hc : PoolInv (cq_pool w) [] qs) (hs : AllocOk w) (n : Nat) :
    chunks_allocated ITEMS_PER_ALLOC w (cq_new_then_free n w) = (n + 63) / 64 := by
  apply chunks_allocated_of_brk _ _ _ _ (by decide)
  unfold cq_new_then_free
  rw [cqi_free_all_brk, (cqi_new_n_chunks n w [] qs hc hs).1]
  rfl

/-- `n` calls of `lqi_new` in a row from an empty freelist, then the `free` of
each record, no record holding an item copy: the run returns and has allocated
`ceil(n / 32)` chunks. -/
theorem lq_new_then_free_chunks (w : World) (qs : Nat → List Nat)
    (hl : PoolInv (lq_pool w) [] qs) (hs : AllocOk w)
    (hz : ∀ p, (w.lq_mem p).item = none) (n : Nat) :
    chunks_of_run LOG_ITEMS_PER_ALLOC w (lq_new_then_free n w) = some ((n + 31) / 32) := by
  obtain ⟨hb, -, hitem⟩ := lqi_new_n_chunks n w [] qs hl hs
  obtain ⟨w', hrun, hb'⟩ := lqi_free_all_brk (lqi_new_n n w).1 (lqi_new_n n w).2
    (fun p => (hitem p).trans (hz p))
  unfold lq_new_then_free
  rw [hrun]
  show some (chunks_allocated LOG_ITEMS_PER_ALLOC w w') = _
  rw [chunks_allocated_of_brk LOG_ITEMS_PER_ALLOC ((n + 31) / 32) w w' (by decide)
    (by rw [hb', hb]; rfl)]

/-- Claim C16 as stated fails.  From the state after start-up, where both
freelists are empty, 10,000 pairs of a `new` followed at once by the `free` of
its record return having moved `brk` by one chunk of handoff records, not 157,
and by one chunk of log records, not 313: every `new` after the first finds on
the freelist the record the `free` before it put there. -/
theorem freelist_pairs_allocate_one_chunk :
    chunks_allocated ITEMS_PER_ALLOC (boot 4 1 "d") (cq_new_free_pairs 10000 (boot 4 1 "d")) = 1
      ∧ chunks_allocated ITEMS_PER_ALLOC (boot 4 1 "d")
          (cq_new_free_pairs 10000 (boot 4 1 "d")) ≠ (10000 + 63) / 64
      ∧ chunks_of_run LOG_ITEMS_PER_ALLOC (boot 4 1 "d")
          (lq_new_free_pairs 10000 (boot 4 1 "d")) = some 1
      ∧ chunks_of_run LOG_ITEMS_PER_ALLOC (boot 4 1 "d")
          (lq_new_free_pairs 10000 (boot 4 1 "d")) ≠ some ((10000 + 31) / 32) := by
  have hc : chunks_allocated ITEMS_PER_ALLOC (boot 4 1 "d")
      (cq_new_free_pairs 10000 (boot 4 1 "d")) = 1 :=
    chunks_allocated_of_brk _ 1 _ _ (by decide)
      (cq_new_free_pairs_one 9999 (boot 4 1 "d") rfl (by simp [boot]))
  have hl : chunks_of_run LOG_ITEMS_PER_ALLOC (boot 4 1 "d")
      (lq_new_free_pairs 10000 (boot 4 1 "d")) = some 1 := by
    obtain ⟨w', hrun, hb⟩ :=
      lq_new_free_pairs_one 9999 (boot 4 1 "d") rfl (by simp [boot]) (fun _ => rfl)
    rw [hrun]
    show some (chunks_allocated LOG_ITEMS_PER_ALLOC (boot 4 1 "d") w') = _
    rw [chunks_allocated_of_brk _ 1 _ _ (by decide) hb]
  refine ⟨hc, ?_, hl, ?_⟩
  · rw [hc]
    decide
  · rw [hl]
    decide

/-- Claim C16, amended.  From a sound state with both freelists empty,
allocation succeeding and no log record holding an item copy, the chunks
allocated being read off the addresses `malloc` has handed out: `n` calls of
`new` in a row, followed by the `free` of each record obtained, return and
allocate `ceil(n / 64)` chunks of handoff records and `ceil(n / 32)` chunks of
log records, which for `n = 10000` is 157 and 313; and one or more pairs of a
`new` followed at once by the `free` of its record return and allocate exactly
one chunk. -/
theorem freelist_chunks_follow_outstanding_records (w : World) (cqs lqs : Nat → List Nat)
    (hc : PoolInv (cq_pool w) [] cqs) (hl : PoolInv (lq_pool w) [] lqs) (hs : AllocOk w)
    (hz : ∀ p, (w.lq_mem p).item = none) (n : Nat) :
    chunks_allocated ITEMS_PER_ALLOC w (cq_new_then_free n w)
        = (n + (ITEMS_PER_ALLOC - 1)) / ITEMS_PER_ALLOC
      ∧ chunks_of_run LOG_ITEMS_PER_ALLOC w (lq_new_then_free n w)
        = some ((n + (LOG_ITEMS_PER_ALLOC - 1)) / LOG_ITEMS_PER_ALLOC)
      ∧ (cqi_new_n n w).1.length = n ∧ (lqi_new_n n w).1.length = n
      ∧ chunks_allocated ITEMS_PER_ALLOC w (cq_new_then_free 10000 w) = 157
      ∧ chunks_of_run LOG_ITEMS_PER_ALLOC w (lq_new_then_free 10000 w) = some 313
      ∧ chunks_allocated ITEMS_PER_ALLOC w (cq_new_free_pairs (n + 1) w) = 1
      ∧ chunks_of_run LOG_ITEMS_PER_ALLOC w (lq_new_free_pairs (n + 1) w) = some 1 := by
  have hcf : w.cqi_freelist = none := hc.free
  have hlf : w.lqi_freelist = none := hl.free
  refine ⟨cq_new_then_free_chunks w cqs hc hs n, lq_new_then_free_chunks w lqs hl hs hz n,
    (cqi_new_n_chunks n w [] cqs hc hs).2, (lqi_new_n_chunks n w [] lqs hl hs).2.1,
    cq_new_then_free_chunks w cqs hc hs 10000, lq_new_then_free_chunks w lqs hl hs hz 10000,
    chunks_allocated_of_brk _ 1 _ _ (by decide)
      (cq_new_free_pairs_one n w hcf (alloc_ok_head w hs)), ?_⟩
  obtain ⟨w', hrun, hb⟩ := lq_new_free_pairs_one n w hlf (alloc_ok_head w hs) hz
  rw [hrun]
  show some (chunks_allocated LOG_ITEMS_PER_ALLOC w w') = _
  rw [chunks_allocated_of_brk _ 1 _ _ (by decide) hb]

/-- Claim C16, amended, from the state after start-up: 10,000 calls of `new`
in a row allocate 157 chunks of handoff records and 313 chunks of log
records. -/
theorem freelist_chunks_follow_outstanding_records_witness :
    chunks_allocated ITEMS_PER_ALLOC (boot 4 1 "d") (cq_new_then_free 10000 (boot 4 1 "d"))
        = 157
      ∧ chunks_of_run LOG_ITEMS_PER_ALLOC (boot 4 1 "d")
          (lq_new_then_free 10000 (boot 4 1 "d")) = some 313 := by
  obtain ⟨-, -, -, -, h3, h4, -⟩ :=
    freelist_chunks_follow_outstanding_records (boot 4 1 "d") (fun _ => []) (fun _ => [])
      (boot_cq_inv 4 1 "d") (boot_lq_inv 4 1 "d") (fun _ hb => by cases hb) (fun _ => rfl) 0
  exact ⟨h3, h4⟩

/-! ## Replay of an empty file and of a record larger than the buffer -/

theorem store_nil (m : Mem) (off : Nat) : store m off [] = m := by
  funext i
  simp [store]

theorem memcpy_front_zero (buf : Mem) (n : Nat) : memcpy_front buf 0 n = buf := by
  funext i
  simp [memcpy_front]

/-- Replay of an empty file with a buffer of `bsz` bytes on a stack that holds
the buffer, when the header that the stale buffer shows has a total size above
zero: the record loop is not entered, and the call returns 0 on its second look
at the end-of-file indicator. -/
theorem redo_file_sized_empty (L : ItemLayout) (bsz fuel : Nat) (p : String) (w : World)
    (hfile : w.fs p = some []) (hb : 0 < bsz) (hfuel : 2 ≤ fuel)
    (hstale : 0 < L.ITEM_ntotal w.stack) (hst : bsz < w.stack_limit) :
    redo_file_sized L bsz fuel p w
      = Run.ok (0, { w with trace := w.trace ++ [Event.redo_file p w.begin_recover] }) := by
  obtain ⟨f, rfl⟩ : ∃ f, fuel = f + 2 := ⟨fuel - 2, by omega⟩
  have hn : ¬ (L.ITEM_ntotal w.stack ≤ 0) := by omega
  have hn' : ¬ (L.ITEM_ntotal w.stack = 0) := by omega
  rw [redo_file_sized_fits L bsz _ p w hst]
  simp [redo_file_body, hfile, redo_loop, fread, redo_records, store_nil, memcpy_front_zero,
    hn', hb, Run.bind]

/-- The record loop with nothing available and a record of total size zero
never ends well: each pass leaves `processed_size` at 0. -/
theorem redo_records_stale_zero (L : ItemLayout) (buf : Mem) (h0 : L.ITEM_ntotal buf = 0) :
    ∀ (fuel cur : Nat) (w : World) (r : (Nat × Nat) × World),
      redo_records L buf 0 fuel cur 0 w ≠ Run.ok r
  | 0, _, _, _ => by
    intro h
    cases h
  | fuel + 1, cur, w, r => by
    unfold redo_records
    rw [h0, if_pos (Nat.le_refl _)]
    cases hr : redo_record L buf w with
    | error e =>
      intro h
      cases h
    | ok w1 => exact redo_records_stale_zero L buf h0 fuel (cur + 0) w1 r

/-- Replay of an empty file when the header that the stale buffer shows has
total size zero: the call does not return, whatever the stack. -/
theorem redo_file_empty_stale_zero (L : ItemLayout) (fuel : Nat) (p : String) (w : World)
    (hfile : w.fs p = some []) (h0 : L.ITEM_ntotal w.stack = 0) (r : Int × World) :
    redo_file L fuel p w ≠ Run.ok r := by
  unfold redo_file redo_file_sized
  split
  · intro h
    cases h
  · unfold redo_file_body
    simp only [hfile]
    cases fuel with
    | zero =>
      intro h
      cases h
    | succ f =>
      unfold redo_loop
      simp only [fread, List.drop_zero, List.take_nil, store_nil, List.length_nil,
        Nat.add_zero, Bool.false_eq_true, if_false, Nat.sub_self]
      cases hr : redo_records L w.stack 0 (f + 1) 0 0
          { w with trace := w.trace ++ [Event.redo_file p w.begin_recover] } with
      | ok r1 => exact absurd hr (redo_records_stale_zero L w.stack h0 (f + 1) 0 _ r1)
      | fault e =>
        intro h
        cases h
      | outOfFuel =>
        intro h
        cases h

/-- The outer loop of `redo_file` once nothing was processed and the end of
the file was not seen: each pass asks `fread` for 0 bytes, which never raises
the end-of-file indicator, finds the same record too large for the buffer, and
leaves the locals as they were. -/
theorem redo_loop_spins (L : ItemLayout) (bsz fuel0 : Nat) (w : World) :
    ∀ (f : Nat) (st : RedoLocals), st.fp.eof = false → st.need_to_read_size = 0 →
      st.read_begin_ptr = bsz → bsz < L.ITEM_ntotal st.read_buffer →
      redo_loop L bsz fuel0 f st w = Run.outOfFuel
  | 0, _, _, _, _, _ => rfl
  | f + 1, st, heof, hneed, hbegin, hbig => by
    obtain ⟨fp, buf, need, begin_ptr⟩ := st
    simp only at heof hneed hbegin hbig
    subst hneed
    subst hbegin
    unfold redo_loop
    simp only [heof, Bool.false_eq_true, if_false, fread, List.take_zero, store_nil,
      List.length_nil, Nat.add_zero, Nat.sub_zero, Nat.lt_irrefl, decide_False, Bool.or_false]
    cases fuel0 with
    | zero => rfl
    | succ g =>
      have hn : ¬ (0 + L.ITEM_ntotal buf ≤ begin_ptr) := by omega
      simp only [redo_records, if_neg hn]
      exact redo_loop_spins L begin_ptr (g + 1) w f _ rfl rfl rfl
        (by rw [memcpy_front_zero]; exact hbig)

/-- Replay, on a stack that holds the buffer, of a file longer than the buffer
whose first record, as the first read shows it, has a total size above the size
of the buffer: the call does not return, whatever the fuel, and touches nothing
but the buffer. -/
theorem redo_file_sized_oversize (L : ItemLayout) (bsz fuel : Nat) (p : String) (w : World)
    (content : List Byte) (hfile : w.fs p = some content) (hlen : bsz < content.length)
    (hbig : bsz < L.ITEM_ntotal (store w.stack 0 (content.take bsz)))
    (hst : bsz < w.stack_limit) :
    redo_file_sized L bsz fuel p w = Run.outOfFuel := by
  rw [redo_file_sized_fits L bsz fuel p w hst]
  unfold redo_file_body
  simp only [hfile]
  cases fuel with
  | zero => rfl
  | succ f =>
    have hlt : (List.take bsz content).length = bsz := by
      rw [List.length_take]
      omega
    have hn : ¬ (0 + L.ITEM_ntotal (store w.stack 0 (content.take bsz)) ≤ bsz - bsz + bsz) := by
      omega
    have hspin := redo_loop_spins L bsz (f + 1)
      { w with trace := w.trace ++ [Event.redo_file p w.begin_recover] } f
      { fp := { content := content, pos := 0 + bsz, eof := false }
        read_buffer := memcpy_front (store w.stack 0 (content.take bsz)) 0 (bsz - 0)
        need_to_read_size := 0
        read_begin_ptr := bsz - 0 } rfl rfl rfl
      (by rw [memcpy_front_zero]; exact hbig)
    unfold redo_loop
    simp only [Bool.false_eq_true, if_false, fread, List.drop_zero, hlt, Nat.lt_irrefl,
      decide_False, Bool.or_false, redo_records, if_neg hn, hspin, Run.bind]

theorem store_head (m : Mem) (hdr rest : List Byte) (n i : Nat) (hi : i < hdr.length)
    (hn : hdr.length ≤ n) : store m 0 ((hdr ++ rest).take n) i = hdr.getD i 0 := by
  unfold store
  have hl : i < ((hdr ++ rest).take n).length := by
    rw [List.length_take, List.length_append]
    omega
  rw [if_pos ⟨Nat.zero_le i, by omega⟩, Nat.sub_zero]
  rw [List.getD_eq_getElem?_getD, List.getD_eq_getElem?_getD,
    List.getElem?_take_of_lt (by omega), List.getElem?_append_left hi]

theorem packed_ntotal (m : Mem) :
    packed.ITEM_ntotal m
      = 8 + m 1 % 256 + 1 + m 2 % 256 + le32 m 4 + (if m 0 / 2 % 2 = 1 then 8 else 0) :=
  rfl

/-- The header of the record of 8 MiB and one byte, as the first read leaves it
in the buffer, shows a total size above the size of the buffer. -/
theorem oversize_header (st : Mem) (rest : List Byte) :
    buffer_size < packed.ITEM_ntotal
      (store st 0 (([1, 0, 0, 0, 248, 255, 127, 0, 0] ++ rest).take buffer_size)) := by
  have h : ∀ i, i < 9 →
      store st 0 (([1, 0, 0, 0, 248, 255, 127, 0, 0] ++ rest).take buffer_size) i
        = ([1, 0, 0, 0, 248, 255, 127, 0, 0] : List Byte).getD i 0 :=
    fun i hi => store_head _ _ _ buffer_size i hi (by decide)
  rw [packed_ntotal]
  unfold le32
  rw [h 0 (by decide), h 1 (by decide), h 2 (by decide), h 4 (by decide),
    h (4 + 1) (by decide), h (4 + 2) (by decide), h (4 + 3) (by decide)]
  decide

/-- Claim C17, the code at a file that holds one record of 8 MiB and one
byte.  The file is the image, in the packed layout, of a linked item with an
empty key and a value of 8388600 bytes; its total size is 8388609, one more
than the read buffer.  Whatever the fuel, `redo_file` does not return: the
first read fills the buffer, the record does not fit, `need_to_read_size`
becomes 0, and from then on each pass reads nothing and never reaches the end
of the file. -/
theorem redo_file_never_returns_on_oversize_record (fuel : Nat) :
    packed.ITEM_ntotal (view ([1, 0, 0, 0, 248, 255, 127, 0, 0] ++ List.replicate 8388600 0))
        = buffer_size + 1
      ∧ ([1, 0, 0, 0, 248, 255, 127, 0, 0] ++ List.replicate 8388600 0).length
        = buffer_size + 1
      ∧ redo_file packed fuel "d/log_0"
          ((boot 4 1 "d").put "d/log_0"
            ([1, 0, 0, 0, 248, 255, 127, 0, 0] ++ List.replicate 8388600 0))
        = Run.outOfFuel := by
  have hlen : (List.replicate 8388600 (0 : Byte)).length = 8388600 :=
    List.length_replicate 8388600 0
  generalize List.replicate 8388600 (0 : Byte) = rest at hlen
  have hsize : ([1, 0, 0, 0, 248, 255, 127, 0, 0] ++ rest).length = buffer_size + 1 := by
    rw [List.length_append, hlen]
    simp only [List.length_cons, List.length_nil]
    decide
  refine ⟨?_, hsize, ?_⟩
  · rw [packed_ntotal]
    unfold le32 view
    simp only [List.cons_append, List.getD_cons_zero, List.getD_cons_succ]
    norm_num [buffer_size]
  · unfold redo_file
    refine redo_file_sized_oversize packed buffer_size fuel "d/log_0" _
      ([1, 0, 0, 0, 248, 255, 127, 0, 0] ++ rest) ?_ ?_ ?_ ?_
    · simp [World.put]
    · rw [hsize]
      omega
    · exact oversize_header _ rest
    · show buffer_size < 2 * buffer_size
      norm_num [buffer_size]

/-- Replay of an empty file on a stack that holds the frame of `redo_file`.
When the header that the stale read buffer shows has a total size above zero,
`redo_file` on an existing file of length 0 returns 0, for every table: the
record loop is not entered, so no record is replayed and nothing is linked or
unlinked; the table and the files are those before the call, and only the note
of the call is new in the world. -/
theorem redo_file_empty_of_stale_size (L : ItemLayout) (fuel : Nat) (p : String) (w : World)
    (hfile : w.fs p = some []) (hfuel : 2 ≤ fuel) (hstale : 0 < L.ITEM_ntotal w.stack)
    (hst : buffer_size < w.stack_limit) :
    redo_file L fuel p w
        = Run.ok (0, { w with trace := w.trace ++ [Event.redo_file p w.begin_recover] })
      ∧ ∀ r, redo_file L fuel p w = Run.ok r →
          r.1 = 0 ∧ r.2.table = w.table ∧ replayed r.2.trace = replayed w.trace
            ∧ r.2.fs = w.fs := by
  have h := redo_file_sized_empty L buffer_size fuel p w hfile (by decide) hfuel hstale hst
  refine ⟨h, fun r hr => ?_⟩
  unfold redo_file at hr
  rw [h] at hr
  simp only [Run.ok.injEq] at hr
  subst hr
  refine ⟨rfl, rfl, ?_, rfl⟩
  simp [replayed, List.filterMap_append]

/-- The empty log file of writer 0 right after start-up under a stack limit of
16 MiB, with one item in the table: the call returns 0 and the table still
holds that item. -/
theorem redo_file_empty_at_start :
    (redo_file packed 2 "d/log_0"
        { boot 4 1 "d" with table := [packed_image 1 [107] [49]] }).map
      (fun r => (r.1, r.2.table))
    = Run.ok (0, [packed_image 1 [107] [49]]) := by
  rw [(redo_file_empty_of_stale_size packed 2 "d/log_0"
    { boot 4 1 "d" with table := [packed_image 1 [107] [49]] } (by decide) (by decide)
    (by decide) (by show buffer_size < 2 * buffer_size; norm_num [buffer_size])).1]
  rfl

/-- Claim C20, the code on the thread that `recover_thread_init` creates.  The
thread has default attributes, so its stack is `default_stack_limit` bytes, as
large as the array `read_buffer` in the frame of `redo_file`: on an existing
file of length 0 the call faults before it looks at the file, for every table,
and so does not return. -/
theorem redo_file_empty_file_overflows_stack (L : ItemLayout) (fuel : Nat) (p : String)
    (w : World) (_hfile : w.fs p = some []) (h : w.stack_limit ≤ default_stack_limit) :
    redo_file L fuel p w = Run.fault Fault.stack_overflow
      ∧ ∀ r, redo_file L fuel p w ≠ Run.ok r := by
  have hf := redo_file_stack_overflow L fuel p w h
  refine ⟨hf, fun r hr => ?_⟩
  rw [hf] at hr
  cases hr

/-- Claim C20 at the empty log file of writer 0 right after start-up, with one
item in the table and the default stack: the call faults. -/
theorem redo_file_empty_file_overflows_stack_witness :
    ({ boot 4 1 "d" with
        table := [packed_image 1 [107] [49]]
        stack_limit := default_stack_limit }).fs "d/log_0" = some []
      ∧ redo_file packed 2 "d/log_0"
          { boot 4 1 "d" with
            table := [packed_image 1 [107] [49]]
            stack_limit := default_stack_limit }
        = Run.fault Fault.stack_overflow :=
  ⟨by decide,
    (redo_file_empty_file_overflows_stack packed 2 "d/log_0"
      { boot 4 1 "d" with
        table := [packed_image 1 [107] [49]]
        stack_limit := default_stack_limit } (by decide) (Nat.le_refl _)).1⟩

/-- Replay, on a stack that holds the buffer, of a file that holds one record
and fits the buffer, the header in the buffer showing the length of the file
as total size: the call returns 0 after one pass of the record loop, over that
record. -/
theorem redo_file_sized_single_record (L : ItemLayout) (bsz fuel : Nat) (p : String)
    (w w1 : World) (content : List Byte) (hfile : w.fs p = some content)
    (hpos : 0 < content.length) (hfit : content.length ≤ bsz)
    (hn : L.ITEM_ntotal (store w.stack 0 content) = content.length) (hfuel : 3 ≤ fuel)
    (hrec : redo_record L (store w.stack 0 content)
      { w with trace := w.trace ++ [Event.redo_file p w.begin_recover] } = Except.ok w1)
    (hst : bsz < w.stack_limit) :
    (redo_file_sized L bsz fuel p w).map (fun r => (r.1, r.2.table, r.2.trace))
      = Run.ok (0, w1.table, w1.trace) := by
  obtain ⟨f, rfl⟩ : ∃ f, fuel = f + 3 := ⟨fuel - 3, by omega⟩
  have htake : content.take bsz = content := List.take_of_length_le hfit
  have h1 : 0 + content.length ≤ bsz - bsz + content.length := by omega
  have h2 : ¬ (0 + content.length + content.length ≤ bsz - bsz + content.length) := by omega
  rw [redo_file_sized_fits L bsz _ p w hst]
  unfold redo_file_body
  simp only [hfile]
  rcases Nat.lt_or_ge content.length bsz with hlt | hge
  · simp only [redo_loop, Bool.false_eq_true, if_false, fread, List.drop_zero, htake,
      redo_records, hn, if_pos h1, hrec, if_neg h2, hlt, decide_True, Bool.or_true,
      if_true, Run.bind, Run.map]
  · have hlen : content.length = bsz := by omega
    have hdrop : List.take (0 + content.length) (List.drop (0 + content.length) content)
        = [] := by
      rw [Nat.zero_add, List.drop_length, List.take_nil]
    have hn2 : L.ITEM_ntotal
        (store (memcpy_front (store w.stack 0 content) (0 + content.length)
          (bsz - (0 + content.length))) (bsz - (0 + content.length)) [])
        = content.length := by
      rw [store_nil]
      have : memcpy_front (store w.stack 0 content) (0 + content.length)
          (bsz - (0 + content.length)) = store w.stack 0 content := by
        funext i
        unfold memcpy_front
        rw [if_neg (by omega)]
      rw [this, hn]
    have h3 : ¬ (0 + content.length ≤ bsz - (0 + content.length) + 0) := by omega
    have hnl : ¬ (content.length < bsz) := by omega
    have hp0 : 0 < 0 + content.length := by omega
    simp only [redo_loop, Bool.false_eq_true, if_false, fread, List.drop_zero, htake,
      redo_records, hn, if_pos h1, hrec, if_neg h2, hnl, decide_False, Bool.or_false,
      hdrop, List.length_nil, hn2, if_neg h3, hp0, decide_True, Bool.false_or,
      Bool.or_true, if_true, Run.bind, Run.map]

end Memcached
